import Mathlib

/-!
# llmproxy (`main.go`): backend selection, retry loop and streaming relay

A shallow embedding of the request-routing engine of `main.go`.

* Go's `int` is the 64-bit two's complement integer: values are `Int`, and the
  places where the source adds or subtracts go through `wrapInt`.
* A `*Backend` is a pointer into `config.Backends`; it is modelled by the index
  of the backend in the registry (`none` for `nil`).
* `math/rand` is a stream `rnd : Nat → Nat` of raw random values together with
  the number of values already consumed; `rand.Intn n` reduces the next raw
  value modulo `n`, so every value of `[0, n)` can be drawn.
* A Go runtime panic (`rand.Intn` on a non-positive argument, index out of
  range) is the outer `none` of an `Option` result.
* The network and the client connection are explicit: `Net` says what the
  upstream does with each dispatched request, and the calls made on the
  `http.ResponseWriter` are recorded as a list of `ClientOp`.
* `encoding/json` and `bufio.Scanner` are library code: a request carries the
  outcome of the two `json.Unmarshal` calls, and a response body is given by
  the lines the scanner delimits.
* One request is handled at a time: no other request touches `roundRobinIdx`
  between two calls of `nextBackend`. Log output is left out.
-/

namespace LLMProxy

/-! ## Data model -/

/-- Backend descriptor, `type Backend struct`. -/
structure Backend where
  Name : String
  URL : String
  APIKey : String
  Weight : Int
  DefaultModel : String
  Models : List String
  deriving DecidableEq, Repr

/-- Configuration, `type Config struct` (`Server.Port` flattened to `Port`,
`Timeout` in nanoseconds). -/
structure Config where
  Port : Int
  Timeout : Int
  Retry : Int
  Mode : String
  Backends : List Backend
  deriving DecidableEq, Repr

/-- Largest value of Go's `int` on a 64-bit platform. -/
def maxInt : Int := 2 ^ 63 - 1

/-- Smallest value of Go's `int` on a 64-bit platform. -/
def minInt : Int := -(2 ^ 63)

/-- Two's complement wrap-around of a 64-bit signed addition or subtraction. -/
def wrapInt (x : Int) : Int := (x + 2 ^ 63) % 2 ^ 64 - 2 ^ 63

/-- Selection state of the process: the shared `roundRobinIdx` and the number of
values already taken from the random source. -/
structure Sel where
  roundRobinIdx : Int
  drawn : Nat
  deriving DecidableEq, Repr

/-- The call `rand.Intn(n)` on raw random value `d`: panics when `n <= 0`,
otherwise a value of `[0, n)`. -/
def randIntn (d : Nat) (n : Int) : Option Int :=
  if n ≤ 0 then none else some ((d : Int) % n)

/-! ## Backend selection -/

/-- The inner loop of `findBackend` (lines 113-117): does `models` hold a
string equal to `model`. -/
def listsModel : List String → String → Bool
  | [], _ => false
  | m :: ms, model => if m = model then true else listsModel ms model

/-- The outer loop of `findBackend` (lines 111-118), started at index `i`: the
index of the first backend that lists `model`. -/
def scanBackends : List Backend → Nat → String → Option Nat
  | [], _, _ => none
  | b :: bs, i, model =>
    if listsModel b.Models model then some i else scanBackends bs (i + 1) model

/-- The model used for a backend chosen without an exact match (lines 123-126,
213-216 and 244-247): `DefaultModel`, or `Models[0]` when that is empty and the
list is not. -/
def useModelOf (b : Backend) : String :=
  match b.Models with
  | m :: _ => if b.DefaultModel = "" then m else b.DefaultModel
  | [] => b.DefaultModel

/-- The function `findBackend` (lines 105-129): the chosen backend (`none` is
`nil`), the model to use, and the selection state afterwards. -/
def findBackend (cfg : Config) (rnd : Nat → Nat) (s : Sel) (model : String) :
    (Option Nat × String) × Sel :=
  if h : cfg.Backends.length = 0 then ((none, ""), s)
  else
    match scanBackends cfg.Backends 0 model with
    | some i => ((some i, model), s)
    | none =>
      let idx := rnd s.drawn % cfg.Backends.length
      let b := cfg.Backends.get ⟨idx, Nat.mod_lt _ (Nat.pos_of_ne_zero h)⟩
      ((some idx, useModelOf b), { s with drawn := s.drawn + 1 })

/-- Weight normalisation of lines 148-151 and 157-160. -/
def normWeight (w : Int) : Int := if w ≤ 0 then 1 else w

/-- The summing loop of `nextBackend` (lines 146-153), from accumulator `acc`. -/
def totalWeight : List Backend → Int → Int
  | [], acc => acc
  | b :: bs, acc => totalWeight bs (wrapInt (acc + normWeight b.Weight))

/-- The walking loop of `nextBackend` (lines 156-165), at index `i` with
remainder `r`: the index at which the remainder goes negative, `none` when the
loop runs off the end of the registry. -/
def walk : List Backend → Nat → Int → Option Nat
  | [], _, _ => none
  | b :: bs, i, r =>
    if wrapInt (r - normWeight b.Weight) < 0 then some i
    else walk bs (i + 1) (wrapInt (r - normWeight b.Weight))

/-- The function `nextBackend` (lines 132-167). Outer `none`: the call panics;
inner `none`: it returns `nil`. -/
def nextBackend (cfg : Config) (rnd : Nat → Nat) (s : Sel) : Option (Option Nat × Sel) :=
  if cfg.Backends.length = 0 then some (none, s)
  else if cfg.Mode = "round-robin" then
    let idx := Int.tmod s.roundRobinIdx cfg.Backends.length
    if 0 ≤ idx then
      some (some idx.toNat, { s with roundRobinIdx := wrapInt (s.roundRobinIdx + 1) })
    else none
  else
    match randIntn (rnd s.drawn) (totalWeight cfg.Backends 0) with
    | none => none
    | some r =>
      some (some ((walk cfg.Backends 0 r).getD 0), { s with drawn := s.drawn + 1 })

/-- Sequential calls of `nextBackend`: `k` calls one after the other, each on
the state the previous one left; the backends returned, in call order. -/
def nextBackends (cfg : Config) (rnd : Nat → Nat) : Nat → Sel → Option (List (Option Nat) × Sel)
  | 0, s => some ([], s)
  | k + 1, s =>
    match nextBackend cfg rnd s with
    | none => none
    | some (b, s1) =>
      match nextBackends cfg rnd k s1 with
      | none => none
      | some (bs, s2) => some (b :: bs, s2)

/-! ## Client connection, upstream and request body -/

/-- Calls made on the client's `http.ResponseWriter`. `error msg code` is
`http.Error(w, msg, code)`. -/
inductive ClientOp where
  | setHeader (key value : String)
  | writeHeader (code : Nat)
  | write (data : String)
  | flush
  | error (msg : String) (code : Nat)
  deriving DecidableEq, Repr

/-- A decoded JSON value as `encoding/json` stores it in an `interface{}`; a
number is a `float64`, given by its IEEE-754 bit pattern. -/
inductive JVal where
  | null
  | bool (b : Bool)
  | num (bits : Nat)
  | str (s : String)
  | arr (items : List JVal)
  | obj (fields : List (String × JVal))

/-- A `map[string]interface{}`: keys are unique, the order carries no meaning. -/
abbrev JMap := List (String × JVal)

/-- The assignment `m[key] = v` on a Go map. -/
def JMap.set (m : JMap) (key : String) (v : JVal) : JMap :=
  (key, v) :: m.filter fun kv => !(kv.1 == key)

/-- The read `m[key]` on a Go map. -/
def JMap.get? (m : JMap) (key : String) : Option JVal :=
  (m.find? fun kv => kv.1 == key).map Prod.snd

/-- What the upstream side does with one dispatched request.
* `invalidURL`: `http.NewRequest` rejects the URL;
* `noResponse`: `client.Do` fails (connection refused, timeout, DNS);
* `response status lines readErr`: a response with this status code arrives;
  `lines` are the lines of its body that get transferred, each ended by a
  newline, and the transfer ends with `readErr` (`none`: end of stream). -/
inductive Upstream where
  | invalidURL (err : String)
  | noResponse (err : String)
  | response (status : Int) (lines : List String) (readErr : Option String)
  deriving DecidableEq, Repr

/-- The network: what the upstream does with the `k`-th dispatch of a request,
given the URL, the `Authorization` header and the body sent. -/
abbrev Net := Nat → String → String → JMap → Upstream

/-- The bytes of a body given by its lines. -/
def bodyText (lines : List String) : String :=
  String.join (lines.map fun l => l ++ "\n")

/-- The call `strings.TrimSuffix(u, "/")`. -/
def trimSlash (u : String) : String :=
  match u.data.reverse with
  | '/' :: rest => String.mk rest.reverse
  | _ => u

/-- Size of the scanner buffer and largest token size, `64*1024` (line 302). -/
def maxTokenSize : Nat := 64 * 1024

/-- The function `dropCR` of `bufio`: `bufio.ScanLines` takes one carriage
return at the end of the text before a newline as part of the end-of-line
marker and removes it from the token it delivers. -/
def dropCR (l : String) : String :=
  match l.data.reverse with
  | '\r' :: rest => String.mk rest.reverse
  | _ => l

/-- The scanner of lines 301-304 over a body: the lines that successive
`scanner.Scan()` calls deliver, and `scanner.Err()` once `Scan` returns false.
The split function is the default `bufio.ScanLines`: each token is the text up
to the next newline, less one trailing carriage return. A line that does not
fit the buffer together with its newline stops the scan with
`bufio.ErrTooLong`. -/
def scanLines : List String → Option String → List String × Option String
  | [], readErr => ([], readErr)
  | l :: ls, readErr =>
    if l.utf8ByteSize < maxTokenSize then
      ((dropCR l :: (scanLines ls readErr).1), (scanLines ls readErr).2)
    else ([], some "bufio.Scanner: token too long")

/-- The body of the streaming loop (lines 304-311) over the scanned lines. -/
def relay : List String → List ClientOp
  | [] => []
  | line :: rest =>
    if line = "" then relay rest
    else ClientOp.write (line ++ "\n\n") :: ClientOp.flush :: relay rest

/-- The three headers that the streaming branch of `doRequest` sets (lines 292-294). -/
def sseHeaders : List ClientOp :=
  [.setHeader "Content-Type" "text/event-stream", .setHeader "Cache-Control" "no-cache",
   .setHeader "Connection" "keep-alive"]

/-- The function `doRequest` (lines 268-319) for the `k`-th dispatch: the calls
made on the client connection and the error returned (`none` is `nil`).
`isFlusher` says whether the response writer is an `http.Flusher`. -/
def doRequest (net : Net) (k : Nat) (isFlusher : Bool) (backend : Backend) (reqData : JMap)
    (stream : Bool) : List ClientOp × Option String :=
  match net k (trimSlash backend.URL ++ "/chat/completions") ("Bearer " ++ backend.APIKey)
      reqData with
  | .invalidURL e => ([], some ("创建请求失败: " ++ e))
  | .noResponse e => ([], some ("请求失败: " ++ e))
  | .response status lines readErr =>
    if status ≥ 400 then
      ([], some ("HTTP " ++ toString status ++ ": " ++ bodyText lines))
    else if stream then
      if isFlusher then
        (sseHeaders ++ relay (scanLines lines readErr).1, (scanLines lines readErr).2)
      else (sseHeaders, some "不支持流式响应")
    else
      (.setHeader "Content-Type" "application/json" ::
        (if bodyText lines = "" then [] else [.write (bodyText lines)]), readErr)

/-! ## The handler `handleChat` -/

/-- One call of `doRequest` made by `handleChat`: loop index, backend, resolved
model, body sent, calls made on the client connection, error returned. -/
structure Attempt where
  index : Nat
  backend : Nat
  useModel : String
  reqData : JMap
  ops : List ClientOp
  err : Option String

/-- A run of `handleChat`: the calls on the client connection before the
first dispatch, the dispatches in order, the calls on the client connection
after the last dispatch, whether the handler panicked, and the selection state
left behind. -/
structure Run where
  head : List ClientOp
  attempts : List Attempt
  final : List ClientOp
  panicked : Bool
  sel : Sel

/-- Local variables of `handleChat` that the retry loop reads and writes. -/
structure LoopState where
  backend : Nat
  useModel : String
  reqMap : JMap
  reqData : JMap
  tried : List String
  lastErr : Option String
  sel : Sel

/-- The search for another backend on a retry (lines 240-252), with `j`
iterations left: the first backend returned by `nextBackend` whose name is not
in `tried` (`none`: the loop ends without `break`). Outer `none`: panic. -/
def retrySearch (cfg : Config) (rnd : Nat → Nat) (tried : List String) :
    Nat → Sel → Option (Option Nat × Sel)
  | 0, s => some (none, s)
  | j + 1, s =>
    match nextBackend cfg rnd s with
    | none => none
    | some (none, s1) => retrySearch cfg rnd tried j s1
    | some (some b, s1) =>
      match cfg.Backends[b]? with
      | none => none
      | some bk =>
        if tried.contains bk.Name then retrySearch cfg rnd tried j s1 else some (some b, s1)

/-- Lines 238-254: the retry search and the updates made when it finds a
backend; when it finds none the variables keep the previous attempt's values. -/
def reselect (cfg : Config) (rnd : Nat → Nat) (st : LoopState) : Option LoopState :=
  match retrySearch cfg rnd st.tried cfg.Backends.length st.sel with
  | none => none
  | some (none, s1) => some { st with sel := s1 }
  | some (some b, s1) =>
    match cfg.Backends[b]? with
    | none => none
    | some bk =>
      some { st with
        backend := b, useModel := useModelOf bk,
        reqMap := st.reqMap.set "model" (.str (useModelOf bk)),
        reqData := st.reqMap.set "model" (.str (useModelOf bk)),
        sel := s1 }

/-- The verb `%v` applied to `lastErr` (line 265). -/
def errText : Option String → String
  | none => "<nil>"
  | some e => e

/-- The retry loop of `handleChat` (lines 237-265) with `n` iterations left,
at loop index `i`. -/
def retryLoop (cfg : Config) (net : Net) (rnd : Nat → Nat) (isFlusher stream : Bool) :
    Nat → Nat → LoopState → Run
  | 0, _, st =>
    { head := [], attempts := [],
      final := [.error ("所有后端失败: " ++ errText st.lastErr) 502],
      panicked := false, sel := st.sel }
  | n + 1, i, st =>
    match (if 0 < i then reselect cfg rnd st else some st) with
    | none => { head := [], attempts := [], final := [], panicked := true, sel := st.sel }
    | some st1 =>
      match cfg.Backends[st1.backend]? with
      | none => { head := [], attempts := [], final := [], panicked := true, sel := st1.sel }
      | some bk =>
        match doRequest net i isFlusher bk st1.reqData stream with
        | (ops, none) =>
          { head := [],
            attempts := [⟨i, st1.backend, st1.useModel, st1.reqData, ops, none⟩],
            final := [], panicked := false, sel := st1.sel }
        | (ops, some e) =>
          let rest := retryLoop cfg net rnd isFlusher stream n (i + 1)
            { st1 with tried := bk.Name :: st1.tried, lastErr := some e }
          { rest with
            attempts := ⟨i, st1.backend, st1.useModel, st1.reqData, ops, some e⟩ :: rest.attempts }

/-- Lines 225-265 of `handleChat`, once a backend and a model are selected:
the body is rebuilt from `reqMap` with the model field set (a `nil` map makes
the assignment of line 230 panic), and the retry loop runs `config.Retry`
times. -/
def handleSelected (cfg : Config) (net : Net) (rnd : Nat → Nat) (isFlusher stream : Bool)
    (backend : Nat) (useModel : String) (reqMap : Option JMap) (s : Sel) : Run :=
  match reqMap with
  | none => { head := [], attempts := [], final := [], panicked := true, sel := s }
  | some m =>
    retryLoop cfg net rnd isFlusher stream cfg.Retry.toNat 0
      { backend := backend, useModel := useModel,
        reqMap := m.set "model" (.str useModel),
        reqData := m.set "model" (.str useModel),
        tried := [], lastErr := none, sel := s }

/-- The fields of `ChatRequest` that the handler reads. -/
structure ChatRequest where
  Model : String
  Stream : Bool
  deriving DecidableEq, Repr

/-- An incoming request as `handleChat` sees it: the method, whether reading
the body fails, the outcome of `json.Unmarshal(body, &req)` and the map that
`json.Unmarshal(body, &reqMap)` leaves (`none`: the map stays `nil`, as for the
body `null`). -/
structure Request where
  Method : String
  readFails : Bool
  req : Except String ChatRequest
  reqMap : Option JMap

/-- The three CORS headers set at lines 171-173. -/
def corsHeaders : List ClientOp :=
  [.setHeader "Access-Control-Allow-Origin" "*",
   .setHeader "Access-Control-Allow-Methods" "POST, OPTIONS",
   .setHeader "Access-Control-Allow-Headers" "Content-Type, Authorization"]

/-- A run that ends before any dispatch with the given calls on the client. -/
def earlyReply (ops : List ClientOp) (s : Sel) : Run :=
  { head := corsHeaders ++ ops, attempts := [], final := [], panicked := false, sel := s }

/-- The handler `handleChat` (lines 169-266). -/
def handleChat (cfg : Config) (net : Net) (rnd : Nat → Nat) (isFlusher : Bool) (s : Sel)
    (r : Request) : Run :=
  if r.Method = "OPTIONS" then earlyReply [.writeHeader 200] s
  else if r.Method ≠ "POST" then earlyReply [.error "Method not allowed" 405] s
  else if cfg.Backends.length = 0 then earlyReply [.error "没有可用的后端" 503] s
  else if r.readFails then earlyReply [.error "读取请求失败" 400] s
  else
    match r.req with
    | .error e => earlyReply [.error ("Invalid JSON: " ++ e) 400] s
    | .ok req =>
      if req.Model = "" ∨ req.Model = "auto" then
        match nextBackend cfg rnd s with
        | none => { head := corsHeaders, attempts := [], final := [], panicked := true, sel := s }
        | some (none, s1) => earlyReply [.error "没有可用的后端" 503] s1
        | some (some b, s1) =>
          match cfg.Backends[b]? with
          | none =>
            { head := corsHeaders, attempts := [], final := [], panicked := true, sel := s1 }
          | some bk =>
            { handleSelected cfg net rnd isFlusher req.Stream b (useModelOf bk) r.reqMap s1 with
              head := corsHeaders }
      else
        match findBackend cfg rnd s req.Model with
        | ((none, _), s1) => earlyReply [.error "没有可用的后端" 503] s1
        | ((some b, m), s1) =>
          { handleSelected cfg net rnd isFlusher req.Stream b m r.reqMap s1 with
            head := corsHeaders }

/-! ## Quantities the statements are phrased in -/

/-- Sum of the normalised weights of a registry as a mathematical integer,
without wrap-around. -/
def sumNorm (bs : List Backend) : Int := (bs.map fun b => normWeight b.Weight).sum

/-- Sum of the normalised weights of the backends at indices `0 .. k-1`. -/
def cumWeight (bs : List Backend) (k : Nat) : Int := sumNorm (bs.take k)

/-- Number of draws `d` of `[0, sumNorm)` for which `nextBackend` returns the
backend at index `i`. -/
def drawsFor (cfg : Config) (i : Nat) : Nat :=
  ((List.range (sumNorm cfg.Backends).toNat).filter fun d =>
    decide ((nextBackend cfg (fun _ => d) ⟨0, 0⟩).map Prod.fst = some (some i))).length

/-- Number of draws `d` of `[0, N)` for which the fallback of `findBackend`
(requested model listed nowhere) returns the backend at index `i`. -/
def fallbackDrawsFor (cfg : Config) (model : String) (i : Nat) : Nat :=
  ((List.range cfg.Backends.length).filter fun d =>
    decide ((findBackend cfg (fun _ => d) ⟨0, 0⟩ model).1.1 = some i)).length

/-- The bytes that a sequence of calls on the client connection writes through
`Write` (the body of an `http.Error` reply apart). -/
def writtenBytes : List ClientOp → String
  | [] => ""
  | .write data :: rest => data ++ writtenBytes rest
  | _ :: rest => writtenBytes rest

/-- The bytes of the backend's response that an attempt wrote to the client. -/
def Attempt.writtenSoFar (a : Attempt) : String := writtenBytes a.ops

/-- The integers that `calls` further sequential calls of `nextBackend` compute
are representable: in round-robin mode the counter is non-negative and stays at
most `maxInt` over `calls` increments; in weighted-random mode the normalised
weights sum to at most `maxInt`. -/
def SelFits (cfg : Config) (s : Sel) (calls : Nat) : Prop :=
  if cfg.Mode = "round-robin" then 0 ≤ s.roundRobinIdx ∧ s.roundRobinIdx + calls ≤ maxInt
  else sumNorm cfg.Backends ≤ maxInt

instance (cfg : Config) (s : Sel) (calls : Nat) : Decidable (SelFits cfg s calls) := by
  unfold SelFits
  exact inferInstance

/-- The name of the backend at index `b` of the registry. -/
def backendName (cfg : Config) (b : Nat) : String :=
  match cfg.Backends[b]? with
  | some bk => bk.Name
  | none => ""

/-- The names of the backends that the dispatches of a run go to, in order. -/
def dispatchedNames (cfg : Config) (run : Run) : List String :=
  run.attempts.map fun a => backendName cfg a.backend

/-- Every attempt of the list goes either to the backend of the attempt before
it (`prev` for the first one) or to a backend whose name is not among the names
attempted before it (`tried` for the first one). -/
def freshOrRepeat (cfg : Config) : List String → Nat → List Attempt → Prop
  | _, _, [] => True
  | tried, prev, a :: rest =>
    (a.backend = prev ∨ backendName cfg a.backend ∉ tried) ∧
    freshOrRepeat cfg (backendName cfg a.backend :: tried) a.backend rest

/-- The error that `lastErr` holds after the given attempts, from initial value `e0`. -/
def lastErrAfter (attempts : List Attempt) (e0 : Option String) : Option String :=
  attempts.foldl (fun _ a => a.err) e0

/-- The request is a POST whose body is read and decodes as a JSON object: the
requests for which `handleChat` reaches the selection of a backend and the
rewrite of the model field. -/
def Request.isChatPost (r : Request) : Prop :=
  r.Method = "POST" ∧ r.readFails = false ∧ (∃ cr, r.req = .ok cr) ∧ ∃ m, r.reqMap = some m

/-! ## Concrete registries and environments -/

/-- Registry of two backends that both list `gpt-4`; the second also lists `gpt-3`. -/
def cfgShared : Config :=
  { Port := 8080, Timeout := 180, Retry := 3, Mode := "random",
    Backends := [
      { Name := "a", URL := "http://a/v1", APIKey := "ka", Weight := 1,
        DefaultModel := "gpt-4", Models := ["gpt-4"] },
      { Name := "b", URL := "http://b/v1", APIKey := "kb", Weight := 3,
        DefaultModel := "", Models := ["gpt-3", "gpt-4"] }] }

/-- Registry of three backends with weights 1, 1 and 2 in weighted-random mode. -/
def cfgWeights : Config :=
  { Port := 8080, Timeout := 180, Retry := 3, Mode := "random",
    Backends := [
      { Name := "a", URL := "http://a/v1", APIKey := "ka", Weight := 1,
        DefaultModel := "ma", Models := [] },
      { Name := "b", URL := "http://b/v1", APIKey := "kb", Weight := 1,
        DefaultModel := "mb", Models := [] },
      { Name := "c", URL := "http://c/v1", APIKey := "kc", Weight := 2,
        DefaultModel := "mc", Models := [] }] }

/-- Registry of three backends with distinct names in round-robin mode. -/
def cfgRR : Config :=
  { Port := 8080, Timeout := 180, Retry := 3, Mode := "round-robin",
    Backends := [
      { Name := "a", URL := "http://a/v1", APIKey := "ka", Weight := 1,
        DefaultModel := "ma", Models := [] },
      { Name := "b", URL := "http://b/v1", APIKey := "kb", Weight := 1,
        DefaultModel := "mb", Models := [] },
      { Name := "c", URL := "http://c/v1", APIKey := "kc", Weight := 2,
        DefaultModel := "mc", Models := [] }] }

/-- Registry of two backends: the first has a default model, the second has
neither a default model nor a model list. -/
def cfgBare : Config :=
  { Port := 8080, Timeout := 180, Retry := 3, Mode := "random",
    Backends := [
      { Name := "a", URL := "http://a/v1", APIKey := "ka", Weight := 1,
        DefaultModel := "ma", Models := ["ma"] },
      { Name := "b", URL := "http://b/v1", APIKey := "kb", Weight := 1,
        DefaultModel := "", Models := [] }] }

/-- An upstream that answers every dispatch with status 200 and the event
stream `data: a`, blank line, `data: b`. -/
def netSSE : Net := fun _ _ _ _ => .response 200 ["data: a", "", "data: b"] none

/-- An upstream that answers every dispatch with status 200 and the same
event stream with the line ends `\r\n`: the text between two newlines is
`data: a\r`, `\r`, `data: b\r`. -/
def netCRLF : Net := fun _ _ _ _ => .response 200 ["data: a\r", "\r", "data: b\r"] none

/-- A backend descriptor. -/
def backendA : Backend :=
  { Name := "a", URL := "http://a/v1/", APIKey := "ka", Weight := 1,
    DefaultModel := "ma", Models := [] }

/-- An upstream that refuses every connection. -/
def netDown : Net := fun _ _ _ _ => .noResponse "connection refused"

/-- An upstream whose first response breaks off after the line `data: a`, and
whose later responses are the complete stream `data: b`. -/
def netCut : Net := fun k _ _ _ =>
  if k = 0 then .response 200 ["data: a"] (some "unexpected EOF")
  else .response 200 ["data: b"] none

/-- A non-streaming POST request for the model `auto`. -/
def reqAuto : Request :=
  { Method := "POST", readFails := false, req := .ok { Model := "auto", Stream := false },
    reqMap := some [("model", .str "auto")] }

/-- A streaming POST request for the model `auto`. -/
def reqStream : Request :=
  { Method := "POST", readFails := false, req := .ok { Model := "auto", Stream := true },
    reqMap := some [("model", .str "auto"), ("stream", .bool true)] }

/-- The run of `handleChat` on `cfgRR` for the request `reqAuto` when every
connection is refused. -/
def runDown : Run := handleChat cfgRR netDown (fun _ => 0) false ⟨0, 0⟩ reqAuto

/-- The run of `handleChat` on `cfgRR` for the streaming request `reqStream`
when the first response breaks off. -/
def runCut : Run := handleChat cfgRR netCut (fun _ => 0) true ⟨0, 0⟩ reqStream

/-! ## Further quantities the statements are phrased in -/

/-- The string in the `model` field of a map (`none`: no such field, or not a
string). -/
def modelField (m : JMap) : Option String :=
  match m.get? "model" with
  | some (.str s) => some s
  | _ => none

/-- An upstream that answers every dispatch with status 200 and a one-line
JSON body. -/
def netOK : Net := fun _ _ _ _ => .response 200 ["\x7b\"ok\":true\x7d"] none

/-- An upstream that answers every dispatch with status 500 and the body
`secret stack trace`. -/
def net500 : Net := fun _ _ _ _ => .response 500 ["secret stack trace"] none

/-! ## The handler `handleModels` -/

/-- One element of the `data` list of `handleModels` (lines 332-336). -/
structure ModelEntry where
  id : String
  object : String
  owned_by : String
  deriving DecidableEq, Repr

/-- The inner loop of `handleModels` (lines 329-338) for a backend of name
`owner`, on the pair of the keys of `seen` and the `models` slice. -/
def addModels (owner : String) :
    List String → List String × List ModelEntry → List String × List ModelEntry
  | [], st => st
  | m :: ms, st =>
    if st.1.contains m then addModels owner ms st
    else addModels owner ms (m :: st.1, st.2 ++ [⟨m, "model", owner⟩])

/-- The outer loop of `handleModels` (lines 328-339). -/
def addBackends :
    List Backend → List String × List ModelEntry → List String × List ModelEntry
  | [], st => st
  | b :: bs, st => addBackends bs (addModels b.Name b.Models st)

/-- The `data` list that `handleModels` (lines 321-346) encodes in its reply. -/
def handleModels (cfg : Config) : List ModelEntry :=
  (addBackends cfg.Backends ([], [])).2

/-- The elements of a list in order of first occurrence: each element is kept
where it occurs first and dropped where it occurs again. -/
def firstOccurrences : List String → List String
  | [] => []
  | x :: xs => x :: (firstOccurrences xs).filter fun y => decide (y ≠ x)

/-- The pairs (backend name, model id) of a registry, scanning the backends in
registry order and each backend's `Models` in list order. -/
def listedPairs (bs : List Backend) : List (String × String) :=
  bs.flatMap fun b => b.Models.map fun m => (b.Name, m)

/-- Of a list of pairs (backend name, model id), the pairs whose model id does
not occur in an earlier pair. -/
def firstPairs : List (String × String) → List (String × String)
  | [] => []
  | p :: ps => p :: (firstPairs ps).filter fun q => decide (q.2 ≠ p.2)

/-- The two loops of `handleModels` as one loop over a flat list of pairs
(backend name, model id). -/
def addPairs :
    List (String × String) → List String × List ModelEntry → List String × List ModelEntry
  | [], st => st
  | p :: ps, st =>
    if st.1.contains p.2 then addPairs ps st
    else addPairs ps (p.2 :: st.1, st.2 ++ [⟨p.2, "model", p.1⟩])

/-- Loop variables of a request on `cfgRR` after a failed attempt at backend
`b`, with the rotation counter at 1. -/
def stTriedB : LoopState :=
  { backend := 1, useModel := "mb", reqMap := [("model", .str "mb")],
    reqData := [("model", .str "mb")], tried := ["b"], lastErr := some "refused",
    sel := ⟨1, 0⟩ }

/-- Every attempt of the list either repeats the attempt before it (`prev` for
the first one) with the same backend, the same resolved model and the same
body, or goes to a backend whose name is not among the names attempted before
it (`tried` for the first one), with that backend's own model written into the
model field of the client's map `m0`. -/
def retryFollows (cfg : Config) (m0 : JMap) : List String → Attempt → List Attempt → Prop
  | _, _, [] => True
  | tried, prev, a :: rest =>
    ((a.backend = prev.backend ∧ a.useModel = prev.useModel ∧ a.reqData = prev.reqData) ∨
      (backendName cfg a.backend ∉ tried ∧
        ∃ hb : a.backend < cfg.Backends.length,
          a.useModel = useModelOf cfg.Backends[a.backend] ∧
          a.reqData = m0.set "model" (.str a.useModel))) ∧
    retryFollows cfg m0 (backendName cfg a.backend :: tried) a rest

/-- The run of `handleChat` on `cfgShared` (weighted-random mode) for the
request `reqAuto` when every draw is 0 and every connection is refused. -/
def runRepeat : Run := handleChat cfgShared netDown (fun _ => 0) false ⟨0, 0⟩ reqAuto

/-! ## Decoding of the request body by `encoding/json` -/

/-- A JSON text that parses, as its syntax tree. A number literal is given by
its sign, its decimal digits and its decimal exponent: it stands for
`(-1)^neg * digits * 10^exp10`. -/
inductive RawVal where
  | null
  | bool (b : Bool)
  | num (neg : Bool) (digits : Nat) (exp10 : Int)
  | str (s : String)
  | arr (items : List RawVal)
  | obj (fields : List (String × RawVal))

/-- A request body: bytes that are not JSON (with the parser's message), or a
JSON text. -/
inductive Body where
  | malformed (err : String)
  | json (v : RawVal)

/-- Number of binary digits of `n`, with `fuel` halvings allowed. -/
def bitLenAux : Nat → Nat → Nat
  | 0, _ => 0
  | fuel + 1, n => if n = 0 then 0 else bitLenAux fuel (n / 2) + 1

/-- Number of binary digits of `n`. -/
def bitLen (n : Nat) : Nat := bitLenAux n n

/-- The call `strconv.ParseFloat(s, 64)` that `encoding/json` makes for a number
stored into an `interface{}`: the IEEE-754 bit pattern of the `float64` nearest
to `(-1)^neg * digits * 10^exp10`, ties to even; `none` when the literal is out
of range (`ErrRange`). -/
def float64Bits (neg : Bool) (digits : Nat) (exp10 : Int) : Option Nat :=
  if digits = 0 then some (if neg then 2 ^ 63 else 0)
  else
    let P := if 0 ≤ exp10 then digits * 10 ^ exp10.toNat else digits
    let Q := if 0 ≤ exp10 then 1 else 10 ^ (-exp10).toNat
    let e0 : Int := (bitLen P : Int) - (bitLen Q : Int)
    let E : Int := if Q * 2 ^ e0.toNat ≤ P * 2 ^ (-e0).toNat then e0 else e0 - 1
    let sh : Int := max E (-1022) - 52
    let N := P * 2 ^ (-sh).toNat
    let D := Q * 2 ^ sh.toNat
    let M0 := N / D
    let rem := N % D
    let M := if D < 2 * rem ∨ (2 * rem = D ∧ M0 % 2 = 1) then M0 + 1 else M0
    let bits := (sh + 1074).toNat * 2 ^ 52 + M
    if 2047 * 2 ^ 52 ≤ bits then none else some (bits + if neg then 2 ^ 63 else 0)

/-- Mantissa and binary exponent of the finite `float64` with the given bit
pattern: its absolute value is `mantissa * 2^exponent`. -/
def bitsValue (bits : Nat) : Nat × Int :=
  if bits / 2 ^ 52 % 2048 = 0 then (bits % 2 ^ 52, -1074)
  else (2 ^ 52 + bits % 2 ^ 52, ((bits / 2 ^ 52 % 2048 : Nat) : Int) - 1075)

mutual
/-- The value `json.Unmarshal` stores into an `interface{}` for a JSON value: a
number becomes a `float64` (a number out of range is reported as an error and
leaves `nil`), an object becomes a map in which a later duplicate key
overwrites an earlier one. -/
def decodeVal : RawVal → JVal
  | .null => .null
  | .bool b => .bool b
  | .num neg digits exp10 =>
    match float64Bits neg digits exp10 with
    | some bits => .num bits
    | none => .null
  | .str s => .str s
  | .arr items => .arr (decodeVals items)
  | .obj fields => .obj (decodeFields fields [])
/-- Decoding of the elements of an array. -/
def decodeVals : List RawVal → List JVal
  | [] => []
  | v :: vs => decodeVal v :: decodeVals vs
/-- Decoding of the members of an object into the map `m`, in order. -/
def decodeFields : List (String × RawVal) → JMap → JMap
  | [], m => m
  | (k, v) :: fs, m => decodeFields fs (m.set k (decodeVal v))
end

/-- The call `json.Unmarshal(body, &reqMap)` of line 229 on a `nil` map, its
error ignored: an object gives a map, every other JSON text leaves the map
`nil`. -/
def decodeMap : RawVal → Option JMap
  | .obj fields => some (decodeFields fields [])
  | _ => none

/-- Case folding of one character as `encoding/json` matches object keys with
field names: ASCII letters to lower case, and the two non-ASCII characters that
fold to an ASCII letter. -/
def foldChar (c : Char) : Char :=
  if c = 'K' then 'k' else if c = 'ſ' then 's' else c.toLower

/-- Case folding of an object key. -/
def foldName (s : String) : String := String.mk (s.data.map foldChar)

/-- The name `encoding/json` uses for the kind of a JSON value in its errors. -/
def kindOf : RawVal → String
  | .null => "null"
  | .bool _ => "bool"
  | .num _ _ _ => "number"
  | .str _ => "string"
  | .arr _ => "array"
  | .obj _ => "object"

/-- Decoding of the members of an object into a `ChatRequest`: `model` takes a
string, `stream` a boolean, `null` leaves a field as it is, `messages` takes
any value, unknown keys are skipped; the first type mismatch is the error
returned once all members are read. -/
def decodeMembers :
    List (String × RawVal) → ChatRequest → Option String → Except String ChatRequest
  | [], cr, none => .ok cr
  | [], _, some e => .error e
  | (k, v) :: fs, cr, err =>
    if foldName k = "model" then
      match v with
      | .str s => decodeMembers fs { cr with Model := s } err
      | .null => decodeMembers fs cr err
      | other =>
        decodeMembers fs cr (err.orElse fun _ => some ("json: cannot unmarshal " ++
          kindOf other ++ " into Go struct field ChatRequest.model of type string"))
    else if foldName k = "stream" then
      match v with
      | .bool b => decodeMembers fs { cr with Stream := b } err
      | .null => decodeMembers fs cr err
      | other =>
        decodeMembers fs cr (err.orElse fun _ => some ("json: cannot unmarshal " ++
          kindOf other ++ " into Go struct field ChatRequest.stream of type bool"))
    else decodeMembers fs cr err

/-- The call `json.Unmarshal(body, &req)` of line 198 on a zero `ChatRequest`:
`null` decodes without error and leaves the zero value, an object is decoded
member by member, every other JSON text is a type error. -/
def decodeChat : RawVal → Except String ChatRequest
  | .null => .ok { Model := "", Stream := false }
  | .obj fields => decodeMembers fields { Model := "", Stream := false } none
  | other =>
    .error ("json: cannot unmarshal " ++ kindOf other ++ " into Go value of type main.ChatRequest")

/-- The request that `handleChat` sees for a method and a body that is read in
full. -/
def requestOf (method : String) (body : Body) : Request :=
  match body with
  | .malformed e => { Method := method, readFails := false, req := .error e, reqMap := none }
  | .json v =>
    { Method := method, readFails := false, req := decodeChat v, reqMap := decodeMap v }

/-- The bit pattern of the number in field `key` of a map (`none`: no such
field, or not a number). -/
def numField (m : JMap) (key : String) : Option Nat :=
  match m.get? key with
  | some (.num bits) => some bits
  | _ => none

/-- The body `{"model":"auto","seed":9007199254740993}`. -/
def bodySeedOdd : Body :=
  .json (.obj [("model", .str "auto"), ("seed", .num false 9007199254740993 0)])

/-- The body `{"model":"auto","seed":9007199254740992}`. -/
def bodySeedEven : Body :=
  .json (.obj [("model", .str "auto"), ("seed", .num false 9007199254740992 0)])

/-! ## Loading of the configuration -/

/-- The four defaults of `loadConfig` (lines 80-91): a zero port, timeout or
retry count and an empty mode are replaced, every other value is kept. -/
def withDefaults (parsed : Config) : Config :=
  { Port := if parsed.Port = 0 then 8080 else parsed.Port,
    Timeout := if parsed.Timeout = 0 then 180 * 1000000000 else parsed.Timeout,
    Retry := if parsed.Retry = 0 then 3 else parsed.Retry,
    Mode := if parsed.Mode = "" then "random" else parsed.Mode,
    Backends := parsed.Backends }

/-- The function `loadConfig` (lines 72-102) on the configuration that
`yaml.Unmarshal` has decoded: the defaults are filled in, and an empty backend
list ends the process (`none`). A file that cannot be read or decoded ends the
process before. -/
def loadConfig (parsed : Config) : Option Config :=
  if (withDefaults parsed).Backends.length = 0 then none else some (withDefaults parsed)

/-- A decoded configuration file with `retry: -1` and two backends. -/
def parsedNegRetry : Config :=
  { Port := 0, Timeout := 0, Retry := -1, Mode := "round-robin",
    Backends := [
      { Name := "a", URL := "http://a/v1", APIKey := "ka", Weight := 1,
        DefaultModel := "ma", Models := [] },
      { Name := "b", URL := "http://b/v1", APIKey := "kb", Weight := 1,
        DefaultModel := "mb", Models := [] }] }

/-- The configuration that `loadConfig` makes of `parsedNegRetry`. -/
def cfgNegRetry : Config :=
  { parsedNegRetry with Port := 8080, Timeout := 180 * 1000000000 }

/-! ## Exact-match selection -/

theorem listsModel_iff (ms : List String) (model : String) :
    listsModel ms model = true ↔ model ∈ ms := by
  induction ms with
  | nil => simp [listsModel]
  | cons m ms ih =>
    by_cases h : m = model
    · simp [listsModel, h]
    · have h2 : ¬ model = m := fun e => h e.symm
      simp [listsModel, h, h2, ih]

theorem scanBackends_first (bs : List Backend) (k : Nat) (model : String)
    (h : ∃ b ∈ bs, model ∈ b.Models) :
    ∃ i, ∃ hi : i < bs.length, scanBackends bs k model = some (k + i) ∧
      model ∈ bs[i].Models ∧
      ∀ j, ∀ hj : j < bs.length, j < i → model ∉ bs[j].Models := by
  induction bs generalizing k with
  | nil => simp at h
  | cons b bs ih =>
    by_cases hb : model ∈ b.Models
    · refine ⟨0, by simp, ?_, by simpa using hb, ?_⟩
      · simp [scanBackends, (listsModel_iff _ _).2 hb]
      · intro j _ hj; omega
    · have hrest : ∃ b2 ∈ bs, model ∈ b2.Models := by
        obtain ⟨b2, hmem, hm⟩ := h
        rcases List.mem_cons.1 hmem with rfl | hmem
        · exact absurd hm hb
        · exact ⟨b2, hmem, hm⟩
      obtain ⟨i, hi, hscan, hin, hfirst⟩ := ih (k + 1) hrest
      have hl : listsModel b.Models model = false := by
        cases hlm : listsModel b.Models model with
        | false => rfl
        | true => exact absurd ((listsModel_iff _ _).1 hlm) hb
      refine ⟨i + 1, by simpa using hi, ?_, by simpa using hin, ?_⟩
      · simp [scanBackends, hl, hscan]; omega
      · intro j hj hlt
        cases j with
        | zero => simpa using hb
        | succ j =>
          have hj2 : j < bs.length := by simpa using hj
          simpa using hfirst j hj2 (by omega)

theorem scanBackends_none (bs : List Backend) (k : Nat) (model : String)
    (h : ∀ b ∈ bs, model ∉ b.Models) : scanBackends bs k model = none := by
  induction bs generalizing k with
  | nil => rfl
  | cons b bs ih =>
    have hb : listsModel b.Models model = false := by
      cases hlm : listsModel b.Models model with
      | false => rfl
      | true => exact absurd ((listsModel_iff _ _).1 hlm) (h b (by simp))
    simp only [scanBackends, hb]
    exact ih (k + 1) (fun b2 hb2 => h b2 (List.mem_cons_of_mem _ hb2))

/-- C1: when the requested model occurs in some backend's `Models` list,
`findBackend` returns the first backend in registry order whose list contains
exactly that string, together with the requested string itself; the result is
the same for every random source and no random value is consumed. -/
theorem findBackend_exact_match (cfg : Config) (rnd : Nat → Nat) (s : Sel) (model : String)
    (h : ∃ b ∈ cfg.Backends, model ∈ b.Models) :
    ∃ i, ∃ hi : i < cfg.Backends.length,
      findBackend cfg rnd s model = ((some i, model), s) ∧
      model ∈ cfg.Backends[i].Models ∧
      ∀ j, ∀ hj : j < cfg.Backends.length, j < i → model ∉ cfg.Backends[j].Models := by
  obtain ⟨i, hi, hscan, hin, hfirst⟩ := scanBackends_first cfg.Backends 0 model h
  refine ⟨i, hi, ?_, hin, hfirst⟩
  have hne : ¬ cfg.Backends.length = 0 := by omega
  simp only [Nat.zero_add] at hscan
  simp [findBackend, hne, hscan]

/-- Witness for C1: `gpt-3` is listed only by the second backend of `cfgShared`. -/
theorem findBackend_exact_match_witness :
    ∃ i, ∃ hi : i < cfgShared.Backends.length,
      findBackend cfgShared (fun _ => 0) ⟨0, 0⟩ "gpt-3" = ((some i, "gpt-3"), ⟨0, 0⟩) ∧
      "gpt-3" ∈ cfgShared.Backends[i].Models ∧
      ∀ j, ∀ hj : j < cfgShared.Backends.length, j < i →
        "gpt-3" ∉ cfgShared.Backends[j].Models :=
  findBackend_exact_match cfgShared (fun _ => 0) ⟨0, 0⟩ "gpt-3"
    ⟨cfgShared.Backends.get ⟨1, by decide⟩, by decide, by decide⟩

/-! ## Weighted-random selection -/

theorem wrapInt_of_fits (x : Int) (h1 : minInt ≤ x) (h2 : x ≤ maxInt) : wrapInt x = x := by
  simp only [wrapInt, minInt, maxInt] at *
  norm_num at *
  omega

theorem normWeight_pos (w : Int) : 1 ≤ normWeight w := by
  unfold normWeight
  split <;> omega

theorem sumNorm_cons (b : Backend) (bs : List Backend) :
    sumNorm (b :: bs) = normWeight b.Weight + sumNorm bs := by
  simp [sumNorm]

theorem sumNorm_nonneg (bs : List Backend) : 0 ≤ sumNorm bs := by
  induction bs with
  | nil => simp [sumNorm]
  | cons b bs ih =>
    rw [sumNorm_cons]
    have := normWeight_pos b.Weight
    omega

theorem cumWeight_zero (bs : List Backend) : cumWeight bs 0 = 0 := by
  simp [cumWeight, sumNorm]

theorem cumWeight_cons_succ (b : Backend) (bs : List Backend) (k : Nat) :
    cumWeight (b :: bs) (k + 1) = normWeight b.Weight + cumWeight bs k := by
  simp [cumWeight, sumNorm_cons]

theorem cumWeight_succ (bs : List Backend) (k : Nat) (hk : k < bs.length) :
    cumWeight bs (k + 1) = cumWeight bs k + normWeight bs[k].Weight := by
  induction bs generalizing k with
  | nil => simp at hk
  | cons b bs ih =>
    cases k with
    | zero => simp [cumWeight_cons_succ, cumWeight_zero]
    | succ k =>
      have hk2 : k < bs.length := by simpa using hk
      rw [cumWeight_cons_succ, cumWeight_cons_succ, ih k hk2]
      simp only [List.getElem_cons_succ]
      omega

theorem cumWeight_step_le (bs : List Backend) (k : Nat) :
    cumWeight bs k ≤ cumWeight bs (k + 1) := by
  induction bs generalizing k with
  | nil => simp [cumWeight]
  | cons b bs ih =>
    cases k with
    | zero =>
      rw [cumWeight_cons_succ, cumWeight_zero, cumWeight_zero]
      have := normWeight_pos b.Weight
      omega
    | succ k =>
      rw [cumWeight_cons_succ, cumWeight_cons_succ]
      have := ih k
      omega

theorem cumWeight_mono (bs : List Backend) {j k : Nat} (h : j ≤ k) :
    cumWeight bs j ≤ cumWeight bs k := by
  induction k with
  | zero =>
    have : j = 0 := by omega
    subst this
    exact le_refl _
  | succ k ih =>
    by_cases hj : j = k + 1
    · subst hj; exact le_refl _
    · exact le_trans (ih (by omega)) (cumWeight_step_le bs k)

theorem cumWeight_length (bs : List Backend) : cumWeight bs bs.length = sumNorm bs := by
  simp [cumWeight]

theorem totalWeight_eq (bs : List Backend) (acc : Int) (h0 : 0 ≤ acc)
    (hfit : acc + sumNorm bs ≤ maxInt) : totalWeight bs acc = acc + sumNorm bs := by
  induction bs generalizing acc with
  | nil => simp [totalWeight, sumNorm]
  | cons b bs ih =>
    rw [sumNorm_cons] at hfit
    have hw := normWeight_pos b.Weight
    have hs := sumNorm_nonneg bs
    have hwrap : wrapInt (acc + normWeight b.Weight) = acc + normWeight b.Weight :=
      wrapInt_of_fits _ (by simp only [minInt]; omega) (by omega)
    simp only [totalWeight, hwrap]
    rw [ih _ (by omega) (by omega), sumNorm_cons]
    omega

theorem walk_spec (bs : List Backend) (i : Nat) (r : Int) (h0 : 0 ≤ r)
    (hr : r < sumNorm bs) (hfit : sumNorm bs ≤ maxInt) :
    ∃ k, k < bs.length ∧ walk bs i r = some (i + k) ∧
      cumWeight bs k ≤ r ∧ r < cumWeight bs (k + 1) := by
  induction bs generalizing i r with
  | nil => simp [sumNorm] at hr; omega
  | cons b bs ih =>
    rw [sumNorm_cons] at hr hfit
    have hw := normWeight_pos b.Weight
    have hs := sumNorm_nonneg bs
    have hmax : maxInt = 2 ^ 63 - 1 := rfl
    have hwrap : wrapInt (r - normWeight b.Weight) = r - normWeight b.Weight :=
      wrapInt_of_fits _ (by simp only [minInt]; omega) (by omega)
    by_cases hneg : r - normWeight b.Weight < 0
    · refine ⟨0, by simp, ?_, ?_, ?_⟩
      · simp [walk, hwrap, hneg]
      · rw [cumWeight_zero]; exact h0
      · rw [cumWeight_cons_succ, cumWeight_zero]; omega
    · obtain ⟨k, hk, hwalk, hlo, hhi⟩ :=
        ih (i + 1) (r - normWeight b.Weight) (by omega) (by omega) (by omega)
      refine ⟨k + 1, by simpa using hk, ?_, ?_, ?_⟩
      · simp only [walk, hwrap, hneg, if_false]
        rw [hwalk]
        congr 1
        omega
      · rw [cumWeight_cons_succ]; omega
      · rw [cumWeight_cons_succ]; omega

theorem nextBackend_weighted_core (cfg : Config) (rnd : Nat → Nat) (s : Sel)
    (hmode : cfg.Mode ≠ "round-robin") (hne : cfg.Backends ≠ [])
    (hfit : sumNorm cfg.Backends ≤ maxInt) :
    totalWeight cfg.Backends 0 = sumNorm cfg.Backends ∧ 0 < sumNorm cfg.Backends ∧
    ∃ i, i < cfg.Backends.length ∧
      walk cfg.Backends 0 ((rnd s.drawn : Int) % sumNorm cfg.Backends) = some i ∧
      nextBackend cfg rnd s = some (some i, { s with drawn := s.drawn + 1 }) ∧
      cumWeight cfg.Backends i ≤ (rnd s.drawn : Int) % sumNorm cfg.Backends ∧
      (rnd s.drawn : Int) % sumNorm cfg.Backends < cumWeight cfg.Backends (i + 1) := by
  have htot : totalWeight cfg.Backends 0 = sumNorm cfg.Backends := by
    rw [totalWeight_eq _ 0 (le_refl _) (by omega)]; omega
  have hpos : 0 < sumNorm cfg.Backends := by
    cases hbs : cfg.Backends with
    | nil => exact absurd hbs hne
    | cons b bs =>
      rw [sumNorm_cons]
      have := normWeight_pos b.Weight
      have := sumNorm_nonneg bs
      omega
  obtain ⟨k, hk, hwalk, hlo, hhi⟩ :=
    walk_spec cfg.Backends 0 ((rnd s.drawn : Int) % sumNorm cfg.Backends)
      (Int.emod_nonneg _ (by omega)) (Int.emod_lt_of_pos _ hpos) hfit
  rw [Nat.zero_add] at hwalk
  have hlen : ¬ cfg.Backends.length = 0 := by omega
  have hnot : ¬ sumNorm cfg.Backends ≤ 0 := by omega
  refine ⟨htot, hpos, k, hk, hwalk, ?_, hlo, hhi⟩
  simp [nextBackend, hlen, hmode, randIntn, htot, hnot, hwalk]

/-- C2: in weighted-random mode, on a non-empty registry whose normalised
weights sum to a representable `int`, the draw `r` that `rand.Intn(totalWeight)`
yields lies in `[0, totalWeight)` (and is any value of that range the random
source supplies), the walking loop itself returns (the trailing
`&config.Backends[0]` is not reached), and `nextBackend` returns the backend at
the smallest index `i` whose cumulative normalised weight over backends `0..i`
is strictly greater than `r`. -/
theorem nextBackend_weighted (cfg : Config) (rnd : Nat → Nat) (s : Sel)
    (hmode : cfg.Mode ≠ "round-robin") (hne : cfg.Backends ≠ [])
    (hfit : sumNorm cfg.Backends ≤ maxInt) :
    totalWeight cfg.Backends 0 = sumNorm cfg.Backends ∧
    ∃ r : Int, randIntn (rnd s.drawn) (totalWeight cfg.Backends 0) = some r ∧
      0 ≤ r ∧ r < sumNorm cfg.Backends ∧
      (rnd s.drawn < sumNorm cfg.Backends → r = rnd s.drawn) ∧
      ∃ i, i < cfg.Backends.length ∧
        walk cfg.Backends 0 r = some i ∧
        nextBackend cfg rnd s = some (some i, { s with drawn := s.drawn + 1 }) ∧
        r < cumWeight cfg.Backends (i + 1) ∧
        ∀ j, j < i → cumWeight cfg.Backends (j + 1) ≤ r := by
  obtain ⟨htot, hpos, i, hi, hwalk, hnb, hlo, hhi⟩ :=
    nextBackend_weighted_core cfg rnd s hmode hne hfit
  have hnot : ¬ sumNorm cfg.Backends ≤ 0 := by omega
  refine ⟨htot, (rnd s.drawn : Int) % sumNorm cfg.Backends, ?_, ?_, ?_, ?_, ?_⟩
  · simp [randIntn, htot, hnot]
  · exact Int.emod_nonneg _ (by omega)
  · exact Int.emod_lt_of_pos _ hpos
  · intro hlt
    exact Int.emod_eq_of_lt (by omega) hlt
  · refine ⟨i, hi, hwalk, hnb, hhi, ?_⟩
    intro j hj
    exact le_trans (cumWeight_mono cfg.Backends (by omega)) hlo

/-- Witness for C2: weights 1, 1, 2 and the draw 2. -/
theorem nextBackend_weighted_witness :
    cfgWeights.Mode ≠ "round-robin" ∧ cfgWeights.Backends ≠ [] ∧
    sumNorm cfgWeights.Backends ≤ maxInt ∧
    (totalWeight cfgWeights.Backends 0 = sumNorm cfgWeights.Backends ∧
    ∃ r : Int, randIntn ((fun _ => 2) (Sel.mk 0 0).drawn) (totalWeight cfgWeights.Backends 0)
        = some r ∧
      0 ≤ r ∧ r < sumNorm cfgWeights.Backends ∧
      ((((fun _ => 2) (Sel.mk 0 0).drawn : Nat) : Int) < sumNorm cfgWeights.Backends →
        r = (((fun _ => 2) (Sel.mk 0 0).drawn : Nat) : Int)) ∧
      ∃ i, i < cfgWeights.Backends.length ∧
        walk cfgWeights.Backends 0 r = some i ∧
        nextBackend cfgWeights (fun _ => 2) (Sel.mk 0 0)
          = some (some i, { Sel.mk 0 0 with drawn := (Sel.mk 0 0).drawn + 1 }) ∧
        r < cumWeight cfgWeights.Backends (i + 1) ∧
        ∀ j, j < i → cumWeight cfgWeights.Backends (j + 1) ≤ r) :=
  ⟨by decide, by decide, by decide,
    nextBackend_weighted cfgWeights (fun _ => 2) (Sel.mk 0 0) (by decide) (by decide) (by decide)⟩

theorem length_filter_range_interval (T a b : Nat) :
    ((List.range T).filter fun d => decide (a ≤ d ∧ d < b)).length = min b T - min a T := by
  induction T with
  | zero => simp
  | succ T ih =>
    have hlast : ((List.filter (fun d => decide (a ≤ d ∧ d < b)) [T]).length : Nat) =
        if a ≤ T ∧ T < b then 1 else 0 := by
      by_cases h : a ≤ T ∧ T < b
      · simp [h]
      · simp only [List.filter_cons, h, decide_False, List.filter_nil, List.length_nil]
        simp
    rw [List.range_succ, List.filter_append, List.length_append, ih, hlast]
    by_cases h : a ≤ T ∧ T < b
    · rw [if_pos h]; omega
    · rw [if_neg h]; omega

theorem nextBackend_weighted_iff (cfg : Config) (d i : Nat)
    (hmode : cfg.Mode ≠ "round-robin") (hne : cfg.Backends ≠ [])
    (hfit : sumNorm cfg.Backends ≤ maxInt) (hd : (d : Int) < sumNorm cfg.Backends)
    (hi : i < cfg.Backends.length) :
    (nextBackend cfg (fun _ => d) ⟨0, 0⟩).map Prod.fst = some (some i) ↔
      cumWeight cfg.Backends i ≤ d ∧ (d : Int) < cumWeight cfg.Backends (i + 1) := by
  obtain ⟨_, _, k, hk, _, hnb, hlo, hhi⟩ :=
    nextBackend_weighted_core cfg (fun _ => d) ⟨0, 0⟩ hmode hne hfit
  have hr : (d : Int) % sumNorm cfg.Backends = d := Int.emod_eq_of_lt (by omega) hd
  simp only [hr] at hlo hhi
  rw [hnb]
  simp only [Option.map_some', Option.some.injEq]
  constructor
  · intro hki
    subst hki
    exact ⟨hlo, hhi⟩
  · rintro ⟨h1, h2⟩
    rcases Nat.lt_trichotomy k i with hlt | heq | hgt
    · have := cumWeight_mono cfg.Backends (show k + 1 ≤ i by omega)
      omega
    · exact heq
    · have := cumWeight_mono cfg.Backends (show i + 1 ≤ k by omega)
      omega

/-- C3: in weighted-random mode, on a non-empty registry whose normalised
weights sum to a representable `int`, the number of draws of `[0, totalWeight)`
for which `nextBackend` returns the backend at index `i` is exactly the
normalised weight of that backend (its weight, or 1 when the weight is `<= 0`):
under a uniform draw backend `i` is selected with probability
`normWeight i / totalWeight`. -/
theorem drawsFor_eq_normWeight (cfg : Config) (i : Nat)
    (hmode : cfg.Mode ≠ "round-robin") (hne : cfg.Backends ≠ [])
    (hfit : sumNorm cfg.Backends ≤ maxInt) (hi : i < cfg.Backends.length) :
    (drawsFor cfg i : Int) = normWeight cfg.Backends[i].Weight ∧
    (drawsFor cfg i : Int) = (if cfg.Backends[i].Weight ≤ 0 then 1 else cfg.Backends[i].Weight) := by
  have hmain : (drawsFor cfg i : Int) = normWeight cfg.Backends[i].Weight := by
    have hT := sumNorm_nonneg cfg.Backends
    have ha := sumNorm_nonneg (cfg.Backends.take i)
    have hstep := cumWeight_succ cfg.Backends i hi
    have hw := normWeight_pos cfg.Backends[i].Weight
    have hle : cumWeight cfg.Backends (i + 1) ≤ sumNorm cfg.Backends := by
      rw [← cumWeight_length]
      exact cumWeight_mono cfg.Backends (by omega)
    have hcongr : (List.range (sumNorm cfg.Backends).toNat).filter (fun d =>
          decide ((nextBackend cfg (fun _ => d) ⟨0, 0⟩).map Prod.fst = some (some i)))
        = (List.range (sumNorm cfg.Backends).toNat).filter (fun d =>
          decide ((cumWeight cfg.Backends i).toNat ≤ d ∧
            d < (cumWeight cfg.Backends (i + 1)).toNat)) := by
      apply List.filter_congr
      intro d hd
      have hd2 : (d : Int) < sumNorm cfg.Backends := by
        have := List.mem_range.1 hd
        omega
      have hiff := nextBackend_weighted_iff cfg d i hmode hne hfit hd2 hi
      have ha2 : 0 ≤ cumWeight cfg.Backends i := ha
      rw [decide_eq_decide, hiff]
      constructor
      · rintro ⟨h1, h2⟩; constructor <;> omega
      · rintro ⟨h1, h2⟩; constructor <;> omega
    unfold drawsFor
    rw [hcongr, length_filter_range_interval]
    have ha2 : 0 ≤ cumWeight cfg.Backends i := ha
    simp only [Nat.min_def]
    split_ifs <;> omega
  refine ⟨hmain, ?_⟩
  rw [hmain]
  rfl

/-- Witness for C3: with weights 1, 1, 2 the third backend is returned for
exactly 2 of the 4 possible draws. -/
theorem drawsFor_eq_normWeight_witness :
    sumNorm cfgWeights.Backends = 4 ∧ (drawsFor cfgWeights 2 : Int) = 2 :=
  ⟨by decide,
    (drawsFor_eq_normWeight cfgWeights 2 (by decide) (by decide) (by decide) (by decide)).1⟩

/-! ## Round-robin selection -/

theorem nextBackend_rr_step (cfg : Config) (rnd : Nat → Nat) (c : Int) (p : Nat)
    (hmode : cfg.Mode = "round-robin") (hne : cfg.Backends ≠ [])
    (hc : 0 ≤ c) (hfit : c < maxInt) :
    nextBackend cfg rnd ⟨c, p⟩ =
      some (some (c.toNat % cfg.Backends.length), ⟨c + 1, p⟩) := by
  have hlen : ¬ cfg.Backends.length = 0 := by
    intro h
    exact hne (List.length_eq_zero.1 h)
  have hmod : Int.tmod c (cfg.Backends.length : Int) = c % (cfg.Backends.length : Int) :=
    Int.tmod_eq_emod hc (by omega)
  have hnn : 0 ≤ c % (cfg.Backends.length : Int) := Int.emod_nonneg _ (by omega)
  have hwrap : wrapInt (c + 1) = c + 1 :=
    wrapInt_of_fits _ (by simp only [minInt]; omega) (by omega)
  have hidx : (c % (cfg.Backends.length : Int)).toNat = c.toNat % cfg.Backends.length := by
    have h1 : ((c.toNat % cfg.Backends.length : Nat) : Int) = c % (cfg.Backends.length : Int) := by
      rw [Int.natCast_mod, Int.toNat_of_nonneg hc]
    omega
  simp [nextBackend, hlen, hmode, hmod, hnn, hwrap, hidx]

theorem nextBackends_rr (cfg : Config) (rnd : Nat → Nat) (k : Nat) (c : Int) (p : Nat)
    (hmode : cfg.Mode = "round-robin") (hne : cfg.Backends ≠ [])
    (hc : 0 ≤ c) (hfit : c + k ≤ maxInt) :
    nextBackends cfg rnd k ⟨c, p⟩ =
      some ((List.range k).map (fun j => some ((c.toNat + j) % cfg.Backends.length)),
        ⟨c + k, p⟩) := by
  induction k generalizing c with
  | zero => simp [nextBackends]
  | succ k ih =>
    have hstep := nextBackend_rr_step cfg rnd c p hmode hne hc (by omega)
    have hrest := ih (c + 1) (by omega) (by push_cast at hfit; omega)
    have hnat : (c + 1).toNat = c.toNat + 1 := by omega
    simp only [nextBackends, hstep, hrest, List.range_succ_eq_map, List.map_cons, List.map_map,
      hnat]
    refine congrArg some (Prod.ext ?_ ?_)
    · simp only [Nat.add_zero, List.cons.injEq, true_and]
      apply List.map_congr_left
      intro j _
      simp only [Function.comp]
      congr 2
      omega
    · simp only [Sel.mk.injEq, and_true]
      push_cast
      omega

theorem rr_cycle_eq_rotate (n c : Nat) :
    (List.range n).map (fun j => (c + j) % n) = (List.range n).rotate c := by
  apply List.ext_getElem
  · simp
  · intro i h1 h2
    rw [List.getElem_rotate]
    simp only [List.getElem_map, List.getElem_range, List.length_range]
    rw [Nat.add_comm]

/-- C4: in round-robin mode, on a registry of `N >= 1` backends and from a
counter `c >= 0` whose next `N` increments stay representable, each of the
next `N` sequential calls of `nextBackend` returns the backend at index
`counter mod N` and leaves the counter increased by exactly 1; the `N` calls
return the indices `(c + 0) mod N, (c + 1) mod N, ...` in this order, which is
every backend exactly once, in cyclic registry order from `c mod N`. -/
theorem nextBackend_roundRobin (cfg : Config) (rnd : Nat → Nat) (c : Int) (p : Nat)
    (hmode : cfg.Mode = "round-robin") (hne : cfg.Backends ≠ [])
    (hc : 0 ≤ c) (hfit : c + cfg.Backends.length ≤ maxInt) :
    (∀ k : Nat, k < cfg.Backends.length →
      nextBackend cfg rnd ⟨c + k, p⟩ =
        some (some ((c + k).toNat % cfg.Backends.length), ⟨c + k + 1, p⟩)) ∧
    nextBackends cfg rnd cfg.Backends.length ⟨c, p⟩ =
      some ((List.range cfg.Backends.length).map
          (fun j => some ((c.toNat + j) % cfg.Backends.length)),
        ⟨c + cfg.Backends.length, p⟩) ∧
    ((List.range cfg.Backends.length).map
        (fun j => (c.toNat + j) % cfg.Backends.length)).Perm
      (List.range cfg.Backends.length) ∧
    ((List.range cfg.Backends.length).map
        (fun j => (c.toNat + j) % cfg.Backends.length)).head? =
      some (c.toNat % cfg.Backends.length) := by
  refine ⟨?_, nextBackends_rr cfg rnd _ c p hmode hne hc hfit, ?_, ?_⟩
  · intro k hk
    exact nextBackend_rr_step cfg rnd (c + k) p hmode hne (by omega) (by omega)
  · rw [rr_cycle_eq_rotate]
    exact List.rotate_perm _ _
  · cases hlen : cfg.Backends.length with
    | zero => exact absurd (List.length_eq_zero.1 hlen) hne
    | succ n => simp [List.range_succ_eq_map]

/-- Witness for C4: three backends, counter at 4. -/
theorem nextBackend_roundRobin_witness :
    nextBackends cfgRR (fun _ => 0) cfgRR.Backends.length ⟨4, 0⟩ =
      some ([some 1, some 2, some 0], ⟨7, 0⟩) :=
  (nextBackend_roundRobin cfgRR (fun _ => 0) 4 0 (by decide) (by decide) (by decide)
    (by decide)).2.1

/-! ## Fallback of `findBackend` -/

theorem findBackend_absent (cfg : Config) (rnd : Nat → Nat) (s : Sel) (model : String)
    (hne : cfg.Backends ≠ []) (habs : ∀ b ∈ cfg.Backends, model ∉ b.Models) :
    ∃ hi : rnd s.drawn % cfg.Backends.length < cfg.Backends.length,
      findBackend cfg rnd s model =
        ((some (rnd s.drawn % cfg.Backends.length),
          useModelOf cfg.Backends[rnd s.drawn % cfg.Backends.length]),
         { s with drawn := s.drawn + 1 }) := by
  have hlen : ¬ cfg.Backends.length = 0 := fun h => hne (List.length_eq_zero.1 h)
  refine ⟨Nat.mod_lt _ (Nat.pos_of_ne_zero hlen), ?_⟩
  simp [findBackend, hlen, scanBackends_none cfg.Backends 0 model habs]

/-- Counterexample to C5: in `cfgShared` (weights 1 and 3) the model `x` is
listed nowhere; the fallback of `findBackend` returns the second backend for 1
of its 2 possible draws, while `nextBackend` returns it for 3 of its 4 possible
draws, so the two distributions differ and the fallback's is not proportional
to the weights. -/
theorem findBackend_fallback_not_weighted :
    (∀ b ∈ cfgShared.Backends, "x" ∉ b.Models) ∧
    cfgShared.Backends.length = 2 ∧ sumNorm cfgShared.Backends = 4 ∧
    fallbackDrawsFor cfgShared "x" 1 = 1 ∧ drawsFor cfgShared 1 = 3 ∧
    ¬ ((fallbackDrawsFor cfgShared "x" 1 : Int) * sumNorm cfgShared.Backends =
        (drawsFor cfgShared 1 : Int) * cfgShared.Backends.length) := by
  decide

/-- C5 (amended): when the requested model is listed by no backend of a
non-empty registry, `findBackend` chooses the fallback backend uniformly by
index: it returns the backend at index `rand.Intn(N)`, whatever the weights, so
each backend is chosen for exactly one of the `N` possible draws. -/
theorem findBackend_fallback_uniform (cfg : Config) (model : String)
    (hne : cfg.Backends ≠ []) (habs : ∀ b ∈ cfg.Backends, model ∉ b.Models) :
    (∀ (rnd : Nat → Nat) (s : Sel),
      (findBackend cfg rnd s model).1.1 = some (rnd s.drawn % cfg.Backends.length) ∧
      (findBackend cfg rnd s model).2 = { s with drawn := s.drawn + 1 }) ∧
    ∀ i, i < cfg.Backends.length → fallbackDrawsFor cfg model i = 1 := by
  constructor
  · intro rnd s
    obtain ⟨_, h⟩ := findBackend_absent cfg rnd s model hne habs
    rw [h]
    exact ⟨rfl, rfl⟩
  · intro i hi
    have hcongr : (List.range cfg.Backends.length).filter (fun d =>
          decide ((findBackend cfg (fun _ => d) ⟨0, 0⟩ model).1.1 = some i))
        = (List.range cfg.Backends.length).filter (fun d => decide (i ≤ d ∧ d < i + 1)) := by
      apply List.filter_congr
      intro d hd
      have hd2 : d < cfg.Backends.length := List.mem_range.1 hd
      obtain ⟨_, h⟩ := findBackend_absent cfg (fun _ => d) ⟨0, 0⟩ model hne habs
      rw [decide_eq_decide, h]
      simp only [Option.some.injEq, Nat.mod_eq_of_lt hd2]
      omega
    unfold fallbackDrawsFor
    rw [hcongr, length_filter_range_interval]
    omega

/-- Witness for C5 (amended): `cfgShared` and the unlisted model `x`. -/
theorem findBackend_fallback_uniform_witness :
    fallbackDrawsFor cfgShared "x" 0 = 1 ∧ fallbackDrawsFor cfgShared "x" 1 = 1 :=
  ⟨(findBackend_fallback_uniform cfgShared "x" (by decide) (by decide)).2 0 (by decide),
   (findBackend_fallback_uniform cfgShared "x" (by decide) (by decide)).2 1 (by decide)⟩

/-- Counterexample to C10: in `cfgBare` the first backend has a default model,
the model `x` is listed nowhere, and on the draw 1 `findBackend` returns the
second backend with the empty string as resolved model. -/
theorem findBackend_fallback_empty_model :
    (∃ b ∈ cfgBare.Backends, b.DefaultModel ≠ "" ∨ b.Models ≠ []) ∧
    (∀ b ∈ cfgBare.Backends, "x" ∉ b.Models) ∧
    findBackend cfgBare (fun _ => 1) ⟨0, 0⟩ "x" = ((some 1, ""), ⟨0, 1⟩) := by
  decide

theorem useModelOf_ne_empty_iff (b : Backend) :
    useModelOf b ≠ "" ↔
      (b.DefaultModel ≠ "" ∨ ∃ m, b.Models.head? = some m ∧ m ≠ "") := by
  unfold useModelOf
  cases hm : b.Models with
  | nil => simp
  | cons m ms =>
    by_cases hd : b.DefaultModel = ""
    · simp [hd]
    · simp [hd]

/-- C10 (amended): when the requested model is listed by no backend of a
non-empty registry, `findBackend` returns a backend, and the resolved model it
returns is non-empty exactly when the backend drawn has a non-empty
`DefaultModel` or a non-empty first entry in `Models`; so it is non-empty
whatever the draw when every backend of the registry has one of the two. -/
theorem findBackend_fallback_model (cfg : Config) (rnd : Nat → Nat) (s : Sel) (model : String)
    (hne : cfg.Backends ≠ []) (habs : ∀ b ∈ cfg.Backends, model ∉ b.Models) :
    ∃ i, ∃ hi : i < cfg.Backends.length,
      (findBackend cfg rnd s model).1.1 = some i ∧
      ((findBackend cfg rnd s model).1.2 ≠ "" ↔
        (cfg.Backends[i].DefaultModel ≠ "" ∨
          ∃ m, cfg.Backends[i].Models.head? = some m ∧ m ≠ "")) ∧
      ((∀ b ∈ cfg.Backends, b.DefaultModel ≠ "" ∨ ∃ m, b.Models.head? = some m ∧ m ≠ "") →
        (findBackend cfg rnd s model).1.2 ≠ "") := by
  obtain ⟨hi, h⟩ := findBackend_absent cfg rnd s model hne habs
  refine ⟨_, hi, ?_, ?_, ?_⟩
  · rw [h]
  · rw [h]
    exact useModelOf_ne_empty_iff _
  · intro hall
    rw [h]
    exact (useModelOf_ne_empty_iff _).2 (hall _ (List.getElem_mem _))

/-- Witness for C10 (amended): `cfgBare`, the unlisted model `x` and the draw 0. -/
theorem findBackend_fallback_model_witness :
    ∃ i, ∃ hi : i < cfgBare.Backends.length,
      (findBackend cfgBare (fun _ => 0) ⟨0, 0⟩ "x").1.1 = some i ∧
      ((findBackend cfgBare (fun _ => 0) ⟨0, 0⟩ "x").1.2 ≠ "" ↔
        (cfgBare.Backends[i].DefaultModel ≠ "" ∨
          ∃ m, cfgBare.Backends[i].Models.head? = some m ∧ m ≠ "")) ∧
      ((∀ b ∈ cfgBare.Backends,
          b.DefaultModel ≠ "" ∨ ∃ m, b.Models.head? = some m ∧ m ≠ "") →
        (findBackend cfgBare (fun _ => 0) ⟨0, 0⟩ "x").1.2 ≠ "") :=
  findBackend_fallback_model cfgBare (fun _ => 0) ⟨0, 0⟩ "x" (by decide) (by decide)

/-! ## Streaming relay -/

theorem scanLines_of_fit (lines : List String) (readErr : Option String)
    (hfit : ∀ l ∈ lines, l.utf8ByteSize < maxTokenSize) :
    scanLines lines readErr = (lines.map dropCR, readErr) := by
  induction lines with
  | nil => rfl
  | cons l ls ih =>
    have hl : l.utf8ByteSize < maxTokenSize := hfit l (by simp)
    have hrest := ih (fun x hx => hfit x (List.mem_cons_of_mem _ hx))
    simp [scanLines, hl, hrest]

theorem map_dropCR_of_noCR (lines : List String) (h : ∀ l ∈ lines, dropCR l = l) :
    lines.map dropCR = lines := by
  induction lines with
  | nil => rfl
  | cons l ls ih =>
    rw [List.map_cons, h l (List.mem_cons_self _ _),
      ih (fun x hx => h x (List.mem_cons_of_mem _ hx))]

theorem relay_eq_flatMap (lines : List String) :
    relay lines = (lines.filter fun l => decide (l ≠ "")).flatMap
      (fun l => [ClientOp.write (l ++ "\n\n"), ClientOp.flush]) := by
  induction lines with
  | nil => rfl
  | cons l ls ih =>
    by_cases h : l = ""
    · simp [relay, h, ih]
    · simp [relay, h, ih, List.filter_cons]

theorem foldl_append_acc (acc : String) (l : List String) :
    List.foldl (fun r s => r ++ s) acc l = acc ++ List.foldl (fun r s => r ++ s) "" l := by
  induction l generalizing acc with
  | nil => simp
  | cons a l ih =>
    simp only [List.foldl_cons, String.empty_append]
    rw [ih (acc ++ a), ih a, String.append_assoc]

theorem join_cons (a : String) (l : List String) :
    String.join (a :: l) = a ++ String.join l := by
  simp only [String.join, List.foldl_cons, String.empty_append]
  exact foldl_append_acc a l

theorem writtenBytes_relay (lines : List String) :
    writtenBytes (relay lines) =
      String.join ((lines.filter fun l => decide (l ≠ "")).map fun l => l ++ "\n\n") := by
  induction lines with
  | nil => rfl
  | cons l ls ih =>
    by_cases h : l = ""
    · simp [relay, h, ih]
    · simp [relay, h, ih, List.filter_cons, writtenBytes, join_cons]

/-- C8: when the upstream answers with a status below 400 a body whose lines
all fit the 64 KiB scanner buffer, the streaming branch of `doRequest` (client
writer an `http.Flusher`) sets the three event-stream headers and then, for
each non-blank line in upstream order, writes `line ++ "\n\n"` and flushes
once; blank lines produce no call at all. A line is what `bufio.ScanLines`
delivers: the text up to the next newline without the carriage return that may
end it (`dropCR`), so a body with the line ends `\r\n` is relayed like the one
with the line ends `\n`. The bytes written are the concatenation of
`line ++ "\n\n"` over the non-blank lines, and the error returned is the one
that ended the read of the body. For a body in which no text before a newline
ends in a carriage return the lines are the texts between the newlines
themselves. -/
theorem doRequest_stream_relay (net : Net) (k : Nat) (backend : Backend) (reqData : JMap)
    (status : Int) (lines : List String) (readErr : Option String)
    (hnet : net k (trimSlash backend.URL ++ "/chat/completions") ("Bearer " ++ backend.APIKey)
      reqData = .response status lines readErr)
    (hstatus : status < 400)
    (hfit : ∀ l ∈ lines, l.utf8ByteSize < maxTokenSize) :
    doRequest net k true backend reqData true =
      (sseHeaders ++ ((lines.map dropCR).filter fun l => decide (l ≠ "")).flatMap
          (fun l => [ClientOp.write (l ++ "\n\n"), ClientOp.flush]),
        readErr) ∧
    writtenBytes (doRequest net k true backend reqData true).1 =
      String.join (((lines.map dropCR).filter fun l => decide (l ≠ "")).map
        fun l => l ++ "\n\n") ∧
    ((∀ l ∈ lines, dropCR l = l) →
      doRequest net k true backend reqData true =
        (sseHeaders ++ (lines.filter fun l => decide (l ≠ "")).flatMap
            (fun l => [ClientOp.write (l ++ "\n\n"), ClientOp.flush]),
          readErr)) := by
  have hst : ¬ status ≥ 400 := by omega
  have hdo : doRequest net k true backend reqData true =
      (sseHeaders ++ relay (lines.map dropCR), readErr) := by
    simp [doRequest, hnet, hst, scanLines_of_fit lines readErr hfit]
  refine ⟨?_, ?_, ?_⟩
  · rw [hdo, relay_eq_flatMap]
  · rw [hdo]
    simp only [sseHeaders, List.cons_append, List.nil_append, writtenBytes]
    exact writtenBytes_relay (lines.map dropCR)
  · intro hcr
    rw [hdo, relay_eq_flatMap, map_dropCR_of_noCR lines hcr]

/-- Witness for C8: for the lines `data: a`, blank, `data: b` the client
receives `data: a\n\n`, a flush, `data: b\n\n`, a flush, and the same when the
three lines end in `\r\n`. -/
theorem doRequest_stream_relay_witness :
    (doRequest netSSE 0 true backendA [] true =
        (sseHeaders ++ [.write "data: a\n\n", .flush, .write "data: b\n\n", .flush], none) ∧
      writtenBytes (doRequest netSSE 0 true backendA [] true).1 = "data: a\n\ndata: b\n\n") ∧
    (doRequest netCRLF 0 true backendA [] true =
        (sseHeaders ++ [.write "data: a\n\n", .flush, .write "data: b\n\n", .flush], none) ∧
      writtenBytes (doRequest netCRLF 0 true backendA [] true).1 = "data: a\n\ndata: b\n\n") :=
  ⟨⟨(doRequest_stream_relay netSSE 0 backendA [] 200 ["data: a", "", "data: b"] none rfl
      (by decide) (by decide)).1,
    (doRequest_stream_relay netSSE 0 backendA [] 200 ["data: a", "", "data: b"] none rfl
      (by decide) (by decide)).2.1⟩,
   ⟨(doRequest_stream_relay netCRLF 0 backendA [] 200 ["data: a\r", "\r", "data: b\r"] none rfl
      (by decide) (by decide)).1,
    (doRequest_stream_relay netCRLF 0 backendA [] 200 ["data: a\r", "\r", "data: b\r"] none rfl
      (by decide) (by decide)).2.1⟩⟩

/-! ## The retry loop of `handleChat` -/

theorem SelFits_mono (cfg : Config) (s : Sel) {j k : Nat} (h : j ≤ k)
    (hfit : SelFits cfg s k) : SelFits cfg s j := by
  unfold SelFits at *
  split
  · rename_i hm
    rw [if_pos hm] at hfit
    omega
  · rename_i hm
    rw [if_neg hm] at hfit
    exact hfit

theorem nextBackend_ok (cfg : Config) (rnd : Nat → Nat) (s : Sel) (k : Nat)
    (hne : cfg.Backends ≠ []) (hfit : SelFits cfg s (k + 1)) :
    ∃ b s1, nextBackend cfg rnd s = some (some b, s1) ∧ b < cfg.Backends.length ∧
      SelFits cfg s1 k ∧
      (cfg.Mode = "round-robin" →
        b = s.roundRobinIdx.toNat % cfg.Backends.length ∧
        s1.roundRobinIdx = s.roundRobinIdx + 1) := by
  have hpos : 0 < cfg.Backends.length := List.length_pos.2 hne
  by_cases hmode : cfg.Mode = "round-robin"
  · obtain ⟨c, p⟩ := s
    simp only [SelFits, if_pos hmode] at hfit
    obtain ⟨h0, h1⟩ := hfit
    push_cast at h1
    refine ⟨c.toNat % cfg.Backends.length, ⟨c + 1, p⟩,
      nextBackend_rr_step cfg rnd c p hmode hne h0 (by omega), Nat.mod_lt _ hpos, ?_, ?_⟩
    · simp only [SelFits, if_pos hmode]
      constructor <;> omega
    · intro _
      exact ⟨rfl, rfl⟩
  · simp only [SelFits, if_neg hmode] at hfit
    obtain ⟨_, _, i, hi, _, hnb, _, _⟩ :=
      nextBackend_weighted_core cfg rnd s hmode hne hfit
    refine ⟨i, _, hnb, hi, ?_, ?_⟩
    · simp only [SelFits, if_neg hmode]
      exact hfit
    · intro h
      exact absurd h hmode

theorem retrySearch_ok (cfg : Config) (rnd : Nat → Nat) (tried : List String) (j k : Nat)
    (s : Sel) (hne : cfg.Backends ≠ []) (hfit : SelFits cfg s (j + k)) :
    ∃ r s1, retrySearch cfg rnd tried j s = some (r, s1) ∧ SelFits cfg s1 k ∧
      ∀ b, r = some b → ∃ hb : b < cfg.Backends.length, cfg.Backends[b].Name ∉ tried := by
  induction j generalizing s with
  | zero =>
    refine ⟨none, s, rfl, ?_, ?_⟩
    · simpa using hfit
    · intro b hb
      cases hb
  | succ j ih =>
    have hfit2 : SelFits cfg s ((j + k) + 1) := by
      have : j + 1 + k = j + k + 1 := by omega
      rw [this] at hfit
      exact hfit
    obtain ⟨b, s1, hnb, hb, hfit1, _⟩ := nextBackend_ok cfg rnd s (j + k) hne hfit2
    have hget : cfg.Backends[b]? = some cfg.Backends[b] := List.getElem?_eq_getElem hb
    by_cases htried : cfg.Backends[b].Name ∈ tried
    · obtain ⟨r, s2, hrs, hfit2, hr⟩ := ih s1 hfit1
      refine ⟨r, s2, ?_, hfit2, hr⟩
      simp [retrySearch, hnb, hget, htried, hrs]
    · refine ⟨some b, s1, ?_, SelFits_mono cfg s1 (by omega) hfit1, ?_⟩
      · simp [retrySearch, hnb, hget, htried]
      · intro b2 hb2
        cases hb2
        exact ⟨hb, htried⟩

theorem reselect_ok (cfg : Config) (rnd : Nat → Nat) (st : LoopState) (k : Nat)
    (hne : cfg.Backends ≠ []) (hb : st.backend < cfg.Backends.length)
    (hfit : SelFits cfg st.sel (cfg.Backends.length + k)) :
    ∃ st1, reselect cfg rnd st = some st1 ∧ st1.backend < cfg.Backends.length ∧
      SelFits cfg st1.sel k ∧ st1.tried = st.tried ∧ st1.lastErr = st.lastErr := by
  obtain ⟨r, s1, hrs, hfit1, hr⟩ :=
    retrySearch_ok cfg rnd st.tried cfg.Backends.length k st.sel hne hfit
  cases r with
  | none =>
    exact ⟨{ st with sel := s1 }, by simp [reselect, hrs], hb, hfit1, rfl, rfl⟩
  | some b =>
    obtain ⟨hb2, _⟩ := hr b rfl
    have hget : cfg.Backends[b]? = some cfg.Backends[b] := List.getElem?_eq_getElem hb2
    refine ⟨{ st with
        backend := b, useModel := useModelOf cfg.Backends[b],
        reqMap := st.reqMap.set "model" (.str (useModelOf cfg.Backends[b])),
        reqData := st.reqMap.set "model" (.str (useModelOf cfg.Backends[b])),
        sel := s1 }, ?_, hb2, hfit1, rfl, rfl⟩
    simp only [reselect, hrs, hget]

theorem select_ok (cfg : Config) (rnd : Nat → Nat) (st : LoopState) (n i : Nat)
    (hne : cfg.Backends ≠ []) (hb : st.backend < cfg.Backends.length)
    (hfit : SelFits cfg st.sel ((n + 1) * cfg.Backends.length)) :
    ∃ st1, (if 0 < i then reselect cfg rnd st else some st) = some st1 ∧
      st1.backend < cfg.Backends.length ∧
      SelFits cfg st1.sel (n * cfg.Backends.length) ∧
      st1.tried = st.tried ∧ st1.lastErr = st.lastErr := by
  by_cases hi : 0 < i
  · have hfit2 : SelFits cfg st.sel (cfg.Backends.length + n * cfg.Backends.length) := by
      have : (n + 1) * cfg.Backends.length = cfg.Backends.length + n * cfg.Backends.length := by
        ring
      rw [this] at hfit
      exact hfit
    obtain ⟨st1, h1, h2, h3, h4, h5⟩ := reselect_ok cfg rnd st _ hne hb hfit2
    exact ⟨st1, by rw [if_pos hi]; exact h1, h2, h3, h4, h5⟩
  · refine ⟨st, by rw [if_neg hi], hb, SelFits_mono cfg st.sel ?_ hfit, rfl, rfl⟩
    exact Nat.mul_le_mul_right _ (Nat.le_succ n)

theorem retryLoop_shape (cfg : Config) (net : Net) (rnd : Nat → Nat) (isFlusher stream : Bool)
    (n i : Nat) (st : LoopState) (hne : cfg.Backends ≠ [])
    (hb : st.backend < cfg.Backends.length)
    (hfit : SelFits cfg st.sel (n * cfg.Backends.length)) :
    ∀ run, run = retryLoop cfg net rnd isFlusher stream n i st →
      run.panicked = false ∧ run.head = [] ∧ run.attempts.length ≤ n ∧
      (∀ k, ∀ hk : k < run.attempts.length,
        run.attempts[k].index = i + k ∧ run.attempts[k].backend < cfg.Backends.length) ∧
      (∀ k, ∀ hk : k < run.attempts.length,
        run.attempts[k].err ≠ none → k + 1 < n → k + 1 < run.attempts.length) ∧
      (∀ k, ∀ hk : k < run.attempts.length,
        run.attempts[k].err = none → k + 1 = run.attempts.length ∧ run.final = []) ∧
      ((∀ a ∈ run.attempts, a.err ≠ none) →
        run.attempts.length = n ∧
        run.final =
          [.error ("所有后端失败: " ++ errText (lastErrAfter run.attempts st.lastErr)) 502]) := by
  induction n generalizing i st with
  | zero =>
    intro run hrun
    subst hrun
    simp [retryLoop, lastErrAfter]
  | succ n ih =>
    intro run hrun
    obtain ⟨st1, hsel, hb1, hfit1, htried, hlast⟩ := select_ok cfg rnd st n i hne hb hfit
    have hget : cfg.Backends[st1.backend]? = some cfg.Backends[st1.backend] :=
      List.getElem?_eq_getElem hb1
    cases hdo : doRequest net i isFlusher cfg.Backends[st1.backend] st1.reqData stream with
    | mk ops err =>
      cases err with
      | none =>
        have hrun2 : run =
            { head := [],
              attempts := [⟨i, st1.backend, st1.useModel, st1.reqData, ops, none⟩],
              final := [], panicked := false, sel := st1.sel } := by
          rw [hrun]
          simp only [retryLoop, hsel, hget, hdo]
        subst hrun2
        refine ⟨rfl, rfl, by simp, ?_, ?_, ?_, ?_⟩
        · intro k hk
          have hk0 : k = 0 := by simpa using hk
          subst hk0
          exact ⟨rfl, hb1⟩
        · intro k hk herr
          have hk0 : k = 0 := by simpa using hk
          subst hk0
          simp at herr
        · intro k hk _
          have hk0 : k = 0 := by simpa using hk
          subst hk0
          exact ⟨rfl, rfl⟩
        · intro hall
          have := hall ⟨i, st1.backend, st1.useModel, st1.reqData, ops, none⟩ (by simp)
          simp at this
      | some e =>
        obtain ⟨hp, hh, hlen, hidx, hnext, hstop, hall⟩ :=
          ih (i + 1) { st1 with tried := cfg.Backends[st1.backend].Name :: st1.tried,
                                lastErr := some e } hb1 hfit1 _ rfl
        have hrun2 : run =
            { retryLoop cfg net rnd isFlusher stream n (i + 1)
                { st1 with tried := cfg.Backends[st1.backend].Name :: st1.tried,
                           lastErr := some e } with
              attempts := ⟨i, st1.backend, st1.useModel, st1.reqData, ops, some e⟩ ::
                (retryLoop cfg net rnd isFlusher stream n (i + 1)
                  { st1 with tried := cfg.Backends[st1.backend].Name :: st1.tried,
                             lastErr := some e }).attempts } := by
          rw [hrun]
          simp only [retryLoop, hsel, hget, hdo]
        subst hrun2
        refine ⟨hp, hh, by simpa using hlen, ?_, ?_, ?_, ?_⟩
        · intro k hk
          cases k with
          | zero => exact ⟨rfl, hb1⟩
          | succ k =>
            have hk2 : k < (retryLoop cfg net rnd isFlusher stream n (i + 1)
                { st1 with tried := cfg.Backends[st1.backend].Name :: st1.tried,
                           lastErr := some e }).attempts.length := by simpa using hk
            obtain ⟨h1, h2⟩ := hidx k hk2
            refine ⟨?_, ?_⟩
            · simp only [List.getElem_cons_succ, h1]; omega
            · simpa only [List.getElem_cons_succ] using h2
        · intro k hk herr hlt
          cases k with
          | zero =>
            simp only [List.length_cons]
            by_contra hcon
            have hnil : (retryLoop cfg net rnd isFlusher stream n (i + 1)
                { st1 with tried := cfg.Backends[st1.backend].Name :: st1.tried,
                           lastErr := some e }).attempts = [] := by
              apply List.eq_nil_of_length_eq_zero
              omega
            have := (hall (by rw [hnil]; simp)).1
            rw [hnil] at this
            simp at this
            omega
          | succ k =>
            have hk2 : k < (retryLoop cfg net rnd isFlusher stream n (i + 1)
                { st1 with tried := cfg.Backends[st1.backend].Name :: st1.tried,
                           lastErr := some e }).attempts.length := by simpa using hk
            have := hnext k hk2 (by simpa only [List.getElem_cons_succ] using herr) (by omega)
            simp only [List.length_cons]
            omega
        · intro k hk herr
          cases k with
          | zero => simp at herr
          | succ k =>
            have hk2 : k < (retryLoop cfg net rnd isFlusher stream n (i + 1)
                { st1 with tried := cfg.Backends[st1.backend].Name :: st1.tried,
                           lastErr := some e }).attempts.length := by simpa using hk
            obtain ⟨h1, h2⟩ :=
              hstop k hk2 (by simpa only [List.getElem_cons_succ] using herr)
            refine ⟨?_, h2⟩
            simp only [List.length_cons]
            omega
        · intro hfail
          obtain ⟨h1, h2⟩ := hall (fun a ha => hfail a (List.mem_cons_of_mem _ ha))
          refine ⟨by simp only [List.length_cons]; omega, ?_⟩
          rw [h2]
          simp [lastErrAfter]

theorem scanBackends_lt (bs : List Backend) (k : Nat) (model : String) (i : Nat)
    (h : scanBackends bs k model = some i) : i < k + bs.length := by
  induction bs generalizing k with
  | nil => simp [scanBackends] at h
  | cons b bs ih =>
    by_cases hb : listsModel b.Models model = true
    · simp [scanBackends, hb] at h
      simp only [List.length_cons]
      omega
    · simp only [scanBackends, hb] at h
      have := ih (k + 1) h
      simp only [List.length_cons]
      omega

theorem findBackend_index_lt (cfg : Config) (rnd : Nat → Nat) (s : Sel) (model : String)
    (hne : cfg.Backends ≠ []) :
    ∃ b, (findBackend cfg rnd s model).1.1 = some b ∧ b < cfg.Backends.length ∧
      (findBackend cfg rnd s model).2.roundRobinIdx = s.roundRobinIdx := by
  have hlen : ¬ cfg.Backends.length = 0 := fun h => hne (List.length_eq_zero.1 h)
  cases hscan : scanBackends cfg.Backends 0 model with
  | none =>
    refine ⟨rnd s.drawn % cfg.Backends.length, ?_, Nat.mod_lt _ (Nat.pos_of_ne_zero hlen), ?_⟩
    · simp [findBackend, hlen, hscan]
    · simp [findBackend, hlen, hscan]
  | some i =>
    have := scanBackends_lt cfg.Backends 0 model i hscan
    refine ⟨i, ?_, by omega, ?_⟩
    · simp [findBackend, hlen, hscan]
    · simp [findBackend, hlen, hscan]

theorem SelFits_of_rr_eq (cfg : Config) (s s1 : Sel) (k : Nat)
    (h : s1.roundRobinIdx = s.roundRobinIdx) (hfit : SelFits cfg s k) : SelFits cfg s1 k := by
  unfold SelFits at *
  rw [h]
  exact hfit

theorem handleChat_enters (cfg : Config) (net : Net) (rnd : Nat → Nat) (isFlusher : Bool)
    (s : Sel) (r : Request) (k : Nat) (hreq : r.isChatPost) (hne : cfg.Backends ≠ [])
    (hfit : SelFits cfg s (k + 1)) :
    ∃ b model s1 m stream, b < cfg.Backends.length ∧ SelFits cfg s1 k ∧
      handleChat cfg net rnd isFlusher s r =
        { handleSelected cfg net rnd isFlusher stream b model (some m) s1 with
          head := corsHeaders } := by
  obtain ⟨hpost, hread, ⟨cr, hcr⟩, ⟨m, hm⟩⟩ := hreq
  have hlen : ¬ cfg.Backends.length = 0 := fun h => hne (List.length_eq_zero.1 h)
  have hopt : ¬ ("POST" = "OPTIONS") := by decide
  by_cases hauto : cr.Model = "" ∨ cr.Model = "auto"
  · obtain ⟨b, s1, hnb, hb, hfit1, _⟩ := nextBackend_ok cfg rnd s k hne hfit
    have hget : cfg.Backends[b]? = some cfg.Backends[b] := List.getElem?_eq_getElem hb
    refine ⟨b, useModelOf cfg.Backends[b], s1, m, cr.Stream, hb, hfit1, ?_⟩
    simp only [handleChat, hpost, hopt, if_false, ne_eq, not_true_eq_false, hlen, hread, hcr,
      hauto, if_true, hnb, hget, hm]
    simp
  · obtain ⟨b, hfb, hb, hrr⟩ := findBackend_index_lt cfg rnd s cr.Model hne
    refine ⟨b, (findBackend cfg rnd s cr.Model).1.2, (findBackend cfg rnd s cr.Model).2, m,
      cr.Stream, hb,
      SelFits_of_rr_eq cfg s _ k hrr (SelFits_mono cfg s (Nat.le_succ k) hfit), ?_⟩
    have hsplit : findBackend cfg rnd s cr.Model =
        ((some b, (findBackend cfg rnd s cr.Model).1.2), (findBackend cfg rnd s cr.Model).2) := by
      rw [← hfb]
    simp only [handleChat, hpost, hopt, if_false, ne_eq, not_true_eq_false, hlen, hread, hcr,
      hauto, hm]
    rw [hsplit]
    simp

theorem lastErrAfter_of_getLast (attempts : List Attempt) (e0 : Option String) (a : Attempt)
    (h : attempts.getLast? = some a) : lastErrAfter attempts e0 = a.err := by
  obtain ⟨ys, hys⟩ := List.getLast?_eq_some_iff.1 h
  subst hys
  simp [lastErrAfter, List.foldl_append]

theorem handleSelected_all_fail (cfg : Config) (net : Net) (rnd : Nat → Nat)
    (isFlusher stream : Bool) (backend : Nat) (useModel : String) (m : JMap) (s : Sel)
    (hR : 1 ≤ cfg.Retry) (hb : backend < cfg.Backends.length)
    (hfit : SelFits cfg s (cfg.Retry.toNat * cfg.Backends.length))
    (hfail : ∀ a ∈ (handleSelected cfg net rnd isFlusher stream backend useModel
      (some m) s).attempts, a.err ≠ none) :
    (handleSelected cfg net rnd isFlusher stream backend useModel (some m) s).panicked = false ∧
    ((handleSelected cfg net rnd isFlusher stream backend useModel
      (some m) s).attempts.length : Int) = cfg.Retry ∧
    (handleSelected cfg net rnd isFlusher stream backend useModel
      (some m) s).attempts.map Attempt.index = List.range cfg.Retry.toNat ∧
    ∃ a e, (handleSelected cfg net rnd isFlusher stream backend useModel
        (some m) s).attempts.getLast? = some a ∧
      (a.index : Int) + 1 = cfg.Retry ∧ a.err = some e ∧
      (handleSelected cfg net rnd isFlusher stream backend useModel (some m) s).final =
        [.error ("所有后端失败: " ++ e) 502] := by
  have hne : cfg.Backends ≠ [] := List.length_pos.1 (by omega)
  obtain ⟨hp, _, _, hidx, _, _, hall⟩ :=
    retryLoop_shape cfg net rnd isFlusher stream cfg.Retry.toNat 0
      { backend := backend, useModel := useModel,
        reqMap := m.set "model" (.str useModel), reqData := m.set "model" (.str useModel),
        tried := [], lastErr := none, sel := s } hne hb hfit
      (handleSelected cfg net rnd isFlusher stream backend useModel (some m) s) rfl
  generalize handleSelected cfg net rnd isFlusher stream backend useModel (some m) s = run
    at hfail hp hidx hall ⊢
  obtain ⟨hlen, hfinal⟩ := hall hfail
  have hnil : run.attempts ≠ [] := List.length_pos.1 (by omega)
  have hlast : run.attempts.getLast? = some (run.attempts.getLast hnil) :=
    List.getLast?_eq_getLast _ hnil
  obtain ⟨e, he⟩ := Option.ne_none_iff_exists'.1 (hfail _ (List.getLast_mem hnil))
  refine ⟨hp, by omega, ?_, run.attempts.getLast hnil, e, hlast, ?_, he, ?_⟩
  · apply List.ext_getElem
    · simp [hlen]
    · intro k h1 h2
      have hk : k < run.attempts.length := by simpa using h1
      simp [(hidx k hk).1]
  · rw [List.getLast_eq_getElem, (hidx _ _).1]
    omega
  · rw [hfinal, lastErrAfter_of_getLast _ _ _ hlast, he]
    rfl

/-- C9: for a configured retry count `R >= 1`, when every dispatch of a request
fails, `handleChat` makes exactly `R` dispatches, one after the other with loop
indices `0 .. R-1`, and then answers with one `http.Error` of status 502 whose
message is `所有后端失败: ` followed by the error of the last (`R`-th) dispatch
and nothing of an earlier one. The request is a POST with a JSON object as
body, and the integers of the selection are taken to stay representable
(`SelFits`). -/
theorem handleChat_all_fail (cfg : Config) (net : Net) (rnd : Nat → Nat) (isFlusher : Bool)
    (s : Sel) (r : Request) (hreq : r.isChatPost) (hne : cfg.Backends ≠ [])
    (hR : 1 ≤ cfg.Retry)
    (hfit : SelFits cfg s (cfg.Retry.toNat * cfg.Backends.length + 1))
    (hfail : ∀ a ∈ (handleChat cfg net rnd isFlusher s r).attempts, a.err ≠ none) :
    (handleChat cfg net rnd isFlusher s r).panicked = false ∧
    ((handleChat cfg net rnd isFlusher s r).attempts.length : Int) = cfg.Retry ∧
    (handleChat cfg net rnd isFlusher s r).attempts.map Attempt.index =
      List.range cfg.Retry.toNat ∧
    ∃ a e, (handleChat cfg net rnd isFlusher s r).attempts.getLast? = some a ∧
      (a.index : Int) + 1 = cfg.Retry ∧ a.err = some e ∧
      (handleChat cfg net rnd isFlusher s r).final = [.error ("所有后端失败: " ++ e) 502] := by
  obtain ⟨b, model, s1, m, stream, hb, hfit1, heq⟩ :=
    handleChat_enters cfg net rnd isFlusher s r _ hreq hne hfit
  rw [heq] at hfail ⊢
  exact handleSelected_all_fail cfg net rnd isFlusher stream b model m s1 hR hb hfit1 hfail

/-- Witness for C9: three backends, retry count 3, every connection refused. -/
theorem handleChat_all_fail_witness :
    runDown.panicked = false ∧ (runDown.attempts.length : Int) = cfgRR.Retry ∧
    runDown.attempts.map Attempt.index = List.range cfgRR.Retry.toNat ∧
    ∃ a e, runDown.attempts.getLast? = some a ∧
      (a.index : Int) + 1 = cfgRR.Retry ∧ a.err = some e ∧
      runDown.final = [.error ("所有后端失败: " ++ e) 502] :=
  handleChat_all_fail cfgRR netDown (fun _ => 0) false ⟨0, 0⟩ reqAuto
    ⟨rfl, rfl, ⟨_, rfl⟩, ⟨_, rfl⟩⟩ (by decide) (by decide) (by decide) (by decide)

/-- Counterexample to C7: a streaming request on `cfgRR` whose first backend
breaks off after one line. The line `data: a` has been written and flushed to
the client when the first attempt fails; `handleChat` dispatches a second
attempt all the same, and the second backend's output is written after it. -/
theorem handleChat_retries_after_partial_write :
    (handleChat cfgRR netCut (fun _ => 0) true ⟨0, 0⟩ reqStream).attempts.map
        (fun a => (a.backend, a.ops, a.err)) =
      [(0, sseHeaders ++ [.write "data: a\n\n", .flush], some "unexpected EOF"),
       (1, sseHeaders ++ [.write "data: b\n\n", .flush], none)] := by
  decide

theorem handleSelected_failure_shape (cfg : Config) (net : Net) (rnd : Nat → Nat)
    (isFlusher stream : Bool) (backend : Nat) (useModel : String) (m : JMap) (s : Sel)
    (hb : backend < cfg.Backends.length)
    (hfit : SelFits cfg s (cfg.Retry.toNat * cfg.Backends.length)) :
    (handleSelected cfg net rnd isFlusher stream backend useModel (some m) s).panicked = false ∧
    (handleSelected cfg net rnd isFlusher stream backend useModel
      (some m) s).attempts.length ≤ cfg.Retry.toNat ∧
    (∀ k, ∀ hk : k < (handleSelected cfg net rnd isFlusher stream backend useModel
        (some m) s).attempts.length,
      (handleSelected cfg net rnd isFlusher stream backend useModel
        (some m) s).attempts[k].err ≠ none →
      k + 1 < cfg.Retry.toNat →
      k + 1 < (handleSelected cfg net rnd isFlusher stream backend useModel
        (some m) s).attempts.length) ∧
    (∀ k, ∀ hk : k < (handleSelected cfg net rnd isFlusher stream backend useModel
        (some m) s).attempts.length,
      (handleSelected cfg net rnd isFlusher stream backend useModel
        (some m) s).attempts[k].err = none →
      k + 1 = (handleSelected cfg net rnd isFlusher stream backend useModel
        (some m) s).attempts.length ∧
      (handleSelected cfg net rnd isFlusher stream backend useModel (some m) s).final = []) := by
  have hne : cfg.Backends ≠ [] := List.length_pos.1 (by omega)
  obtain ⟨hp, _, hlen, _, hnext, hstop, _⟩ :=
    retryLoop_shape cfg net rnd isFlusher stream cfg.Retry.toNat 0
      { backend := backend, useModel := useModel,
        reqMap := m.set "model" (.str useModel), reqData := m.set "model" (.str useModel),
        tried := [], lastErr := none, sel := s } hne hb hfit
      (handleSelected cfg net rnd isFlusher stream backend useModel (some m) s) rfl
  exact ⟨hp, hlen, hnext, hstop⟩

/-- C7 (amended): a failed attempt is handled in the same way whether or not
bytes of its response were already written to the client. For a POST request
with a JSON object as body, `handleChat` makes at most `config.Retry`
dispatches; after a dispatch that returns an error it makes the next one
whenever fewer than `config.Retry` have been made; and a dispatch that returns
without error is the last one and no 502 follows it. The integers of the
selection are taken to stay representable (`SelFits`). -/
theorem handleChat_failure_not_terminal (cfg : Config) (net : Net) (rnd : Nat → Nat)
    (isFlusher : Bool) (s : Sel) (r : Request) (hreq : r.isChatPost)
    (hne : cfg.Backends ≠ [])
    (hfit : SelFits cfg s (cfg.Retry.toNat * cfg.Backends.length + 1)) :
    (handleChat cfg net rnd isFlusher s r).panicked = false ∧
    (handleChat cfg net rnd isFlusher s r).attempts.length ≤ cfg.Retry.toNat ∧
    (∀ k, ∀ hk : k < (handleChat cfg net rnd isFlusher s r).attempts.length,
      (handleChat cfg net rnd isFlusher s r).attempts[k].err ≠ none →
      k + 1 < cfg.Retry.toNat →
      k + 1 < (handleChat cfg net rnd isFlusher s r).attempts.length) ∧
    (∀ k, ∀ hk : k < (handleChat cfg net rnd isFlusher s r).attempts.length,
      (handleChat cfg net rnd isFlusher s r).attempts[k].err = none →
      k + 1 = (handleChat cfg net rnd isFlusher s r).attempts.length ∧
      (handleChat cfg net rnd isFlusher s r).final = []) := by
  obtain ⟨b, model, s1, m, stream, hb, hfit1, heq⟩ :=
    handleChat_enters cfg net rnd isFlusher s r _ hreq hne hfit
  rw [heq]
  exact handleSelected_failure_shape cfg net rnd isFlusher stream b model m s1 hb hfit1

/-- Witness for C7 (amended): the run `runCut`, whose first attempt fails after
a line was flushed, has a second attempt. -/
theorem handleChat_failure_not_terminal_witness :
    runCut.attempts.map (fun a => (a.writtenSoFar, a.err)) =
      [("data: a\n\n", some "unexpected EOF"), ("data: b\n\n", none)] ∧
    (∀ k, ∀ hk : k < runCut.attempts.length,
      runCut.attempts[k].err ≠ none → k + 1 < cfgRR.Retry.toNat →
      k + 1 < runCut.attempts.length) :=
  ⟨by decide,
   (handleChat_failure_not_terminal cfgRR netCut (fun _ => 0) true ⟨0, 0⟩ reqStream
    ⟨rfl, rfl, ⟨_, rfl⟩, ⟨_, rfl⟩⟩ (by decide) (by decide)).2.2.1⟩

/-! ## Retry sequencing -/

/-- C6 (the code at the failing input): `cfgShared` has two backends with
distinct names, `a` of weight 1 and `b` of weight 3, in weighted-random mode
with retry count 3. When every draw of the random source is 0 and every
connection is refused, the first attempt goes to backend `a`, both draws of
each retry search return `a` again, and all three attempts are dispatched to
`a`: `a` is attempted a second and a third time while `b` has not been
attempted at all. -/
theorem handleChat_repeats_backend :
    (cfgShared.Backends.map Backend.Name).Nodup ∧
    cfgShared.Mode ≠ "round-robin" ∧ cfgShared.Retry = 3 ∧
    dispatchedNames cfgShared (handleChat cfgShared netDown (fun _ => 0) false ⟨0, 0⟩ reqAuto) =
      ["a", "a", "a"] ∧
    "b" ∈ cfgShared.Backends.map Backend.Name ∧
    "b" ∉ dispatchedNames cfgShared
      (handleChat cfgShared netDown (fun _ => 0) false ⟨0, 0⟩ reqAuto) ∧
    ¬ ((dispatchedNames cfgShared
        (handleChat cfgShared netDown (fun _ => 0) false ⟨0, 0⟩ reqAuto)).take 2).Nodup := by
  decide

theorem exists_untried (cfg : Config) (tried : List String)
    (hnodup : (cfg.Backends.map Backend.Name).Nodup)
    (hlen : tried.length < cfg.Backends.length) :
    ∃ idx, ∃ h : idx < cfg.Backends.length, cfg.Backends[idx].Name ∉ tried := by
  by_contra hcon
  push_neg at hcon
  have hsub : cfg.Backends.map Backend.Name ⊆ tried := by
    intro x hx
    obtain ⟨n, hn, hxn⟩ := List.mem_iff_getElem.1 hx
    have hn2 : n < cfg.Backends.length := by simpa using hn
    have := hcon n hn2
    simp only [List.getElem_map] at hxn
    rw [← hxn]
    exact this
  have := (hnodup.subperm hsub).length_le
  simp at this
  omega

theorem rr_cycle_surj (n c idx : Nat) (h : idx < n) : ∃ k, k < n ∧ (c + k) % n = idx := by
  have hperm : ((List.range n).map (fun j => (c + j) % n)).Perm (List.range n) := by
    rw [rr_cycle_eq_rotate]
    exact List.rotate_perm _ _
  have hmem : idx ∈ (List.range n).map (fun j => (c + j) % n) :=
    hperm.mem_iff.2 (List.mem_range.2 h)
  obtain ⟨k, hk, hkeq⟩ := List.mem_map.1 hmem
  exact ⟨k, List.mem_range.1 hk, hkeq⟩

theorem retrySearch_rr_none (cfg : Config) (rnd : Nat → Nat) (tried : List String)
    (j : Nat) (c : Int) (p : Nat) (s1 : Sel)
    (hmode : cfg.Mode = "round-robin") (hne : cfg.Backends ≠ [])
    (hc : 0 ≤ c) (hfit : c + j ≤ maxInt)
    (hres : retrySearch cfg rnd tried j ⟨c, p⟩ = some (none, s1)) :
    ∀ k, k < j → ∀ h : (c.toNat + k) % cfg.Backends.length < cfg.Backends.length,
      cfg.Backends[(c.toNat + k) % cfg.Backends.length].Name ∈ tried := by
  induction j generalizing c with
  | zero => intro k hk; omega
  | succ j ih =>
    have hpos : 0 < cfg.Backends.length := List.length_pos.2 hne
    have hstep := nextBackend_rr_step cfg rnd c p hmode hne hc (by push_cast at hfit; omega)
    have hb : c.toNat % cfg.Backends.length < cfg.Backends.length := Nat.mod_lt _ hpos
    have hget : cfg.Backends[c.toNat % cfg.Backends.length]? =
        some cfg.Backends[c.toNat % cfg.Backends.length] := List.getElem?_eq_getElem hb
    by_cases htried : cfg.Backends[c.toNat % cfg.Backends.length].Name ∈ tried
    · have hres2 : retrySearch cfg rnd tried j ⟨c + 1, p⟩ = some (none, s1) := by
        simpa [retrySearch, hstep, hget, htried] using hres
      have hrec := ih (c + 1) (by omega) (by push_cast at hfit; omega) hres2
      intro k hk h
      cases k with
      | zero => simpa using htried
      | succ k =>
        have hnat : (c + 1).toNat + k = c.toNat + (k + 1) := by omega
        have := hrec k (by omega) (by rw [hnat]; exact h)
        simpa only [hnat] using this
    · simp [retrySearch, hstep, hget, htried] at hres

theorem reselect_rr_fresh (cfg : Config) (rnd : Nat → Nat) (st : LoopState) (k : Nat)
    (hmode : cfg.Mode = "round-robin")
    (hnodup : (cfg.Backends.map Backend.Name).Nodup)
    (hlen : st.tried.length < cfg.Backends.length)
    (hfit : SelFits cfg st.sel (cfg.Backends.length + k)) :
    ∃ st1, reselect cfg rnd st = some st1 ∧
      (∃ hb : st1.backend < cfg.Backends.length, cfg.Backends[st1.backend].Name ∉ st.tried) ∧
      SelFits cfg st1.sel k ∧ st1.tried = st.tried := by
  have hne : cfg.Backends ≠ [] := List.length_pos.1 (by omega)
  obtain ⟨r, s1, hrs, hfit1, hr⟩ :=
    retrySearch_ok cfg rnd st.tried cfg.Backends.length k st.sel hne hfit
  cases r with
  | none =>
    exfalso
    obtain ⟨idx, hidx, hnot⟩ := exists_untried cfg st.tried hnodup hlen
    have hfit2 := hfit
    simp only [SelFits, if_pos hmode] at hfit2
    obtain ⟨h0, h1⟩ := hfit2
    push_cast at h1
    have hrs2 : retrySearch cfg rnd st.tried cfg.Backends.length
        ⟨st.sel.roundRobinIdx, st.sel.drawn⟩ = some (none, s1) := hrs
    have hall := retrySearch_rr_none cfg rnd st.tried cfg.Backends.length
      st.sel.roundRobinIdx st.sel.drawn s1 hmode hne h0 (by omega) hrs2
    obtain ⟨j, hj, hjeq⟩ := rr_cycle_surj cfg.Backends.length st.sel.roundRobinIdx.toNat idx hidx
    have := hall j hj (by rw [hjeq]; exact hidx)
    simp only [hjeq] at this
    exact hnot this
  | some b =>
    obtain ⟨hb2, hnot⟩ := hr b rfl
    have hget : cfg.Backends[b]? = some cfg.Backends[b] := List.getElem?_eq_getElem hb2
    refine ⟨{ st with
        backend := b, useModel := useModelOf cfg.Backends[b],
        reqMap := st.reqMap.set "model" (.str (useModelOf cfg.Backends[b])),
        reqData := st.reqMap.set "model" (.str (useModelOf cfg.Backends[b])),
        sel := s1 }, ?_, ⟨hb2, hnot⟩, hfit1, rfl⟩
    simp only [reselect, hrs, hget]

theorem retryLoop_rr_distinct (cfg : Config) (net : Net) (rnd : Nat → Nat)
    (isFlusher stream : Bool) (n i : Nat) (st : LoopState) (hi : 0 < i)
    (hmode : cfg.Mode = "round-robin")
    (hnodup : (cfg.Backends.map Backend.Name).Nodup)
    (hfit : SelFits cfg st.sel (n * cfg.Backends.length)) :
    ∀ run, run = retryLoop cfg net rnd isFlusher stream n i st →
      ((dispatchedNames cfg run).take (cfg.Backends.length - st.tried.length)).Nodup ∧
      ∀ x ∈ (dispatchedNames cfg run).take (cfg.Backends.length - st.tried.length),
        x ∉ st.tried := by
  induction n generalizing i st with
  | zero =>
    intro run hrun
    subst hrun
    simp [retryLoop, dispatchedNames]
  | succ n ih =>
    intro run hrun
    by_cases hlen : st.tried.length < cfg.Backends.length
    · have hfit2 : SelFits cfg st.sel (cfg.Backends.length + n * cfg.Backends.length) := by
        have : (n + 1) * cfg.Backends.length = cfg.Backends.length + n * cfg.Backends.length := by
          ring
        rw [this] at hfit
        exact hfit
      obtain ⟨st1, hsel, ⟨hb1, hfresh⟩, hfit1, htried⟩ :=
        reselect_rr_fresh cfg rnd st _ hmode hnodup hlen hfit2
      have hsel2 : (if 0 < i then reselect cfg rnd st else some st) = some st1 := by
        rw [if_pos hi]; exact hsel
      have hget : cfg.Backends[st1.backend]? = some cfg.Backends[st1.backend] :=
        List.getElem?_eq_getElem hb1
      obtain ⟨d, hd⟩ : ∃ d, cfg.Backends.length - st.tried.length = d + 1 :=
        ⟨cfg.Backends.length - st.tried.length - 1, by omega⟩
      cases hdo : doRequest net i isFlusher cfg.Backends[st1.backend] st1.reqData stream with
      | mk ops err =>
        cases err with
        | none =>
          have hrun2 : run =
              { head := [],
                attempts := [⟨i, st1.backend, st1.useModel, st1.reqData, ops, none⟩],
                final := [], panicked := false, sel := st1.sel } := by
            rw [hrun]
            simp only [retryLoop, hsel2, hget, hdo]
          subst hrun2
          simp only [dispatchedNames, backendName, List.map_cons, List.map_nil, hget, hd,
            List.take_succ_cons,
            List.take_nil, List.nodup_cons, List.not_mem_nil, not_false_eq_true, List.nodup_nil,
            and_self, List.mem_singleton, forall_eq, true_and]
          exact hfresh
        | some e =>
          have hrun2 : run =
              { retryLoop cfg net rnd isFlusher stream n (i + 1)
                  { st1 with tried := cfg.Backends[st1.backend].Name :: st1.tried,
                             lastErr := some e } with
                attempts := ⟨i, st1.backend, st1.useModel, st1.reqData, ops, some e⟩ ::
                  (retryLoop cfg net rnd isFlusher stream n (i + 1)
                    { st1 with tried := cfg.Backends[st1.backend].Name :: st1.tried,
                               lastErr := some e }).attempts } := by
            rw [hrun]
            simp only [retryLoop, hsel2, hget, hdo]
          obtain ⟨hnd, hdis⟩ :=
            ih (i + 1) { st1 with tried := cfg.Backends[st1.backend].Name :: st1.tried,
                                  lastErr := some e } (by omega) hfit1 _ rfl
          have hd2 : cfg.Backends.length -
              (cfg.Backends[st1.backend].Name :: st1.tried).length = d := by
            simp only [List.length_cons, htried]
            omega
          simp only [hd2] at hnd hdis
          subst hrun2
          simp only [dispatchedNames, backendName, List.map_cons, hget, hd, List.take_succ_cons,
            List.nodup_cons, List.mem_cons, forall_eq_or_imp]
          simp only [dispatchedNames, backendName] at hnd hdis
          refine ⟨⟨?_, hnd⟩, hfresh, ?_⟩
          · intro hmem
            exact hdis _ hmem (List.mem_cons_self _ _)
          · intro x hx hxt
            exact hdis x hx (List.mem_cons_of_mem _ (by rw [htried]; exact hxt))
    · have hzero : cfg.Backends.length - st.tried.length = 0 := by omega
      simp [hzero]

theorem handleSelected_rr_distinct (cfg : Config) (net : Net) (rnd : Nat → Nat)
    (isFlusher stream : Bool) (backend : Nat) (useModel : String) (m : JMap) (s : Sel)
    (hmode : cfg.Mode = "round-robin")
    (hnodup : (cfg.Backends.map Backend.Name).Nodup)
    (hb : backend < cfg.Backends.length)
    (hfit : SelFits cfg s (cfg.Retry.toNat * cfg.Backends.length)) :
    ∀ K, K ≤ cfg.Backends.length →
      ((dispatchedNames cfg (handleSelected cfg net rnd isFlusher stream backend useModel
        (some m) s)).take K).Nodup := by
  have hmain : ((dispatchedNames cfg (handleSelected cfg net rnd isFlusher stream backend
      useModel (some m) s)).take cfg.Backends.length).Nodup := by
    have hget : cfg.Backends[backend]? = some cfg.Backends[backend] :=
      List.getElem?_eq_getElem hb
    obtain ⟨d, hd⟩ : ∃ d, cfg.Backends.length = d + 1 := ⟨cfg.Backends.length - 1, by omega⟩
    cases hR : cfg.Retry.toNat with
    | zero => simp [handleSelected, hR, retryLoop, dispatchedNames]
    | succ n =>
      rw [hR] at hfit
      have hfit1 : SelFits cfg s (n * cfg.Backends.length) :=
        SelFits_mono cfg s (Nat.mul_le_mul_right _ (Nat.le_succ n)) hfit
      cases hdo : doRequest net 0 isFlusher cfg.Backends[backend]
          (m.set "model" (.str useModel)) stream with
      | mk ops err =>
        cases err with
        | none =>
          simp [handleSelected, hR, retryLoop, hget, hdo, dispatchedNames, backendName, hd]
        | some e =>
          obtain ⟨hnd, hdis⟩ :=
            retryLoop_rr_distinct cfg net rnd isFlusher stream n 1
              { backend := backend, useModel := useModel,
                reqMap := m.set "model" (.str useModel),
                reqData := m.set "model" (.str useModel),
                tried := [cfg.Backends[backend].Name], lastErr := some e, sel := s }
              (by omega) hmode hnodup hfit1 _ rfl
          have hd2 : cfg.Backends.length - [cfg.Backends[backend].Name].length = d := by
            simp only [List.length_singleton]
            omega
          simp only [hd2, dispatchedNames, backendName] at hnd hdis
          simp only [handleSelected, hR, retryLoop, lt_self_iff_false, if_false, hget, hdo,
            dispatchedNames, backendName, List.map_cons, hd, List.take_succ_cons,
            List.nodup_cons]
          refine ⟨?_, hnd⟩
          intro hmem
          exact hdis _ hmem (List.mem_singleton_self _)
  intro K hK
  have hsub : ((dispatchedNames cfg (handleSelected cfg net rnd isFlusher stream backend
      useModel (some m) s)).take K).Sublist
      ((dispatchedNames cfg (handleSelected cfg net rnd isFlusher stream backend
        useModel (some m) s)).take cfg.Backends.length) := by
    have : K = min K cfg.Backends.length := by omega
    rw [this, ← List.take_take]
    exact List.take_sublist _ _
  exact hmain.sublist hsub

theorem reselect_fresh_or_same (cfg : Config) (rnd : Nat → Nat) (st : LoopState) (k : Nat)
    (hne : cfg.Backends ≠ []) (hb : st.backend < cfg.Backends.length)
    (hfit : SelFits cfg st.sel (cfg.Backends.length + k)) :
    ∃ st1, reselect cfg rnd st = some st1 ∧ st1.backend < cfg.Backends.length ∧
      SelFits cfg st1.sel k ∧ st1.tried = st.tried ∧
      (st1.backend = st.backend ∨ backendName cfg st1.backend ∉ st.tried) := by
  obtain ⟨r, s1, hrs, hfit1, hr⟩ :=
    retrySearch_ok cfg rnd st.tried cfg.Backends.length k st.sel hne hfit
  cases r with
  | none =>
    exact ⟨{ st with sel := s1 }, by simp [reselect, hrs], hb, hfit1, rfl, Or.inl rfl⟩
  | some b =>
    obtain ⟨hb2, hnot⟩ := hr b rfl
    have hget : cfg.Backends[b]? = some cfg.Backends[b] := List.getElem?_eq_getElem hb2
    refine ⟨{ st with
        backend := b, useModel := useModelOf cfg.Backends[b],
        reqMap := st.reqMap.set "model" (.str (useModelOf cfg.Backends[b])),
        reqData := st.reqMap.set "model" (.str (useModelOf cfg.Backends[b])),
        sel := s1 }, ?_, hb2, hfit1, rfl, Or.inr ?_⟩
    · simp only [reselect, hrs, hget]
    · simp only [backendName, hget]
      exact hnot

theorem retryLoop_freshOrRepeat (cfg : Config) (net : Net) (rnd : Nat → Nat)
    (isFlusher stream : Bool) (n i : Nat) (st : LoopState) (hi : 0 < i)
    (hne : cfg.Backends ≠ []) (hb : st.backend < cfg.Backends.length)
    (hfit : SelFits cfg st.sel (n * cfg.Backends.length)) :
    freshOrRepeat cfg st.tried st.backend
      (retryLoop cfg net rnd isFlusher stream n i st).attempts := by
  induction n generalizing i st with
  | zero => simp [retryLoop, freshOrRepeat]
  | succ n ih =>
    have hfit2 : SelFits cfg st.sel (cfg.Backends.length + n * cfg.Backends.length) := by
      have : (n + 1) * cfg.Backends.length = cfg.Backends.length + n * cfg.Backends.length := by
        ring
      rw [this] at hfit
      exact hfit
    obtain ⟨st1, hsel, hb1, hfit1, htried, hfresh⟩ :=
      reselect_fresh_or_same cfg rnd st _ hne hb hfit2
    have hsel2 : (if 0 < i then reselect cfg rnd st else some st) = some st1 := by
      rw [if_pos hi]; exact hsel
    have hget : cfg.Backends[st1.backend]? = some cfg.Backends[st1.backend] :=
      List.getElem?_eq_getElem hb1
    have hname : backendName cfg st1.backend = cfg.Backends[st1.backend].Name := by
      simp only [backendName, hget]
    cases hdo : doRequest net i isFlusher cfg.Backends[st1.backend] st1.reqData stream with
    | mk ops err =>
      cases err with
      | none =>
        simp only [retryLoop, hsel2, hget, hdo, freshOrRepeat, and_true]
        exact hfresh
      | some e =>
        have hrec := ih (i + 1)
          { st1 with tried := cfg.Backends[st1.backend].Name :: st1.tried, lastErr := some e }
          (by omega) hb1 hfit1
        simp only [retryLoop, hsel2, hget, hdo, freshOrRepeat]
        refine ⟨hfresh, ?_⟩
        rw [hname, ← htried]
        exact hrec

theorem handleSelected_freshOrRepeat (cfg : Config) (net : Net) (rnd : Nat → Nat)
    (isFlusher stream : Bool) (backend : Nat) (useModel : String) (m : JMap) (s : Sel)
    (hb : backend < cfg.Backends.length)
    (hfit : SelFits cfg s (cfg.Retry.toNat * cfg.Backends.length)) :
    ∀ a0 rest,
      (handleSelected cfg net rnd isFlusher stream backend useModel (some m) s).attempts =
        a0 :: rest →
      freshOrRepeat cfg [backendName cfg a0.backend] a0.backend rest := by
  have hne : cfg.Backends ≠ [] := List.length_pos.1 (by omega)
  have hget : cfg.Backends[backend]? = some cfg.Backends[backend] :=
    List.getElem?_eq_getElem hb
  have hname : backendName cfg backend = cfg.Backends[backend].Name := by
    simp only [backendName, hget]
  intro a0 rest hrun
  cases hR : cfg.Retry.toNat with
  | zero => simp [handleSelected, hR, retryLoop] at hrun
  | succ n =>
    rw [hR] at hfit
    have hfit1 : SelFits cfg s (n * cfg.Backends.length) :=
      SelFits_mono cfg s (Nat.mul_le_mul_right _ (Nat.le_succ n)) hfit
    cases hdo : doRequest net 0 isFlusher cfg.Backends[backend]
        (m.set "model" (.str useModel)) stream with
    | mk ops err =>
      cases err with
      | none =>
        simp only [handleSelected, hR, retryLoop, lt_self_iff_false, if_false, hget, hdo,
          List.cons.injEq] at hrun
        obtain ⟨_, hrest⟩ := hrun
        rw [← hrest]
        trivial
      | some e =>
        have hrec := retryLoop_freshOrRepeat cfg net rnd isFlusher stream n 1
          { backend := backend, useModel := useModel,
            reqMap := m.set "model" (.str useModel),
            reqData := m.set "model" (.str useModel),
            tried := [cfg.Backends[backend].Name], lastErr := some e, sel := s }
          (by omega) hne hb hfit1
        simp only [handleSelected, hR, retryLoop, lt_self_iff_false, if_false, hget, hdo,
          List.cons.injEq] at hrun
        obtain ⟨ha0, hrest⟩ := hrun
        rw [← hrest, ← ha0]
        simp only [hname]
        exact hrec

/-- The round-robin path of the retry search does what the weighted-random
path misses: on a registry whose backend names are pairwise distinct, for a
POST request with a JSON object as body and with no other request advancing
the rotation counter in between, the backends of the first `K` attempts of
`handleChat` have pairwise distinct names for every `K` up to the number of
backends. In every mode an attempt after the first goes to a backend whose
name was not attempted before in this request or to the backend of the attempt
before it. The integers of the selection are taken to stay representable
(`SelFits`). -/
theorem handleChat_roundRobin_distinct (cfg : Config) (net : Net) (rnd : Nat → Nat)
    (isFlusher : Bool) (s : Sel) (r : Request) (hreq : r.isChatPost)
    (hnodup : (cfg.Backends.map Backend.Name).Nodup) (hne : cfg.Backends ≠ [])
    (hfit : SelFits cfg s (cfg.Retry.toNat * cfg.Backends.length + 1)) :
    (∀ a0 rest, (handleChat cfg net rnd isFlusher s r).attempts = a0 :: rest →
      freshOrRepeat cfg [backendName cfg a0.backend] a0.backend rest) ∧
    (cfg.Mode = "round-robin" → ∀ K, K ≤ cfg.Backends.length →
      ((dispatchedNames cfg (handleChat cfg net rnd isFlusher s r)).take K).Nodup) := by
  obtain ⟨b, model, s1, m, stream, hb, hfit1, heq⟩ :=
    handleChat_enters cfg net rnd isFlusher s r _ hreq hne hfit
  rw [heq]
  constructor
  · exact handleSelected_freshOrRepeat cfg net rnd isFlusher stream b model m s1 hb hfit1
  · intro hmode
    exact handleSelected_rr_distinct cfg net rnd isFlusher stream b model m s1 hmode hnodup hb
      hfit1

/-- On `cfgRR` with every connection refused the three attempts go to three
different backends. -/
theorem handleChat_roundRobin_distinct_example :
    dispatchedNames cfgRR runDown = ["a", "b", "c"] ∧
    ((dispatchedNames cfgRR runDown).take 3).Nodup :=
  ⟨by decide,
   (handleChat_roundRobin_distinct cfgRR netDown (fun _ => 0) false ⟨0, 0⟩ reqAuto
    ⟨rfl, rfl, ⟨_, rfl⟩, ⟨_, rfl⟩⟩ (by decide) (by decide) (by decide)).2
    (by decide) 3 (by decide)⟩

/-! ## What every dispatch of a run carries -/

theorem JMap.get?_set (m : JMap) (key : String) (v : JVal) :
    (m.set key v).get? key = some v := by
  simp [JMap.set, JMap.get?]

theorem JMap.set_set (m : JMap) (key : String) (v w : JVal) :
    (m.set key v).set key w = m.set key w := by
  simp [JMap.set, List.filter_cons, List.filter_filter]

theorem reselect_cases (cfg : Config) (rnd : Nat → Nat) (st st1 : LoopState)
    (h : reselect cfg rnd st = some st1) :
    st1.tried = st.tried ∧ st1.lastErr = st.lastErr ∧
    ((st1.backend = st.backend ∧ st1.useModel = st.useModel ∧ st1.reqMap = st.reqMap ∧
        st1.reqData = st.reqData ∧
        ∃ s1, retrySearch cfg rnd st.tried cfg.Backends.length st.sel = some (none, s1)) ∨
     (∃ hb : st1.backend < cfg.Backends.length,
        st1.useModel = useModelOf cfg.Backends[st1.backend] ∧
        st1.reqMap = st.reqMap.set "model" (.str st1.useModel) ∧
        st1.reqData = st.reqMap.set "model" (.str st1.useModel) ∧
        ∃ s1, retrySearch cfg rnd st.tried cfg.Backends.length st.sel =
          some (some st1.backend, s1))) := by
  unfold reselect at h
  cases hrs : retrySearch cfg rnd st.tried cfg.Backends.length st.sel with
  | none => simp [hrs] at h
  | some res =>
    obtain ⟨r, s1⟩ := res
    cases r with
    | none =>
      simp only [hrs, Option.some.injEq] at h
      subst h
      exact ⟨rfl, rfl, Or.inl ⟨rfl, rfl, rfl, rfl, s1, rfl⟩⟩
    | some b =>
      simp only [hrs] at h
      cases hget : cfg.Backends[b]? with
      | none => simp [hget] at h
      | some bk =>
        simp only [hget, Option.some.injEq] at h
        subst h
        have hb : b < cfg.Backends.length := by
          by_contra hcon
          have := List.getElem?_eq_none (by omega : cfg.Backends.length ≤ b)
          rw [this] at hget
          cases hget
        have hbk : cfg.Backends[b] = bk := by
          have := List.getElem?_eq_getElem hb
          rw [hget] at this
          exact (Option.some.inj this).symm
        refine ⟨rfl, rfl, Or.inr ⟨hb, ?_, ?_, ?_, s1, rfl⟩⟩
        · simp only [hbk]
        · rfl
        · rfl

theorem getElem?_some_lt (bs : List Backend) (b : Nat) (bk : Backend)
    (h : bs[b]? = some bk) : ∃ hb : b < bs.length, bs[b] = bk := by
  have hb : b < bs.length := by
    by_contra hcon
    have := List.getElem?_eq_none (by omega : bs.length ≤ b)
    rw [this] at h
    cases h
  refine ⟨hb, ?_⟩
  have := List.getElem?_eq_getElem hb
  rw [h] at this
  exact (Option.some.inj this).symm

theorem retryLoop_attempts (cfg : Config) (net : Net) (rnd : Nat → Nat)
    (isFlusher stream : Bool) (n i : Nat) (st : LoopState) (m0 : JMap) (b0 : Nat)
    (model0 : String)
    (hmap : st.reqMap = m0.set "model" (.str st.useModel))
    (hdata : st.reqData = m0.set "model" (.str st.useModel))
    (hmodel : (st.backend = b0 ∧ st.useModel = model0) ∨
      ∃ hb : st.backend < cfg.Backends.length,
        st.useModel = useModelOf cfg.Backends[st.backend]) :
    ∀ a ∈ (retryLoop cfg net rnd isFlusher stream n i st).attempts,
      ∃ hb : a.backend < cfg.Backends.length,
        (a.ops, a.err) =
          doRequest net a.index isFlusher cfg.Backends[a.backend] a.reqData stream ∧
        a.reqData = m0.set "model" (.str a.useModel) ∧
        ((a.backend = b0 ∧ a.useModel = model0) ∨
          a.useModel = useModelOf cfg.Backends[a.backend]) := by
  induction n generalizing i st with
  | zero => simp [retryLoop]
  | succ n ih =>
    intro a ha
    cases hsel : (if 0 < i then reselect cfg rnd st else some st) with
    | none => simp [retryLoop, hsel] at ha
    | some st1 =>
      have hinv : st1.reqMap = m0.set "model" (.str st1.useModel) ∧
          st1.reqData = m0.set "model" (.str st1.useModel) ∧
          ((st1.backend = b0 ∧ st1.useModel = model0) ∨
            ∃ hb : st1.backend < cfg.Backends.length,
              st1.useModel = useModelOf cfg.Backends[st1.backend]) := by
        by_cases hi : 0 < i
        · rw [if_pos hi] at hsel
          obtain ⟨_, _, hcase⟩ := reselect_cases cfg rnd st st1 hsel
          rcases hcase with ⟨h1, h2, h3, h4, _⟩ | ⟨hb, h2, h3, h4, _⟩
          · refine ⟨by rw [h3, h2]; exact hmap, by rw [h4, h2]; exact hdata, ?_⟩
            rw [h1, h2]
            exact hmodel
          · refine ⟨?_, ?_, Or.inr ⟨hb, h2⟩⟩
            · rw [h3, hmap, JMap.set_set]
            · rw [h4, hmap, JMap.set_set]
        · rw [if_neg hi] at hsel
          cases hsel
          exact ⟨hmap, hdata, hmodel⟩
      obtain ⟨hmap1, hdata1, hmodel1⟩ := hinv
      cases hget : cfg.Backends[st1.backend]? with
      | none => simp [retryLoop, hsel, hget] at ha
      | some bk =>
        obtain ⟨hb1, hbk⟩ := getElem?_some_lt _ _ _ hget
        have hmodel2 : (st1.backend = b0 ∧ st1.useModel = model0) ∨
            st1.useModel = useModelOf cfg.Backends[st1.backend] := by
          rcases hmodel1 with h | ⟨_, h⟩
          · exact Or.inl h
          · exact Or.inr h
        cases hdo : doRequest net i isFlusher bk st1.reqData stream with
        | mk ops err =>
          cases err with
          | none =>
            simp only [retryLoop, hsel, hget, hdo, List.mem_singleton] at ha
            subst ha
            refine ⟨hb1, ?_, hdata1, hmodel2⟩
            simp only [hbk, hdo]
          | some e =>
            simp only [retryLoop, hsel, hget, hdo, List.mem_cons] at ha
            rcases ha with ha | ha
            · subst ha
              refine ⟨hb1, ?_, hdata1, hmodel2⟩
              simp only [hbk, hdo]
            · exact ih (i + 1) { st1 with tried := bk.Name :: st1.tried, lastErr := some e }
                hmap1 hdata1 hmodel1 a ha

theorem findBackend_cases (cfg : Config) (rnd : Nat → Nat) (s s1 : Sel) (model mo : String)
    (b : Nat) (h : findBackend cfg rnd s model = ((some b, mo), s1)) :
    (scanBackends cfg.Backends 0 model = some b ∧ mo = model) ∨
    ∃ hb : b < cfg.Backends.length, mo = useModelOf cfg.Backends[b] := by
  unfold findBackend at h
  by_cases hlen : cfg.Backends.length = 0
  · simp [hlen] at h
  · simp only [hlen, dite_false] at h
    cases hscan : scanBackends cfg.Backends 0 model with
    | some i =>
      simp only [hscan, Prod.mk.injEq, Option.some.injEq] at h
      obtain ⟨⟨h1, h2⟩, _⟩ := h
      exact Or.inl ⟨by rw [h1], h2.symm⟩
    | none =>
      simp only [hscan, Prod.mk.injEq, Option.some.injEq] at h
      obtain ⟨⟨h1, h2⟩, _⟩ := h
      subst h1
      refine Or.inr ⟨Nat.mod_lt _ (Nat.pos_of_ne_zero hlen), ?_⟩
      rw [← h2]
      rfl

theorem handleSelected_attempts (cfg : Config) (net : Net) (rnd : Nat → Nat)
    (isFlusher stream : Bool) (b : Nat) (model : String) (reqMap : Option JMap) (s : Sel) :
    ∀ a ∈ (handleSelected cfg net rnd isFlusher stream b model reqMap s).attempts,
      ∃ m, reqMap = some m ∧ ∃ hb : a.backend < cfg.Backends.length,
        (a.ops, a.err) =
          doRequest net a.index isFlusher cfg.Backends[a.backend] a.reqData stream ∧
        a.reqData = m.set "model" (.str a.useModel) ∧
        ((a.backend = b ∧ a.useModel = model) ∨
          a.useModel = useModelOf cfg.Backends[a.backend]) := by
  intro a ha
  cases reqMap with
  | none => simp [handleSelected] at ha
  | some m =>
    exact ⟨m, rfl, retryLoop_attempts cfg net rnd isFlusher stream cfg.Retry.toNat 0
      { backend := b, useModel := model, reqMap := m.set "model" (.str model),
        reqData := m.set "model" (.str model), tried := [], lastErr := none, sel := s }
      m b model rfl rfl (Or.inl ⟨rfl, rfl⟩) a ha⟩

theorem handleChat_attempts (cfg : Config) (net : Net) (rnd : Nat → Nat) (isFlusher : Bool)
    (s : Sel) (r : Request) :
    ∀ a ∈ (handleChat cfg net rnd isFlusher s r).attempts,
      ∃ cr m, r.req = .ok cr ∧ r.reqMap = some m ∧ ∃ hb : a.backend < cfg.Backends.length,
        (a.ops, a.err) =
          doRequest net a.index isFlusher cfg.Backends[a.backend] a.reqData cr.Stream ∧
        a.reqData = m.set "model" (.str a.useModel) ∧
        ((cr.Model ≠ "" ∧ cr.Model ≠ "auto" ∧
            scanBackends cfg.Backends 0 cr.Model = some a.backend ∧ a.useModel = cr.Model) ∨
          a.useModel = useModelOf cfg.Backends[a.backend]) := by
  intro a ha
  unfold handleChat at ha
  split at ha
  · simp [earlyReply] at ha
  split at ha
  · simp [earlyReply] at ha
  split at ha
  · simp [earlyReply] at ha
  split at ha
  · simp [earlyReply] at ha
  cases hreq : r.req with
  | error e => simp [hreq, earlyReply] at ha
  | ok cr =>
    simp only [hreq] at ha
    by_cases hauto : cr.Model = "" ∨ cr.Model = "auto"
    · simp only [hauto, if_true] at ha
      cases hnb : nextBackend cfg rnd s with
      | none => simp [hnb] at ha
      | some res =>
        obtain ⟨ob, s1⟩ := res
        cases ob with
        | none => simp [hnb, earlyReply] at ha
        | some b =>
          simp only [hnb] at ha
          cases hget : cfg.Backends[b]? with
          | none => simp [hget] at ha
          | some bk =>
            simp only [hget] at ha
            obtain ⟨hb, hbk⟩ := getElem?_some_lt _ _ _ hget
            obtain ⟨m, hm, hb2, hdo, hdata, hmodel⟩ :=
              handleSelected_attempts cfg net rnd isFlusher cr.Stream b (useModelOf bk)
                r.reqMap s1 a ha
            refine ⟨cr, m, rfl, hm, hb2, hdo, hdata, Or.inr ?_⟩
            rcases hmodel with ⟨h1, h2⟩ | h
            · rw [h2]
              simp only [h1, hbk]
            · exact h
    · simp only [hauto, if_false] at ha
      have hne1 : cr.Model ≠ "" := fun h => hauto (Or.inl h)
      have hne2 : cr.Model ≠ "auto" := fun h => hauto (Or.inr h)
      cases hfb : findBackend cfg rnd s cr.Model with
      | mk res s1 =>
        obtain ⟨ob, mo⟩ := res
        cases ob with
        | none => simp [hfb, earlyReply] at ha
        | some b =>
          simp only [hfb] at ha
          obtain ⟨m, hm, hb2, hdo, hdata, hmodel⟩ :=
            handleSelected_attempts cfg net rnd isFlusher cr.Stream b mo r.reqMap s1 a ha
          refine ⟨cr, m, rfl, hm, hb2, hdo, hdata, ?_⟩
          rcases hmodel with ⟨h1, h2⟩ | h
          · rcases findBackend_cases cfg rnd s s1 cr.Model mo b hfb with ⟨hs, hmo⟩ | ⟨hb, hmo⟩
            · exact Or.inl ⟨hne1, hne2, by rw [h1]; exact hs, by rw [h2]; exact hmo⟩
            · refine Or.inr ?_
              rw [h2, hmo]
              simp only [h1]
          · exact Or.inr h

/-! ## The model field of the dispatched bodies -/

theorem modelField_set (m : JMap) (s : String) :
    modelField (m.set "model" (.str s)) = some s := by
  simp [modelField, JMap.get?_set]

/-- Counterexample to C11: in `cfgBare` the second backend has no default model
and no model list. For the request `reqAuto` and the draw 1, `nextBackend`
selects it, and `handleChat` dispatches a body whose model field is the empty
string; the attempt is made and succeeds. -/
theorem handleChat_dispatches_empty_model :
    (handleChat cfgBare netOK (fun _ => 1) true ⟨0, 0⟩ reqAuto).attempts.map
        (fun a => (a.backend, modelField a.reqData, a.err)) = [(1, some "", none)] := by
  decide

/-- C11 (amended): the model field of every body `handleChat` dispatches is the
resolved model of that attempt; it is the empty string or `auto` only when this
is the selected backend's own `DefaultModel` (or first listed model when that is
empty), never the client's raw `auto` or empty model. So every dispatched body
carries a model that is neither empty nor `auto` whenever every backend's
`DefaultModel`-or-first-model is neither. -/
theorem handleChat_model_field (cfg : Config) (net : Net) (rnd : Nat → Nat)
    (isFlusher : Bool) (s : Sel) (r : Request) :
    ∀ a ∈ (handleChat cfg net rnd isFlusher s r).attempts,
      modelField a.reqData = some a.useModel ∧
      ((a.useModel = "" ∨ a.useModel = "auto") →
        ∃ hb : a.backend < cfg.Backends.length,
          a.useModel = useModelOf cfg.Backends[a.backend]) ∧
      ((∀ b ∈ cfg.Backends, useModelOf b ≠ "" ∧ useModelOf b ≠ "auto") →
        a.useModel ≠ "" ∧ a.useModel ≠ "auto") := by
  intro a ha
  obtain ⟨cr, m, _, _, hb, _, hdata, hmodel⟩ := handleChat_attempts cfg net rnd isFlusher s r a ha
  have hkey : (a.useModel = "" ∨ a.useModel = "auto") →
      a.useModel = useModelOf cfg.Backends[a.backend] := by
    intro hbad
    rcases hmodel with ⟨h1, h2, _, h4⟩ | h
    · rw [h4] at hbad
      rcases hbad with hbad | hbad
      · exact absurd hbad h1
      · exact absurd hbad h2
    · exact h
  refine ⟨by rw [hdata]; exact modelField_set m a.useModel, fun hbad => ⟨hb, hkey hbad⟩, ?_⟩
  intro hall
  have hgood := hall cfg.Backends[a.backend] (List.getElem_mem _)
  constructor
  · intro h
    exact hgood.1 ((hkey (Or.inl h)).symm.trans h)
  · intro h
    exact hgood.2 ((hkey (Or.inr h)).symm.trans h)

/-- Witness for C11 (amended): the first attempt of `runDown` on `cfgRR`, whose
backends all have a default model. -/
theorem handleChat_model_field_witness :
    ∃ a ∈ runDown.attempts, modelField a.reqData = some a.useModel ∧
      a.useModel ≠ "" ∧ a.useModel ≠ "auto" :=
  ⟨runDown.attempts.get ⟨0, by decide⟩, List.get_mem _ _ _,
    (handleChat_model_field cfgRR netDown (fun _ => 0) false ⟨0, 0⟩ reqAuto
      (runDown.attempts.get ⟨0, by decide⟩) (List.get_mem _ _ _)).1,
    (handleChat_model_field cfgRR netDown (fun _ => 0) false ⟨0, 0⟩ reqAuto
      (runDown.attempts.get ⟨0, by decide⟩) (List.get_mem _ _ _)).2.2 (by decide)⟩

/-! ## Upstream error bodies and unsupported streaming -/

theorem doRequest_http_error (net : Net) (k : Nat) (isFlusher : Bool) (backend : Backend)
    (reqData : JMap) (stream : Bool) (status : Int) (lines : List String)
    (readErr : Option String)
    (hnet : net k (trimSlash backend.URL ++ "/chat/completions") ("Bearer " ++ backend.APIKey)
      reqData = .response status lines readErr)
    (hstatus : 400 ≤ status) :
    doRequest net k isFlusher backend reqData stream =
      ([], some ("HTTP " ++ toString status ++ ": " ++ bodyText lines)) := by
  have hge : status ≥ 400 := hstatus
  simp [doRequest, hnet, hge]

theorem handleChat_all_fail_core (cfg : Config) (net : Net) (rnd : Nat → Nat)
    (isFlusher : Bool) (s : Sel) (r : Request) (hreq : r.isChatPost)
    (hne : cfg.Backends ≠ []) (hR : 1 ≤ cfg.Retry)
    (hfit : SelFits cfg s (cfg.Retry.toNat * cfg.Backends.length + 1))
    (hfail : ∀ a ∈ (handleChat cfg net rnd isFlusher s r).attempts, a.err ≠ none) :
    (handleChat cfg net rnd isFlusher s r).panicked = false ∧
    ((handleChat cfg net rnd isFlusher s r).attempts.length : Int) = cfg.Retry ∧
    (handleChat cfg net rnd isFlusher s r).attempts.map Attempt.index =
      List.range cfg.Retry.toNat ∧
    ∃ a e, (handleChat cfg net rnd isFlusher s r).attempts.getLast? = some a ∧
      (a.index : Int) + 1 = cfg.Retry ∧ a.err = some e ∧
      (handleChat cfg net rnd isFlusher s r).final = [.error ("所有后端失败: " ++ e) 502] := by
  obtain ⟨b, model, s1, m, stream, hb, hfit1, heq⟩ :=
    handleChat_enters cfg net rnd isFlusher s r _ hreq hne hfit
  rw [heq] at hfail ⊢
  exact handleSelected_all_fail cfg net rnd isFlusher stream b model m s1 hR hb hfit1 hfail

/-- Counterexample to C12: on `cfgRR` every backend answers status 500 with the
body `secret stack trace`; after the three attempts `handleChat` writes that
body to the client inside the 502 message. -/
theorem handleChat_forwards_error_body :
    (handleChat cfgRR net500 (fun _ => 0) false ⟨0, 0⟩ reqAuto).final =
      [.error "所有后端失败: HTTP 500: secret stack trace\n" 502] := by
  decide

/-- C12 (amended): for every upstream response with status `>= 400`,
`doRequest` reports a failure and makes no call on the client connection, so
`doRequest` itself writes no byte of that response's body; the error it returns
is `HTTP <status>: <body>`, and when every attempt of a request fails and the
last one received such a response, `handleChat` writes this text, upstream error
body included, to the client in the final 502 message. -/
theorem handleChat_error_body_in_502 (cfg : Config) (net : Net) (rnd : Nat → Nat)
    (isFlusher : Bool) (s : Sel) (r : Request) (status : Int) (lines : List String)
    (readErr : Option String) (hstatus : 400 ≤ status) :
    (∀ (k : Nat) (backend : Backend) (reqData : JMap) (stream : Bool),
      net k (trimSlash backend.URL ++ "/chat/completions") ("Bearer " ++ backend.APIKey)
        reqData = .response status lines readErr →
      doRequest net k isFlusher backend reqData stream =
        ([], some ("HTTP " ++ toString status ++ ": " ++ bodyText lines))) ∧
    (r.isChatPost → cfg.Backends ≠ [] → 1 ≤ cfg.Retry →
      SelFits cfg s (cfg.Retry.toNat * cfg.Backends.length + 1) →
      (∀ a ∈ (handleChat cfg net rnd isFlusher s r).attempts, a.err ≠ none) →
      (∀ a, (handleChat cfg net rnd isFlusher s r).attempts.getLast? = some a →
        ∀ hb : a.backend < cfg.Backends.length,
          net a.index (trimSlash cfg.Backends[a.backend].URL ++ "/chat/completions")
            ("Bearer " ++ cfg.Backends[a.backend].APIKey) a.reqData =
              .response status lines readErr) →
      (handleChat cfg net rnd isFlusher s r).final =
        [.error ("所有后端失败: " ++ ("HTTP " ++ toString status ++ ": " ++ bodyText lines))
          502]) := by
  constructor
  · intro k backend reqData stream hnet
    exact doRequest_http_error net k isFlusher backend reqData stream status lines readErr
      hnet hstatus
  · intro hreq hne hR hfit hfail hlast
    obtain ⟨_, _, _, a, e, hget, _, herr, hfinal⟩ :=
      handleChat_all_fail_core cfg net rnd isFlusher s r hreq hne hR hfit hfail
    have hmem : a ∈ (handleChat cfg net rnd isFlusher s r).attempts :=
      List.mem_of_getLast?_eq_some hget
    obtain ⟨cr, _, _, _, hb, hdo, _, _⟩ := handleChat_attempts cfg net rnd isFlusher s r a hmem
    have hnet := hlast a hget hb
    rw [doRequest_http_error net a.index isFlusher cfg.Backends[a.backend] a.reqData cr.Stream
      status lines readErr hnet hstatus] at hdo
    have he : a.err = some ("HTTP " ++ toString status ++ ": " ++ bodyText lines) :=
      (Prod.mk.inj hdo).2
    rw [herr] at he
    rw [hfinal, Option.some.inj he]

/-- Witness for C12 (amended): status 500 with the body `secret stack trace`. -/
theorem handleChat_error_body_in_502_witness :
    doRequest net500 0 false backendA [] false =
      ([], some ("HTTP " ++ toString (500 : Int) ++ ": " ++ bodyText ["secret stack trace"])) :=
  (handleChat_error_body_in_502 cfgRR net500 (fun _ => 0) false ⟨0, 0⟩ reqAuto 500
    ["secret stack trace"] none (by decide)).1 0 backendA [] false rfl

theorem doRequest_no_flusher_fails (net : Net) (k : Nat) (backend : Backend) (reqData : JMap) :
    (doRequest net k false backend reqData true).2 ≠ none := by
  unfold doRequest
  cases net k (trimSlash backend.URL ++ "/chat/completions") ("Bearer " ++ backend.APIKey)
      reqData with
  | invalidURL e => simp
  | noResponse e => simp
  | response status lines readErr =>
    by_cases hst : status ≥ 400
    · simp [hst]
    · simp [hst]

theorem doRequest_no_flusher (net : Net) (k : Nat) (backend : Backend) (reqData : JMap)
    (status : Int) (lines : List String) (readErr : Option String)
    (hnet : net k (trimSlash backend.URL ++ "/chat/completions") ("Bearer " ++ backend.APIKey)
      reqData = .response status lines readErr)
    (hstatus : status < 400) :
    doRequest net k false backend reqData true = (sseHeaders, some "不支持流式响应") := by
  have hst : ¬ status ≥ 400 := by omega
  simp [doRequest, hnet, hst]

/-- Counterexample to C14: a streaming request on `cfgRR` with a response
writer that is no `http.Flusher`, every backend answering status 200. The
first `doRequest` reports that streaming is unsupported, and `handleChat` goes
on to dispatch to the second and the third backend before it answers 502. -/
theorem handleChat_retries_unsupported_stream :
    (handleChat cfgRR netSSE (fun _ => 0) false ⟨0, 0⟩ reqStream).attempts.map
        (fun a => (a.backend, a.err)) =
      [(0, some "不支持流式响应"), (1, some "不支持流式响应"), (2, some "不支持流式响应")] ∧
    (handleChat cfgRR netSSE (fun _ => 0) false ⟨0, 0⟩ reqStream).final =
      [.error "所有后端失败: 不支持流式响应" 502] := by
  decide

/-- C14 (amended): for every streaming request, when the client response
writer is not an `http.Flusher`, every dispatch fails: one that receives a
response with status below 400 sets the three event-stream headers and returns
the error `不支持流式响应`. `handleChat` treats this error like any other one: for
a retry count `R >= 1` it makes all `R` dispatches and then answers 502 with
the error of the last one. The integers of the selection are taken to stay
representable (`SelFits`). -/
theorem handleChat_stream_unsupported (cfg : Config) (net : Net) (rnd : Nat → Nat)
    (s : Sel) (r : Request) (cr : ChatRequest) (hreq : r.isChatPost)
    (hcr : r.req = .ok cr) (hstream : cr.Stream = true) (hne : cfg.Backends ≠ [])
    (hR : 1 ≤ cfg.Retry)
    (hfit : SelFits cfg s (cfg.Retry.toNat * cfg.Backends.length + 1)) :
    (∀ a ∈ (handleChat cfg net rnd false s r).attempts, a.err ≠ none) ∧
    (∀ a ∈ (handleChat cfg net rnd false s r).attempts,
      ∀ hb : a.backend < cfg.Backends.length, ∀ status lines readErr,
        net a.index (trimSlash cfg.Backends[a.backend].URL ++ "/chat/completions")
          ("Bearer " ++ cfg.Backends[a.backend].APIKey) a.reqData =
            .response status lines readErr →
        status < 400 → a.ops = sseHeaders ∧ a.err = some "不支持流式响应") ∧
    ((handleChat cfg net rnd false s r).attempts.length : Int) = cfg.Retry ∧
    ∃ a e, (handleChat cfg net rnd false s r).attempts.getLast? = some a ∧
      a.err = some e ∧
      (handleChat cfg net rnd false s r).final = [.error ("所有后端失败: " ++ e) 502] := by
  have hlink : ∀ a ∈ (handleChat cfg net rnd false s r).attempts,
      ∃ hb : a.backend < cfg.Backends.length,
        (a.ops, a.err) = doRequest net a.index false cfg.Backends[a.backend] a.reqData true := by
    intro a ha
    obtain ⟨cr2, _, hcr2, _, hb, hdo, _, _⟩ := handleChat_attempts cfg net rnd false s r a ha
    rw [hcr] at hcr2
    cases hcr2
    rw [hstream] at hdo
    exact ⟨hb, hdo⟩
  have hfail : ∀ a ∈ (handleChat cfg net rnd false s r).attempts, a.err ≠ none := by
    intro a ha
    obtain ⟨hb, hdo⟩ := hlink a ha
    have := doRequest_no_flusher_fails net a.index cfg.Backends[a.backend] a.reqData
    rw [← hdo] at this
    exact this
  obtain ⟨_, hlen, _, a, e, hget, _, herr, hfinal⟩ :=
    handleChat_all_fail_core cfg net rnd false s r hreq hne hR hfit hfail
  refine ⟨hfail, ?_, hlen, a, e, hget, herr, hfinal⟩
  intro a ha hb status lines readErr hnet hstatus
  obtain ⟨_, hdo⟩ := hlink a ha
  rw [doRequest_no_flusher net a.index cfg.Backends[a.backend] a.reqData status lines readErr
    hnet hstatus] at hdo
  exact ⟨(Prod.mk.inj hdo).1, (Prod.mk.inj hdo).2⟩

/-- Witness for C14 (amended): the streaming request `reqStream` on `cfgRR`. -/
theorem handleChat_stream_unsupported_witness :
    ((handleChat cfgRR netSSE (fun _ => 0) false ⟨0, 0⟩ reqStream).attempts.length : Int) =
      cfgRR.Retry :=
  (handleChat_stream_unsupported cfgRR netSSE (fun _ => 0) ⟨0, 0⟩ reqStream
    { Model := "auto", Stream := true } ⟨rfl, rfl, ⟨_, rfl⟩, ⟨_, rfl⟩⟩ rfl rfl
    (by decide) (by decide) (by decide)).2.2.1

/-! ## The model catalogue of `handleModels` -/

theorem addPairs_append (l1 l2 : List (String × String)) (st : List String × List ModelEntry) :
    addPairs (l1 ++ l2) st = addPairs l2 (addPairs l1 st) := by
  induction l1 generalizing st with
  | nil => rfl
  | cons p l1 ih =>
    simp only [List.cons_append, addPairs]
    split
    · exact ih st
    · exact ih _

theorem addModels_eq_addPairs (owner : String) (ms : List String)
    (st : List String × List ModelEntry) :
    addModels owner ms st = addPairs (ms.map fun m => (owner, m)) st := by
  induction ms generalizing st with
  | nil => rfl
  | cons m ms ih =>
    simp only [addModels, List.map_cons, addPairs]
    split
    · exact ih st
    · exact ih _

theorem addBackends_eq_addPairs (bs : List Backend) (st : List String × List ModelEntry) :
    addBackends bs st = addPairs (listedPairs bs) st := by
  induction bs generalizing st with
  | nil => rfl
  | cons b bs ih =>
    simp only [addBackends, listedPairs, List.flatMap_cons, addPairs_append]
    rw [ih, addModels_eq_addPairs]
    rfl

theorem addPairs_spec (ps : List (String × String)) (seen : List String)
    (acc : List ModelEntry) :
    (addPairs ps (seen, acc)).2 =
      acc ++ ((firstPairs ps).filter fun q => decide (q.2 ∉ seen)).map
        fun q => (⟨q.2, "model", q.1⟩ : ModelEntry) := by
  induction ps generalizing seen acc with
  | nil => simp [addPairs, firstPairs]
  | cons p ps ih =>
    by_cases hp : p.2 ∈ seen
    · have hc : seen.contains p.2 = true := by simpa using hp
      simp only [addPairs, hc, if_true, firstPairs, ih]
      congr 2
      rw [List.filter_cons]
      simp only [hp, not_true_eq_false, decide_False]
      rw [List.filter_filter]
      apply List.filter_congr
      intro q _
      by_cases hq : q.2 ∈ seen
      · simp [hq]
      · have : q.2 ≠ p.2 := fun h => hq (h ▸ hp)
        simp [hq, this]
    · have hc : seen.contains p.2 = false := by simpa using hp
      have hstep : addPairs (p :: ps) (seen, acc) =
          addPairs ps (p.2 :: seen, acc ++ [⟨p.2, "model", p.1⟩]) := by
        simp only [addPairs, hc]
        rfl
      rw [hstep, ih]
      simp only [firstPairs]
      rw [List.filter_cons]
      simp only [hp, not_false_eq_true, decide_True, if_true, List.map_cons, List.append_assoc,
        List.singleton_append]
      congr 3
      rw [List.filter_filter]
      apply List.filter_congr
      intro q _
      by_cases hq : q.2 = p.2
      · simp [hq]
      · simp [hq]

theorem handleModels_eq (cfg : Config) :
    handleModels cfg =
      (firstPairs (listedPairs cfg.Backends)).map
        fun q => (⟨q.2, "model", q.1⟩ : ModelEntry) := by
  unfold handleModels
  rw [addBackends_eq_addPairs, addPairs_spec]
  simp

theorem firstPairs_map_snd (ps : List (String × String)) :
    (firstPairs ps).map Prod.snd = firstOccurrences (ps.map Prod.snd) := by
  induction ps with
  | nil => rfl
  | cons p ps ih =>
    simp only [firstPairs, List.map_cons, firstOccurrences, ← ih, List.cons.injEq, true_and]
    rw [List.filter_map]
    rfl

theorem listedPairs_map_snd (bs : List Backend) :
    (listedPairs bs).map Prod.snd = bs.flatMap Backend.Models := by
  induction bs with
  | nil => rfl
  | cons b bs ih =>
    simp only [listedPairs, List.flatMap_cons, List.map_append, List.map_map] at ih ⊢
    rw [ih]
    congr 1
    simp [Function.comp_def]

theorem mem_firstOccurrences (l : List String) (m : String) :
    m ∈ firstOccurrences l ↔ m ∈ l := by
  induction l with
  | nil => simp [firstOccurrences]
  | cons x xs ih =>
    simp only [firstOccurrences, List.mem_cons, List.mem_filter, ih, decide_eq_true_eq]
    by_cases h : m = x
    · simp [h]
    · simp [h]

theorem firstOccurrences_nodup (l : List String) : (firstOccurrences l).Nodup := by
  induction l with
  | nil => simp [firstOccurrences]
  | cons x xs ih =>
    simp only [firstOccurrences, List.nodup_cons, List.mem_filter, decide_eq_true_eq]
    exact ⟨fun h => h.2 rfl, ih.filter _⟩

theorem firstPairs_append (l1 l2 : List (String × String)) :
    firstPairs (l1 ++ l2) =
      firstPairs l1 ++ (firstPairs l2).filter fun q => decide (q.2 ∉ l1.map Prod.snd) := by
  induction l1 with
  | nil => simp [firstPairs]
  | cons p l1 ih =>
    have hcons : firstPairs (p :: l1 ++ l2) =
        p :: (firstPairs (l1 ++ l2)).filter fun q => decide (q.2 ≠ p.2) := rfl
    rw [hcons, ih, List.filter_append]
    simp only [firstPairs, List.cons_append, List.cons.injEq, true_and,
      List.append_cancel_left_eq]
    rw [List.filter_filter]
    apply List.filter_congr
    intro q _
    by_cases hq : q.2 = p.2
    · simp [hq]
    · simp [hq]

theorem mem_firstPairs_sub (ps : List (String × String)) (q : String × String)
    (h : q ∈ firstPairs ps) : q ∈ ps := by
  induction ps with
  | nil => simp [firstPairs] at h
  | cons p ps ih =>
    simp only [firstPairs, List.mem_cons, List.mem_filter] at h
    rcases h with h | ⟨h, _⟩
    · exact h ▸ List.mem_cons_self _ _
    · exact List.mem_cons_of_mem _ (ih h)

theorem firstPairs_owner (bs : List Backend) (q : String × String)
    (h : q ∈ firstPairs (listedPairs bs)) :
    ∃ i, ∃ hi : i < bs.length, q.1 = bs[i].Name ∧ q.2 ∈ bs[i].Models ∧
      ∀ j, ∀ hj : j < bs.length, j < i → q.2 ∉ bs[j].Models := by
  induction bs with
  | nil => simp [listedPairs, firstPairs] at h
  | cons b bs ih =>
    have hsplit : listedPairs (b :: bs) =
        (b.Models.map fun m => (b.Name, m)) ++ listedPairs bs := by
      simp [listedPairs]
    rw [hsplit, firstPairs_append, List.mem_append] at h
    rcases h with h | h
    · have hmem := mem_firstPairs_sub _ _ h
      obtain ⟨m, hm, hq⟩ := List.mem_map.1 hmem
      refine ⟨0, by simp, ?_, ?_, ?_⟩
      · simp [← hq]
      · simpa [← hq] using hm
      · intro j _ hj
        omega
    · obtain ⟨hin, hnot⟩ := List.mem_filter.1 h
      obtain ⟨i, hi, h1, h2, h3⟩ := ih hin
      have hnot2 : q.2 ∉ b.Models := by
        have := of_decide_eq_true hnot
        simpa [Function.comp_def] using this
      refine ⟨i + 1, by simpa using hi, by simpa using h1, by simpa using h2, ?_⟩
      intro j hj hlt
      cases j with
      | zero => simpa using hnot2
      | succ j =>
        have hj2 : j < bs.length := by simpa using hj
        simpa using h3 j hj2 (by omega)

/-- C15: the `data` list built by `handleModels` holds, in the `id` fields, the
model ids of all backends' `Models` lists in order of first occurrence
(backends scanned in registry order, each list in order): every listed id
exactly once, none twice, none that is not listed. Each entry has `object`
equal to `model`, and its `owned_by` is the name of the first backend in
registry order that lists the id. -/
theorem handleModels_catalogue (cfg : Config) :
    (handleModels cfg).map ModelEntry.id =
      firstOccurrences (cfg.Backends.flatMap Backend.Models) ∧
    ((handleModels cfg).map ModelEntry.id).Nodup ∧
    (∀ m, m ∈ (handleModels cfg).map ModelEntry.id ↔ ∃ b ∈ cfg.Backends, m ∈ b.Models) ∧
    ∀ e ∈ handleModels cfg, e.object = "model" ∧
      ∃ i, ∃ hi : i < cfg.Backends.length,
        e.owned_by = cfg.Backends[i].Name ∧ e.id ∈ cfg.Backends[i].Models ∧
        ∀ j, ∀ hj : j < cfg.Backends.length, j < i → e.id ∉ cfg.Backends[j].Models := by
  have hids : (handleModels cfg).map ModelEntry.id =
      firstOccurrences (cfg.Backends.flatMap Backend.Models) := by
    rw [handleModels_eq, List.map_map, ← listedPairs_map_snd, ← firstPairs_map_snd]
    rfl
  refine ⟨hids, ?_, ?_, ?_⟩
  · rw [hids]
    exact firstOccurrences_nodup _
  · intro m
    rw [hids, mem_firstOccurrences, List.mem_flatMap]
  · intro e he
    rw [handleModels_eq] at he
    obtain ⟨q, hq, hqe⟩ := List.mem_map.1 he
    obtain ⟨i, hi, h1, h2, h3⟩ := firstPairs_owner cfg.Backends q hq
    subst hqe
    exact ⟨rfl, i, hi, h1, h2, h3⟩

/-- Witness for C15: `cfgShared`, whose two backends both list `gpt-4`. -/
theorem handleModels_catalogue_witness :
    handleModels cfgShared = [⟨"gpt-4", "model", "a"⟩, ⟨"gpt-3", "model", "b"⟩] ∧
    ((handleModels cfgShared).map ModelEntry.id).Nodup :=
  ⟨by decide, (handleModels_catalogue cfgShared).2.1⟩

/-! ## The retry search in round-robin mode -/

theorem retrySearch_rr_some (cfg : Config) (rnd : Nat → Nat) (tried : List String)
    (j : Nat) (c : Int) (p : Nat) (b : Nat) (s1 : Sel)
    (hmode : cfg.Mode = "round-robin") (hne : cfg.Backends ≠ [])
    (hc : 0 ≤ c) (hfit : c + j ≤ maxInt)
    (hres : retrySearch cfg rnd tried j ⟨c, p⟩ = some (some b, s1)) :
    ∃ k, k < j ∧ s1 = ⟨c + (k + 1 : Nat), p⟩ ∧ b = (c.toNat + k) % cfg.Backends.length ∧
      (∃ hb : b < cfg.Backends.length, cfg.Backends[b].Name ∉ tried) ∧
      ∀ k2, k2 < k → ∀ h : (c.toNat + k2) % cfg.Backends.length < cfg.Backends.length,
        cfg.Backends[(c.toNat + k2) % cfg.Backends.length].Name ∈ tried := by
  induction j generalizing c with
  | zero => simp [retrySearch] at hres
  | succ j ih =>
    have hpos : 0 < cfg.Backends.length := List.length_pos.2 hne
    have hstep := nextBackend_rr_step cfg rnd c p hmode hne hc (by push_cast at hfit; omega)
    have hb : c.toNat % cfg.Backends.length < cfg.Backends.length := Nat.mod_lt _ hpos
    have hget : cfg.Backends[c.toNat % cfg.Backends.length]? =
        some cfg.Backends[c.toNat % cfg.Backends.length] := List.getElem?_eq_getElem hb
    by_cases htried : cfg.Backends[c.toNat % cfg.Backends.length].Name ∈ tried
    · have hres2 : retrySearch cfg rnd tried j ⟨c + 1, p⟩ = some (some b, s1) := by
        simpa [retrySearch, hstep, hget, htried] using hres
      obtain ⟨k, hk, hs1, hbk, hfresh, hbefore⟩ :=
        ih (c + 1) (by omega) (by push_cast at hfit; omega) hres2
      have hnat : (c + 1).toNat + k = c.toNat + (k + 1) := by omega
      refine ⟨k + 1, by omega, ?_, ?_, hfresh, ?_⟩
      · rw [hs1]
        congr 1
        push_cast
        omega
      · rw [hbk, hnat]
      · intro k2 hk2 h
        cases k2 with
        | zero => simpa using htried
        | succ k2 =>
          have hnat2 : (c + 1).toNat + k2 = c.toNat + (k2 + 1) := by omega
          have := hbefore k2 (by omega) (by rw [hnat2]; exact h)
          simpa only [hnat2] using this
    · have hres2 : some (some (c.toNat % cfg.Backends.length), (⟨c + 1, p⟩ : Sel)) =
          some (some b, s1) := by
        simpa [retrySearch, hstep, hget, htried] using hres
      simp only [Option.some.injEq, Prod.mk.injEq] at hres2
      obtain ⟨hb2, hs1⟩ := hres2
      refine ⟨0, by omega, ?_, ?_, ?_, ?_⟩
      · rw [← hs1]
        congr 1
      · rw [← hb2]
        simp
      · subst hb2
        exact ⟨hb, htried⟩
      · intro k2 hk2
        omega

/-- C16: in round-robin mode, at a retry at which at least one backend name is
not in the tried-set, with no other request advancing the counter in between
and the counter non-negative and representable over `N` increments, the retry
search of `handleChat` makes `k + 1 <= N` calls of `nextBackend` and selects
the backend of the last of them, whose name is not in the tried-set; the `k`
backends returned before it are all in the tried-set. -/
theorem reselect_roundRobin (cfg : Config) (rnd : Nat → Nat) (st : LoopState)
    (hmode : cfg.Mode = "round-robin")
    (hc : 0 ≤ st.sel.roundRobinIdx)
    (hfit : st.sel.roundRobinIdx + cfg.Backends.length ≤ maxInt)
    (huntried : ∃ idx, ∃ h : idx < cfg.Backends.length, cfg.Backends[idx].Name ∉ st.tried) :
    ∃ k b s1 st1, k + 1 ≤ cfg.Backends.length ∧
      retrySearch cfg rnd st.tried cfg.Backends.length st.sel = some (some b, s1) ∧
      s1.roundRobinIdx = st.sel.roundRobinIdx + (k + 1 : Nat) ∧
      b = (st.sel.roundRobinIdx.toNat + k) % cfg.Backends.length ∧
      (∃ hb : b < cfg.Backends.length, cfg.Backends[b].Name ∉ st.tried) ∧
      (∀ k2, k2 < k →
        ∀ h : (st.sel.roundRobinIdx.toNat + k2) % cfg.Backends.length < cfg.Backends.length,
          cfg.Backends[(st.sel.roundRobinIdx.toNat + k2) % cfg.Backends.length].Name
            ∈ st.tried) ∧
      reselect cfg rnd st = some st1 ∧ st1.backend = b ∧ st1.sel = s1 ∧
      st1.tried = st.tried := by
  obtain ⟨idx, hidx, hnot⟩ := huntried
  have hne : cfg.Backends ≠ [] := List.length_pos.1 (by omega)
  have hsel : SelFits cfg st.sel (cfg.Backends.length + 0) := by
    simp only [SelFits, if_pos hmode, Nat.add_zero]
    exact ⟨hc, hfit⟩
  obtain ⟨r, s1, hrs, _, _⟩ :=
    retrySearch_ok cfg rnd st.tried cfg.Backends.length 0 st.sel hne hsel
  have hrs2 : retrySearch cfg rnd st.tried cfg.Backends.length
      ⟨st.sel.roundRobinIdx, st.sel.drawn⟩ = some (r, s1) := hrs
  cases r with
  | none =>
    exfalso
    have hall := retrySearch_rr_none cfg rnd st.tried cfg.Backends.length
      st.sel.roundRobinIdx st.sel.drawn s1 hmode hne hc hfit hrs2
    obtain ⟨j, hj, hjeq⟩ := rr_cycle_surj cfg.Backends.length st.sel.roundRobinIdx.toNat idx hidx
    have := hall j hj (by rw [hjeq]; exact hidx)
    simp only [hjeq] at this
    exact hnot this
  | some b =>
    obtain ⟨k, hk, hs1, hbk, ⟨hb, hfresh⟩, hbefore⟩ :=
      retrySearch_rr_some cfg rnd st.tried cfg.Backends.length st.sel.roundRobinIdx
        st.sel.drawn b s1 hmode hne hc hfit hrs2
    have hget : cfg.Backends[b]? = some cfg.Backends[b] := List.getElem?_eq_getElem hb
    refine ⟨k, b, s1, { st with
        backend := b, useModel := useModelOf cfg.Backends[b],
        reqMap := st.reqMap.set "model" (.str (useModelOf cfg.Backends[b])),
        reqData := st.reqMap.set "model" (.str (useModelOf cfg.Backends[b])),
        sel := s1 }, by omega, hrs, ?_, hbk, ⟨hb, hfresh⟩, hbefore, ?_, rfl, rfl, rfl⟩
    · rw [hs1]
    · simp only [reselect, hrs, hget]

/-- Witness for C16: `cfgRR` with the counter at 1 and backend `b` already tried:
two calls, and backend `c` is selected. -/
theorem reselect_roundRobin_witness :
    ∃ k b s1 st1, k + 1 ≤ cfgRR.Backends.length ∧
      retrySearch cfgRR (fun _ => 0) ["b"] cfgRR.Backends.length ⟨1, 0⟩ = some (some b, s1) ∧
      s1.roundRobinIdx = (1 : Int) + (k + 1 : Nat) ∧
      b = ((1 : Int).toNat + k) % cfgRR.Backends.length ∧
      (∃ hb : b < cfgRR.Backends.length, cfgRR.Backends[b].Name ∉ ["b"]) ∧
      (∀ k2, k2 < k →
        ∀ h : ((1 : Int).toNat + k2) % cfgRR.Backends.length < cfgRR.Backends.length,
          cfgRR.Backends[((1 : Int).toNat + k2) % cfgRR.Backends.length].Name ∈ ["b"]) ∧
      reselect cfgRR (fun _ => 0) stTriedB = some st1 ∧ st1.backend = b ∧ st1.sel = s1 ∧
      st1.tried = ["b"] :=
  reselect_roundRobin cfgRR (fun _ => 0) stTriedB (by decide) (by decide) (by decide)
    ⟨0, by decide, by decide⟩

/-! ## What a retry dispatches -/

theorem retrySearch_some_fresh (cfg : Config) (rnd : Nat → Nat) (tried : List String)
    (j : Nat) (s s1 : Sel) (b : Nat)
    (h : retrySearch cfg rnd tried j s = some (some b, s1)) :
    ∃ bk, cfg.Backends[b]? = some bk ∧ bk.Name ∉ tried := by
  induction j generalizing s with
  | zero => simp [retrySearch] at h
  | succ j ih =>
    unfold retrySearch at h
    cases hnb : nextBackend cfg rnd s with
    | none => simp [hnb] at h
    | some res =>
      obtain ⟨ob, s2⟩ := res
      cases ob with
      | none =>
        simp only [hnb] at h
        exact ih s2 h
      | some b2 =>
        simp only [hnb] at h
        cases hget : cfg.Backends[b2]? with
        | none => simp [hget] at h
        | some bk =>
          simp only [hget] at h
          by_cases ht : bk.Name ∈ tried
          · have hc : tried.contains bk.Name = true := by simpa using ht
            simp only [hc, if_true] at h
            exact ih s2 h
          · have hc : tried.contains bk.Name = false := by simpa using ht
            simp only [hc] at h
            simp only [Bool.false_eq_true, if_false, Option.some.injEq, Prod.mk.injEq] at h
            obtain ⟨hb, _⟩ := h
            subst hb
            exact ⟨bk, hget, ht⟩

theorem retryLoop_retryFollows (cfg : Config) (net : Net) (rnd : Nat → Nat)
    (isFlusher stream : Bool) (n i : Nat) (st : LoopState) (m0 : JMap) (prev : Attempt)
    (hi : 0 < i)
    (hmap : st.reqMap = m0.set "model" (.str st.useModel))
    (h1 : prev.backend = st.backend) (h2 : prev.useModel = st.useModel)
    (h3 : prev.reqData = st.reqData) :
    retryFollows cfg m0 st.tried prev (retryLoop cfg net rnd isFlusher stream n i st).attempts := by
  induction n generalizing i st prev with
  | zero => simp [retryLoop, retryFollows]
  | succ n ih =>
    cases hsel : reselect cfg rnd st with
    | none => simp [retryLoop, hsel, hi, retryFollows]
    | some st1 =>
      have hsel2 : (if 0 < i then reselect cfg rnd st else some st) = some st1 := by
        rw [if_pos hi]; exact hsel
      obtain ⟨htried, _, hcase⟩ := reselect_cases cfg rnd st st1 hsel
      cases hget : cfg.Backends[st1.backend]? with
      | none => simp [retryLoop, hsel2, hget, retryFollows]
      | some bk =>
        obtain ⟨hb1, hbk⟩ := getElem?_some_lt _ _ _ hget
        have hname : backendName cfg st1.backend = bk.Name := by
          simp only [backendName, hget]
        have hmap1 : st1.reqMap = m0.set "model" (.str st1.useModel) := by
          rcases hcase with ⟨_, hu, hm, _, _⟩ | ⟨_, _, hm, _, _⟩
          · rw [hm, hu]; exact hmap
          · rw [hm, hmap, JMap.set_set]
        have hstep : (st1.backend = prev.backend ∧ st1.useModel = prev.useModel ∧
              st1.reqData = prev.reqData) ∨
            (backendName cfg st1.backend ∉ st.tried ∧
              ∃ hb : st1.backend < cfg.Backends.length,
                st1.useModel = useModelOf cfg.Backends[st1.backend] ∧
                st1.reqData = m0.set "model" (.str st1.useModel)) := by
          rcases hcase with ⟨hb, hu, _, hd, _⟩ | ⟨hb, hu, _, hd, s1, hsearch⟩
          · exact Or.inl ⟨by rw [hb, h1], by rw [hu, h2], by rw [hd, h3]⟩
          · refine Or.inr ⟨?_, hb, hu, ?_⟩
            · obtain ⟨bk2, hget2, hfresh⟩ :=
                retrySearch_some_fresh cfg rnd st.tried _ st.sel s1 st1.backend hsearch
              rw [hget] at hget2
              cases hget2
              rw [hname]
              exact hfresh
            · rw [hd, hmap, JMap.set_set]
        cases hdo : doRequest net i isFlusher bk st1.reqData stream with
        | mk ops err =>
          cases err with
          | none =>
            simp only [retryLoop, hsel2, hget, hdo, retryFollows, and_true]
            exact hstep
          | some e =>
            simp only [retryLoop, hsel2, hget, hdo, retryFollows]
            refine ⟨hstep, ?_⟩
            rw [hname, ← htried]
            exact ih (i + 1) { st1 with tried := bk.Name :: st1.tried, lastErr := some e }
              ⟨i, st1.backend, st1.useModel, st1.reqData, ops, some e⟩ (by omega) hmap1
              rfl rfl rfl

theorem handleSelected_retryFollows (cfg : Config) (net : Net) (rnd : Nat → Nat)
    (isFlusher stream : Bool) (b : Nat) (model : String) (m : JMap) (s : Sel) :
    ∀ a0 rest,
      (handleSelected cfg net rnd isFlusher stream b model (some m) s).attempts = a0 :: rest →
      retryFollows cfg m [backendName cfg a0.backend] a0 rest := by
  intro a0 rest hrun
  cases hR : cfg.Retry.toNat with
  | zero => simp [handleSelected, hR, retryLoop] at hrun
  | succ n =>
    cases hget : cfg.Backends[b]? with
    | none => simp [handleSelected, hR, retryLoop, hget] at hrun
    | some bk =>
      have hname : backendName cfg b = bk.Name := by simp only [backendName, hget]
      cases hdo : doRequest net 0 isFlusher bk (m.set "model" (.str model)) stream with
      | mk ops err =>
        cases err with
        | none =>
          simp only [handleSelected, hR, retryLoop, lt_self_iff_false, if_false, hget, hdo,
            List.cons.injEq] at hrun
          obtain ⟨_, hrest⟩ := hrun
          rw [← hrest]
          trivial
        | some e =>
          simp only [handleSelected, hR, retryLoop, lt_self_iff_false, if_false, hget, hdo,
            List.cons.injEq] at hrun
          obtain ⟨ha0, hrest⟩ := hrun
          rw [← hrest, ← ha0]
          simp only [hname]
          exact retryLoop_retryFollows cfg net rnd isFlusher stream n 1
            { backend := b, useModel := model, reqMap := m.set "model" (.str model),
              reqData := m.set "model" (.str model), tried := [bk.Name], lastErr := some e,
              sel := s }
            m ⟨0, b, model, m.set "model" (.str model), ops, some e⟩ (by omega) rfl rfl rfl rfl

theorem handleChat_attempts_eq (cfg : Config) (net : Net) (rnd : Nat → Nat) (isFlusher : Bool)
    (s : Sel) (r : Request) (h : (handleChat cfg net rnd isFlusher s r).attempts ≠ []) :
    ∃ cr m b model s1, r.req = .ok cr ∧ r.reqMap = some m ∧
      (handleChat cfg net rnd isFlusher s r).attempts =
        (handleSelected cfg net rnd isFlusher cr.Stream b model (some m) s1).attempts ∧
      (((cr.Model = "" ∨ cr.Model = "auto") ∧
          ∃ bk, cfg.Backends[b]? = some bk ∧ model = useModelOf bk) ∨
        (¬ (cr.Model = "" ∨ cr.Model = "auto") ∧
          findBackend cfg rnd s cr.Model = ((some b, model), s1))) := by
  obtain ⟨a, ha⟩ := List.exists_mem_of_ne_nil _ h
  obtain ⟨cr, m, hreq, hm, _⟩ := handleChat_attempts cfg net rnd isFlusher s r a ha
  unfold handleChat at h ⊢
  split at h
  · simp [earlyReply] at h
  split at h
  · simp [earlyReply] at h
  split at h
  · simp [earlyReply] at h
  split at h
  · simp [earlyReply] at h
  rename_i h1 h2 h3 h4
  simp only [h1, h2, h3, h4, if_false]
  simp only [hreq, hm] at h ⊢
  by_cases hauto : cr.Model = "" ∨ cr.Model = "auto"
  · simp only [hauto, if_true] at h ⊢
    cases hnb : nextBackend cfg rnd s with
    | none => simp [hnb] at h
    | some res =>
      obtain ⟨ob, s1⟩ := res
      cases ob with
      | none => simp [hnb, earlyReply] at h
      | some b =>
        simp only [hnb] at h ⊢
        cases hget : cfg.Backends[b]? with
        | none => simp [hget] at h
        | some bk =>
          exact ⟨cr, m, b, useModelOf bk, s1, rfl, rfl, rfl, Or.inl ⟨hauto, bk, hget, rfl⟩⟩
  · simp only [hauto, if_false] at h ⊢
    cases hfb : findBackend cfg rnd s cr.Model with
    | mk res s1 =>
      obtain ⟨ob, mo⟩ := res
      cases ob with
      | none => simp [hfb, earlyReply] at h
      | some b => exact ⟨cr, m, b, mo, s1, rfl, rfl, rfl, Or.inr ⟨hauto, hfb⟩⟩

theorem retryFollows_pairs (cfg : Config) (m0 : JMap) (tried : List String) (prev : Attempt)
    (rest : List Attempt) (h : retryFollows cfg m0 tried prev rest) :
    ∀ k, ∀ hk : k + 1 < (prev :: rest).length,
      (((prev :: rest).get ⟨k + 1, hk⟩).backend =
          ((prev :: rest).get ⟨k, Nat.lt_of_succ_lt hk⟩).backend ∧
        ((prev :: rest).get ⟨k + 1, hk⟩).useModel =
          ((prev :: rest).get ⟨k, Nat.lt_of_succ_lt hk⟩).useModel ∧
        ((prev :: rest).get ⟨k + 1, hk⟩).reqData =
          ((prev :: rest).get ⟨k, Nat.lt_of_succ_lt hk⟩).reqData) ∨
      ((backendName cfg ((prev :: rest).get ⟨k + 1, hk⟩).backend ∉ tried ∧
          ∀ a ∈ rest.take k,
            backendName cfg ((prev :: rest).get ⟨k + 1, hk⟩).backend ≠
              backendName cfg a.backend) ∧
        ∃ hb : ((prev :: rest).get ⟨k + 1, hk⟩).backend < cfg.Backends.length,
          ((prev :: rest).get ⟨k + 1, hk⟩).useModel =
            useModelOf cfg.Backends[((prev :: rest).get ⟨k + 1, hk⟩).backend] ∧
          ((prev :: rest).get ⟨k + 1, hk⟩).reqData =
            m0.set "model" (.str ((prev :: rest).get ⟨k + 1, hk⟩).useModel)) := by
  induction rest generalizing tried prev with
  | nil =>
    intro k hk
    simp at hk
  | cons a rest ih =>
    obtain ⟨hstep, hrest⟩ := h
    intro k hk
    cases k with
    | zero =>
      rcases hstep with hrep | ⟨hfresh, hres⟩
      · exact Or.inl hrep
      · exact Or.inr ⟨⟨hfresh, by simp⟩, hres⟩
    | succ k =>
      have hk2 : k + 1 < (a :: rest).length := by
        simp only [List.length_cons] at hk ⊢
        omega
      rcases ih (backendName cfg a.backend :: tried) a hrest k hk2 with hrep | ⟨⟨hf1, hf2⟩, hres⟩
      · exact Or.inl hrep
      · refine Or.inr ⟨⟨?_, ?_⟩, hres⟩
        · exact fun hmem => hf1 (List.mem_cons_of_mem _ hmem)
        · intro x hx
          simp only [List.take_succ_cons, List.mem_cons] at hx
          rcases hx with hx | hx
          · subst hx
            exact fun heq => hf1 (heq ▸ List.mem_cons_self _ _)
          · exact hf2 x hx

theorem handleChat_follow (cfg : Config) (net : Net) (rnd : Nat → Nat) (isFlusher : Bool)
    (s : Sel) (r : Request) :
    ∀ k, ∀ hk : k + 1 < (handleChat cfg net rnd isFlusher s r).attempts.length,
      (((handleChat cfg net rnd isFlusher s r).attempts.get ⟨k + 1, hk⟩).backend =
          ((handleChat cfg net rnd isFlusher s r).attempts.get
            ⟨k, Nat.lt_of_succ_lt hk⟩).backend ∧
        ((handleChat cfg net rnd isFlusher s r).attempts.get ⟨k + 1, hk⟩).useModel =
          ((handleChat cfg net rnd isFlusher s r).attempts.get
            ⟨k, Nat.lt_of_succ_lt hk⟩).useModel ∧
        ((handleChat cfg net rnd isFlusher s r).attempts.get ⟨k + 1, hk⟩).reqData =
          ((handleChat cfg net rnd isFlusher s r).attempts.get
            ⟨k, Nat.lt_of_succ_lt hk⟩).reqData) ∨
      (backendName cfg ((handleChat cfg net rnd isFlusher s r).attempts.get ⟨k + 1, hk⟩).backend ∉
          (dispatchedNames cfg (handleChat cfg net rnd isFlusher s r)).take (k + 1) ∧
        ∃ hb : ((handleChat cfg net rnd isFlusher s r).attempts.get ⟨k + 1, hk⟩).backend <
            cfg.Backends.length,
          ((handleChat cfg net rnd isFlusher s r).attempts.get ⟨k + 1, hk⟩).useModel =
            useModelOf cfg.Backends[((handleChat cfg net rnd isFlusher s r).attempts.get
              ⟨k + 1, hk⟩).backend]) := by
  intro k hk
  have hnil : (handleChat cfg net rnd isFlusher s r).attempts ≠ [] := by
    intro h
    rw [h] at hk
    simp at hk
  obtain ⟨cr, m, b, model, s1, _, _, heq, _⟩ :=
    handleChat_attempts_eq cfg net rnd isFlusher s r hnil
  have hfollow := handleSelected_retryFollows cfg net rnd isFlusher cr.Stream b model m s1
  rw [← heq] at hfollow
  unfold dispatchedNames
  generalize (handleChat cfg net rnd isFlusher s r).attempts = A at hk hfollow ⊢
  cases A with
  | nil => simp at hk
  | cons a0 rest =>
    rcases retryFollows_pairs cfg m [backendName cfg a0.backend] a0 rest
      (hfollow a0 rest rfl) k hk with hrep | ⟨⟨hf1, hf2⟩, hb, hu, _⟩
    · exact Or.inl hrep
    · refine Or.inr ⟨?_, hb, hu⟩
      simp only [List.map_cons, List.take_succ_cons, List.mem_cons, ← List.map_take,
        List.mem_map, not_or, not_exists, not_and]
      refine ⟨?_, ?_⟩
      · intro heq2
        exact hf1 (by rw [heq2]; exact List.mem_singleton_self _)
      · intro x hx heq2
        exact hf2 x hx heq2.symm

theorem handleSelected_head (cfg : Config) (net : Net) (rnd : Nat → Nat)
    (isFlusher stream : Bool) (b : Nat) (model : String) (m : JMap) (s : Sel)
    (a0 : Attempt) (rest : List Attempt)
    (h : (handleSelected cfg net rnd isFlusher stream b model (some m) s).attempts =
      a0 :: rest) :
    a0.index = 0 ∧ a0.backend = b ∧ a0.useModel = model := by
  cases hR : cfg.Retry.toNat with
  | zero => simp [handleSelected, hR, retryLoop] at h
  | succ n =>
    cases hget : cfg.Backends[b]? with
    | none => simp [handleSelected, hR, retryLoop, hget] at h
    | some bk =>
      cases hdo : doRequest net 0 isFlusher bk (m.set "model" (.str model)) stream with
      | mk ops err =>
        cases err with
        | none =>
          simp only [handleSelected, hR, retryLoop, lt_self_iff_false, if_false, hget, hdo,
            List.cons.injEq] at h
          obtain ⟨ha0, _⟩ := h
          rw [← ha0]
          exact ⟨rfl, rfl, rfl⟩
        | some e =>
          simp only [handleSelected, hR, retryLoop, lt_self_iff_false, if_false, hget, hdo,
            List.cons.injEq] at h
          obtain ⟨ha0, _⟩ := h
          rw [← ha0]
          exact ⟨rfl, rfl, rfl⟩

theorem findBackend_scan (cfg : Config) (rnd : Nat → Nat) (s s1 : Sel) (model mo : String)
    (b : Nat) (h : findBackend cfg rnd s model = ((some b, mo), s1)) :
    (∀ i, scanBackends cfg.Backends 0 model = some i → b = i ∧ mo = model) ∧
    (scanBackends cfg.Backends 0 model = none →
      ∃ hb : b < cfg.Backends.length, mo = useModelOf cfg.Backends[b]) := by
  unfold findBackend at h
  by_cases hlen : cfg.Backends.length = 0
  · simp [hlen] at h
  · simp only [hlen, dite_false] at h
    cases hscan : scanBackends cfg.Backends 0 model with
    | some i =>
      simp only [hscan, Prod.mk.injEq, Option.some.injEq] at h
      obtain ⟨⟨h1, h2⟩, _⟩ := h
      refine ⟨?_, by simp⟩
      intro i2 hi2
      cases hi2
      exact ⟨h1.symm, h2.symm⟩
    | none =>
      simp only [hscan, Prod.mk.injEq, Option.some.injEq] at h
      obtain ⟨⟨h1, h2⟩, _⟩ := h
      subst h1
      refine ⟨by simp, fun _ => ⟨Nat.mod_lt _ (Nat.pos_of_ne_zero hlen), ?_⟩⟩
      rw [← h2]
      rfl

theorem handleChat_first (cfg : Config) (net : Net) (rnd : Nat → Nat) (isFlusher : Bool)
    (s : Sel) (r : Request) (a0 : Attempt) (rest : List Attempt)
    (h : (handleChat cfg net rnd isFlusher s r).attempts = a0 :: rest) :
    ∃ cr, r.req = .ok cr ∧ ∃ hb : a0.backend < cfg.Backends.length,
      ((cr.Model = "" ∨ cr.Model = "auto") →
        a0.useModel = useModelOf cfg.Backends[a0.backend]) ∧
      (¬ (cr.Model = "" ∨ cr.Model = "auto") →
        ∀ i, scanBackends cfg.Backends 0 cr.Model = some i →
          a0.backend = i ∧ a0.useModel = cr.Model) ∧
      (¬ (cr.Model = "" ∨ cr.Model = "auto") →
        scanBackends cfg.Backends 0 cr.Model = none →
          a0.useModel = useModelOf cfg.Backends[a0.backend]) := by
  have hnil : (handleChat cfg net rnd isFlusher s r).attempts ≠ [] := by
    rw [h]; simp
  obtain ⟨cr, m, b, model, s1, hreq, _, heq, hsel⟩ :=
    handleChat_attempts_eq cfg net rnd isFlusher s r hnil
  rw [heq] at h
  obtain ⟨_, hb0, hm0⟩ := handleSelected_head cfg net rnd isFlusher cr.Stream b model m s1
    a0 rest h
  have hmem : a0 ∈ (handleChat cfg net rnd isFlusher s r).attempts := by
    rw [heq, h]; exact List.mem_cons_self _ _
  obtain ⟨_, _, _, _, hb, _, _, _⟩ := handleChat_attempts cfg net rnd isFlusher s r a0 hmem
  refine ⟨cr, hreq, hb, ?_, ?_, ?_⟩
  · intro hauto
    rcases hsel with ⟨_, bk, hget, hmo⟩ | ⟨hn, _⟩
    · obtain ⟨_, hbk⟩ := getElem?_some_lt _ _ _ hget
      rw [hm0, hmo]
      simp only [hb0, hbk]
    · exact absurd hauto hn
  · intro hn i hscan
    rcases hsel with ⟨hauto, _⟩ | ⟨_, hfb⟩
    · exact absurd hauto hn
    · obtain ⟨h1, h2⟩ := (findBackend_scan cfg rnd s s1 cr.Model model b hfb).1 i hscan
      exact ⟨by rw [hb0, h1], by rw [hm0, h2]⟩
  · intro hn hscan
    rcases hsel with ⟨hauto, _⟩ | ⟨_, hfb⟩
    · exact absurd hauto hn
    · obtain ⟨_, h2⟩ := (findBackend_scan cfg rnd s s1 cr.Model model b hfb).2 hscan
      rw [hm0, h2]
      simp only [hb0]

/-! ## Resolved model of every attempt, and the repeated attempt -/

/-- C17: for every request and every attempt of `handleChat`, first attempt or
retry, the body dispatched is the client's map with the `model` field set to
the attempt's resolved model. The first attempt carries the exact requested
model when the requested model is neither empty nor "auto" and some backend
lists it (it then goes to the first such backend), and otherwise the
`DefaultModel` of the backend dispatched to, or its first listed model when
`DefaultModel` is empty. A retry that switches backend carries the new
backend's `DefaultModel`-or-first-model in the re-serialised body; a retry that
stays on the backend of the attempt before it carries that attempt's model. -/
theorem handleChat_model_resolved (cfg : Config) (net : Net) (rnd : Nat → Nat)
    (isFlusher : Bool) (s : Sel) (r : Request) :
    (∀ a ∈ (handleChat cfg net rnd isFlusher s r).attempts,
      ∃ cr m, r.req = .ok cr ∧ r.reqMap = some m ∧
        a.reqData = m.set "model" (.str a.useModel) ∧
        modelField a.reqData = some a.useModel ∧
        ∃ hb : a.backend < cfg.Backends.length,
          ((cr.Model ≠ "" ∧ cr.Model ≠ "auto" ∧
              scanBackends cfg.Backends 0 cr.Model = some a.backend ∧
              a.useModel = cr.Model) ∨
            a.useModel = useModelOf cfg.Backends[a.backend])) ∧
    (∀ a0 rest, (handleChat cfg net rnd isFlusher s r).attempts = a0 :: rest →
      ∃ cr, r.req = .ok cr ∧ ∃ hb : a0.backend < cfg.Backends.length,
        ((cr.Model = "" ∨ cr.Model = "auto") →
          a0.useModel = useModelOf cfg.Backends[a0.backend]) ∧
        (¬ (cr.Model = "" ∨ cr.Model = "auto") →
          ∀ i, scanBackends cfg.Backends 0 cr.Model = some i →
            a0.backend = i ∧ a0.useModel = cr.Model) ∧
        (¬ (cr.Model = "" ∨ cr.Model = "auto") →
          scanBackends cfg.Backends 0 cr.Model = none →
            a0.useModel = useModelOf cfg.Backends[a0.backend])) ∧
    (∀ k, ∀ hk : k + 1 < (handleChat cfg net rnd isFlusher s r).attempts.length,
      (((handleChat cfg net rnd isFlusher s r).attempts.get ⟨k + 1, hk⟩).backend =
          ((handleChat cfg net rnd isFlusher s r).attempts.get
            ⟨k, Nat.lt_of_succ_lt hk⟩).backend →
        ((handleChat cfg net rnd isFlusher s r).attempts.get ⟨k + 1, hk⟩).useModel =
          ((handleChat cfg net rnd isFlusher s r).attempts.get
            ⟨k, Nat.lt_of_succ_lt hk⟩).useModel) ∧
      (((handleChat cfg net rnd isFlusher s r).attempts.get ⟨k + 1, hk⟩).backend ≠
          ((handleChat cfg net rnd isFlusher s r).attempts.get
            ⟨k, Nat.lt_of_succ_lt hk⟩).backend →
        ∃ hb : ((handleChat cfg net rnd isFlusher s r).attempts.get ⟨k + 1, hk⟩).backend <
            cfg.Backends.length,
          ((handleChat cfg net rnd isFlusher s r).attempts.get ⟨k + 1, hk⟩).useModel =
            useModelOf cfg.Backends[((handleChat cfg net rnd isFlusher s r).attempts.get
              ⟨k + 1, hk⟩).backend])) := by
  refine ⟨?_, ?_, ?_⟩
  · intro a ha
    obtain ⟨cr, m, hreq, hm, hb, _, hdata, hmodel⟩ :=
      handleChat_attempts cfg net rnd isFlusher s r a ha
    exact ⟨cr, m, hreq, hm, hdata, by rw [hdata]; exact modelField_set m a.useModel, hb, hmodel⟩
  · intro a0 rest h0
    exact handleChat_first cfg net rnd isFlusher s r a0 rest h0
  · intro k hk
    constructor
    · intro hsame
      rcases handleChat_follow cfg net rnd isFlusher s r k hk with hrep | ⟨hfresh, hb, hu⟩
      · exact hrep.2.1
      · exfalso
        apply hfresh
        rw [hsame]
        unfold dispatchedNames
        rw [← List.map_take]
        refine List.mem_map.mpr ⟨_, ?_, rfl⟩
        rw [List.mem_iff_getElem]
        refine ⟨k, ?_, ?_⟩
        · rw [List.length_take]
          exact Nat.lt_min.mpr ⟨Nat.lt_succ_self k, Nat.lt_of_succ_lt hk⟩
        · rw [List.getElem_take]
          rfl
    · intro hswitch
      rcases handleChat_follow cfg net rnd isFlusher s r k hk with hrep | ⟨_, hres⟩
      · exact absurd hrep.1 hswitch
      · exact hres

/-- Witness for C17: in `runDown` the second attempt switches from backend `a`
to backend `b` and carries the default model of `b`. -/
theorem handleChat_model_resolved_witness :
    ∃ hb : (runDown.attempts.get ⟨1, by decide⟩).backend < cfgRR.Backends.length,
      (runDown.attempts.get ⟨1, by decide⟩).useModel =
        useModelOf cfgRR.Backends[(runDown.attempts.get ⟨1, by decide⟩).backend] :=
  ((handleChat_model_resolved cfgRR netDown (fun _ => 0) false ⟨0, 0⟩ reqAuto).2.2 0
    (by decide)).2 (by decide)

/-- C18: at a retry at which all `N` calls of `nextBackend` return backends
whose names are in the tried-set, the retry search ends without a selection,
the loop variables keep their values, and `handleChat` dispatches again to the
backend of the previous attempt with the same resolved model and the same
outbound body; the attempt is neither skipped nor failed. In a run of
`handleChat`, an attempt that goes to a backend whose name was already
attempted in this request has the backend, the resolved model and the body of
the attempt before it; this is so in particular for every attempt made after
every backend of the registry has been tried. -/
theorem handleChat_repeats_previous (cfg : Config) (net : Net) (rnd : Nat → Nat)
    (isFlusher : Bool) (s : Sel) (r : Request) :
    (∀ (stream : Bool) (n i : Nat) (st : LoopState) (s1 : Sel) (bk : Backend),
      0 < i →
      retrySearch cfg rnd st.tried cfg.Backends.length st.sel = some (none, s1) →
      cfg.Backends[st.backend]? = some bk →
      reselect cfg rnd st = some { st with sel := s1 } ∧
      (retryLoop cfg net rnd isFlusher stream (n + 1) i st).attempts.head? =
        some ⟨i, st.backend, st.useModel, st.reqData,
          (doRequest net i isFlusher bk st.reqData stream).1,
          (doRequest net i isFlusher bk st.reqData stream).2⟩) ∧
    (∀ k, ∀ hk : k + 1 < (handleChat cfg net rnd isFlusher s r).attempts.length,
      (backendName cfg ((handleChat cfg net rnd isFlusher s r).attempts.get ⟨k + 1, hk⟩).backend ∈
          (dispatchedNames cfg (handleChat cfg net rnd isFlusher s r)).take (k + 1) ∨
        ∀ b ∈ cfg.Backends,
          b.Name ∈ (dispatchedNames cfg (handleChat cfg net rnd isFlusher s r)).take (k + 1)) →
      ((handleChat cfg net rnd isFlusher s r).attempts.get ⟨k + 1, hk⟩).backend =
          ((handleChat cfg net rnd isFlusher s r).attempts.get
            ⟨k, Nat.lt_of_succ_lt hk⟩).backend ∧
      ((handleChat cfg net rnd isFlusher s r).attempts.get ⟨k + 1, hk⟩).useModel =
          ((handleChat cfg net rnd isFlusher s r).attempts.get
            ⟨k, Nat.lt_of_succ_lt hk⟩).useModel ∧
      ((handleChat cfg net rnd isFlusher s r).attempts.get ⟨k + 1, hk⟩).reqData =
          ((handleChat cfg net rnd isFlusher s r).attempts.get
            ⟨k, Nat.lt_of_succ_lt hk⟩).reqData) := by
  constructor
  · intro stream n i st s1 bk hi hsearch hget
    have hsel : reselect cfg rnd st = some { st with sel := s1 } := by
      simp only [reselect, hsearch]
    have hsel2 : (if 0 < i then reselect cfg rnd st else some st) =
        some { st with sel := s1 } := by
      rw [if_pos hi]; exact hsel
    refine ⟨hsel, ?_⟩
    cases hdo : doRequest net i isFlusher bk st.reqData stream with
    | mk ops err =>
      cases err with
      | none => simp only [retryLoop, hsel2, hget, hdo, List.head?_cons]
      | some e => simp only [retryLoop, hsel2, hget, hdo, List.head?_cons]
  · intro k hk htried
    rcases handleChat_follow cfg net rnd isFlusher s r k hk with hrep | ⟨hfresh, hb, _⟩
    · exact hrep
    · exfalso
      rcases htried with hmem | hall
      · exact hfresh hmem
      · apply hfresh
        have hname : backendName cfg
            ((handleChat cfg net rnd isFlusher s r).attempts.get ⟨k + 1, hk⟩).backend =
            cfg.Backends[((handleChat cfg net rnd isFlusher s r).attempts.get
              ⟨k + 1, hk⟩).backend].Name := by
          simp only [backendName, List.getElem?_eq_getElem hb]
        rw [hname]
        exact hall _ (List.getElem_mem _)

/-- Witness for C18: in `runRepeat` the second attempt goes to
backend `a` again, with the model and the body of the first attempt. -/
theorem handleChat_repeats_previous_witness :
    (runRepeat.attempts.get ⟨1, by decide⟩).backend =
        (runRepeat.attempts.get ⟨0, by decide⟩).backend ∧
    (runRepeat.attempts.get ⟨1, by decide⟩).useModel =
        (runRepeat.attempts.get ⟨0, by decide⟩).useModel ∧
    (runRepeat.attempts.get ⟨1, by decide⟩).reqData =
        (runRepeat.attempts.get ⟨0, by decide⟩).reqData :=
  (handleChat_repeats_previous cfgShared netDown (fun _ => 0) false ⟨0, 0⟩ reqAuto).2 0
    (by decide) (Or.inl (by decide))

/-! ## Request bodies that `encoding/json` decodes, and the retry count -/

/-- C13 (the code at the failing input): for the client body
`{"model":"auto","seed":9007199254740993}` the body that `handleChat`
dispatches has `model` set to the resolved model and a `seed` whose `float64`
is `2^52 * 2^1 = 9007199254740992`, not the client's value; the client body with
`seed` 9007199254740992 gives the same dispatched fields, so the two client
values cannot both be passed on unchanged. -/
theorem handleChat_alters_large_number :
    (handleChat cfgRR netOK (fun _ => 0) true ⟨0, 0⟩ (requestOf "POST" bodySeedOdd)).attempts.map
        (fun a => (modelField a.reqData, numField a.reqData "seed")) =
      [(some "ma", some 4845873199050653696)] ∧
    (handleChat cfgRR netOK (fun _ => 0) true ⟨0, 0⟩ (requestOf "POST" bodySeedEven)).attempts.map
        (fun a => (modelField a.reqData, numField a.reqData "seed")) =
      [(some "ma", some 4845873199050653696)] ∧
    bitsValue 4845873199050653696 = (2 ^ 52, 1) ∧
    (2 ^ 52 * 2 ^ 1 : Nat) ≠ 9007199254740993 := by
  decide

/-- C19 (the code at the failing input): the body `null` of a POST request
passes `json.Unmarshal(body, &req)` without error and leaves `reqMap` nil. On
every non-empty registry (the integers of `nextBackend` representable)
`handleChat` then selects a backend and panics on the assignment of line 230:
it writes no 400, makes no dispatch and builds no outbound body. -/
theorem handleChat_null_body_panics (cfg : Config) (net : Net) (rnd : Nat → Nat)
    (isFlusher : Bool) (s : Sel) (hne : cfg.Backends ≠ []) (hfit : SelFits cfg s 1) :
    (requestOf "POST" (.json .null)).req = .ok { Model := "", Stream := false } ∧
    (requestOf "POST" (.json .null)).reqMap = none ∧
    (handleChat cfg net rnd isFlusher s (requestOf "POST" (.json .null))).panicked = true ∧
    (handleChat cfg net rnd isFlusher s (requestOf "POST" (.json .null))).head = corsHeaders ∧
    (handleChat cfg net rnd isFlusher s (requestOf "POST" (.json .null))).attempts = [] ∧
    (handleChat cfg net rnd isFlusher s (requestOf "POST" (.json .null))).final = [] := by
  obtain ⟨b, s1, hnb, hb, _, _⟩ := nextBackend_ok cfg rnd s 0 hne hfit
  have hget : cfg.Backends[b]? = some cfg.Backends[b] := List.getElem?_eq_getElem hb
  have hlen : ¬ cfg.Backends.length = 0 := fun h => hne (List.length_eq_zero.1 h)
  have hopt : ¬ ("POST" = "OPTIONS") := by decide
  refine ⟨rfl, rfl, ?_, ?_, ?_, ?_⟩ <;>
    simp [handleChat, requestOf, decodeChat, decodeMap, hopt, hlen, hnb, hget, handleSelected]

/-- Witness for C19: the body `null` on `cfgRR`. -/
theorem handleChat_null_body_panics_witness :
    (handleChat cfgRR netOK (fun _ => 0) true ⟨0, 0⟩ (requestOf "POST" (.json .null))).panicked
      = true :=
  (handleChat_null_body_panics cfgRR netOK (fun _ => 0) true ⟨0, 0⟩ (by decide)
    (by decide)).2.2.1

theorem loadConfig_some (parsed cfg : Config) (h : loadConfig parsed = some cfg) :
    cfg.Backends = parsed.Backends ∧ cfg.Backends ≠ [] ∧
    cfg.Retry = (if parsed.Retry = 0 then 3 else parsed.Retry) := by
  unfold loadConfig at h
  by_cases hlen : (withDefaults parsed).Backends.length = 0
  · simp [hlen] at h
  · simp only [hlen, if_false, Option.some.injEq] at h
    subst h
    refine ⟨rfl, ?_, rfl⟩
    intro hnil
    exact hlen (by rw [hnil]; rfl)

/-- C20 (the code at the failing input): a configured retry count below zero
is accepted by `loadConfig` and kept as it is. For every POST request with a
JSON object as body `handleChat` then makes no dispatch at all and answers 502
with the message `所有后端失败: <nil>`, the text of a nil error. -/
theorem handleChat_negative_retry (parsed cfg : Config) (net : Net) (rnd : Nat → Nat)
    (isFlusher : Bool) (s : Sel) (r : Request)
    (hload : loadConfig parsed = some cfg) (hneg : parsed.Retry < 0)
    (hreq : r.isChatPost) (hfit : SelFits cfg s 1) :
    cfg.Retry = parsed.Retry ∧
    (handleChat cfg net rnd isFlusher s r).attempts = [] ∧
    (handleChat cfg net rnd isFlusher s r).final = [.error "所有后端失败: <nil>" 502] ∧
    (handleChat cfg net rnd isFlusher s r).panicked = false := by
  obtain ⟨_, hne, hretry⟩ := loadConfig_some parsed cfg hload
  have hnz : ¬ parsed.Retry = 0 := by omega
  rw [if_neg hnz] at hretry
  obtain ⟨b, model, s1, m, stream, _, _, heq⟩ :=
    handleChat_enters cfg net rnd isFlusher s r 0 hreq hne hfit
  have hR : cfg.Retry.toNat = 0 := by omega
  refine ⟨hretry, ?_, ?_, ?_⟩ <;>
    simp [heq, handleSelected, hR, retryLoop, errText]

/-- Witness for C20: `retry: -1` and the request `reqAuto`. -/
theorem handleChat_negative_retry_witness :
    loadConfig parsedNegRetry = some cfgNegRetry ∧
    (handleChat cfgNegRetry netOK (fun _ => 0) true ⟨0, 0⟩ reqAuto).attempts = [] ∧
    (handleChat cfgNegRetry netOK (fun _ => 0) true ⟨0, 0⟩ reqAuto).final =
      [.error "所有后端失败: <nil>" 502] :=
  ⟨by decide,
   (handleChat_negative_retry parsedNegRetry cfgNegRetry netOK (fun _ => 0) true ⟨0, 0⟩ reqAuto
      (by decide) (by decide) ⟨rfl, rfl, ⟨_, rfl⟩, ⟨_, rfl⟩⟩ (by decide)).2.1,
   (handleChat_negative_retry parsedNegRetry cfgNegRetry netOK (fun _ => 0) true ⟨0, 0⟩ reqAuto
      (by decide) (by decide) ⟨rfl, rfl, ⟨_, rfl⟩, ⟨_, rfl⟩⟩ (by decide)).2.2.1⟩

end LLMProxy
